import Mathlib

/-!
# libsel4twinkle: the bootstrap resource allocator

A shallow embedding of `src/allocator.c` (with `include/twinkle/allocator.h`).

Modelling conventions.

* `seL4_Word`, `seL4_CPtr` and `unsigned long` are 32-bit words (the ILP32 targets
  of the library); `int` is a 32-bit two's-complement integer.  Struct fields are
  natural numbers, and every C operator that can wrap is written with an
  explicit reduction modulo `WORD`.
* `assert` halts the program: fallible functions return `Except fault _`, one
  `fault` constructor per assertion site.
* The kernel primitives `seL4_Untyped_Retype` and `seL4_CNode_Recycle` are external
  to the library.  Each invocation is recorded, in order, in the list of
  `kernel_call`s a function returns; the returned error code is `seL4_NoError`.
* `init_untyped_items[0 .. num_init_untyped_items)` is a list (the entries past
  `num_init_untyped_items` are never read), so `num_init_untyped_items` is its length.
* `untyped_items` is the list of the `MAX_UNTYPED_SIZE - MIN_UNTYPED_SIZE + 1` pools.
-/

deriving instance DecidableEq for Except

namespace Twinkle

/-! ## Machine arithmetic -/

/-- Number of values of a machine word (`unsigned long`, `seL4_Word`): `2 ^ 32`. -/
def WORD : Nat := 4294967296

/-- Largest value of `int`: `2 ^ 31 - 1`. -/
def INT_MAX : Nat := 2147483647

/-- Unsigned addition `x + y`. -/
def uadd (x y : Nat) : Nat := (x + y) % WORD

/-- Unsigned subtraction `x - y`. -/
def usub (x y : Nat) : Nat := (x % WORD + (WORD - y % WORD)) % WORD

/-- Conversion of an `int` to `unsigned long`. -/
def to_ulong (i : Int) : Nat := (i % (WORD : Int)).toNat

/-- Conversion of an `unsigned long` to `int` (two's complement truncation). -/
def to_int (n : Nat) : Int :=
  if n % WORD ≤ INT_MAX then ((n % WORD : Nat) : Int) else ((n % WORD : Nat) : Int) - (WORD : Int)

/-! ## Constants of `allocator.h` -/

def MIN_UNTYPED_SIZE : Nat := 4
def MAX_UNTYPED_SIZE : Nat := 32
def MAX_UNTYPED_ITEMS : Nat := 256

/-- Object type tag of untyped memory in the kernel interface. -/
def seL4_UntypedObject : Nat := 0
/-- Slot of the initial thread's root CNode in the kernel interface. -/
def seL4_CapInitThreadCNode : Nat := 2
/-- Width of a machine word in the kernel interface. -/
def seL4_WordBits : Nat := 32

/-! ## Data model -/

/-- The `struct untyped_item` of the header: a seed item handed to `allocator_create`. -/
structure untyped_item where
  cap : Nat
  size_bits : Nat
deriving DecidableEq

/-- The `struct cap_range` of the header. -/
structure cap_range where
  first : Nat
  count : Nat
deriving DecidableEq

/-- One entry of `init_untyped_items`. -/
structure init_untyped_item where
  cap : Nat
  size_bits : Nat
  is_free : Bool
deriving DecidableEq

/-- The `struct allocator` of the header. -/
structure allocator where
  root_cnode : Nat
  root_cnode_depth : Nat
  root_cnode_offset : Nat
  cslots : cap_range
  num_slots_used : Nat
  init_untyped_items : List init_untyped_item
  untyped_items : List cap_range
deriving DecidableEq

/-- The assertion sites of the library (and fuel exhaustion of the recursion model). -/
inductive fault where
  | assert_num_items
  | assert_cap
  | assert_size_min
  | assert_size_max
  | assert_table_full
  | assert_retype_error
  | assert_range_first
  | assert_split_result
  | assert_recycle_error
  | assert_self_test
  | assert_kobject_count
  | out_of_fuel
deriving DecidableEq

/-- An invocation of a kernel primitive, with the arguments the allocator chose. -/
inductive kernel_call where
  | Untyped_Retype (untyped_item item_type item_size root_cnode root_cnode_depth
      node_offset : Nat) (num_items : Int)
  | CNode_Recycle (root cap depth : Nat)
deriving DecidableEq

/-- Error code of `seL4_Untyped_Retype`: the kernel is taken to succeed. -/
def seL4_Untyped_Retype (_untyped_item _item_type _item_size _root _node_index _node_depth
    _node_offset : Nat) (_num_objects : Int) : Nat := 0

/-- Error code of `seL4_CNode_Recycle`: the kernel is taken to succeed. -/
def seL4_CNode_Recycle (_root _index _depth : Nat) : Nat := 0

/-- Number of size-class pools. -/
def NUM_POOLS : Nat := (MAX_UNTYPED_SIZE - MIN_UNTYPED_SIZE) + 1

/-- The pools after the clearing loop that `allocator_create` and `allocator_reset`
run over every size class. -/
def empty_pools : List cap_range := List.replicate NUM_POOLS ⟨0, 0⟩

/-! ## Operations -/

/-- Counterpart of `allocator_add_root_untyped_item`. -/
def allocator_add_root_untyped_item (a : allocator) (cap size_bits : Nat) :
    Except fault allocator :=
  if cap = 0 then .error .assert_cap
  else if size_bits < MIN_UNTYPED_SIZE then .error .assert_size_min
  else if size_bits > MAX_UNTYPED_SIZE then .error .assert_size_max
  else if ¬ (a.init_untyped_items.length < MAX_UNTYPED_ITEMS) then .error .assert_table_full
  else .ok { a with init_untyped_items := a.init_untyped_items ++ [⟨cap, size_bits, true⟩] }

/-- The copy loop of `allocator_create`. -/
def add_items : allocator → List untyped_item → Except fault allocator
  | a, [] => .ok a
  | a, it :: rest =>
    match allocator_add_root_untyped_item a it.cap it.size_bits with
    | .error e => .error e
    | .ok a1 => add_items a1 rest

/-- Counterpart of `allocator_create`; `items.length` is `num_items`. -/
def allocator_create (root_cnode root_cnode_depth root_cnode_offset first_slot num_slots : Nat)
    (items : List untyped_item) : Except fault allocator :=
  if ¬ (items.length < MAX_UNTYPED_ITEMS) then .error .assert_num_items
  else
    add_items
      { root_cnode := root_cnode
        root_cnode_depth := root_cnode_depth
        root_cnode_offset := root_cnode_offset
        cslots := ⟨first_slot, num_slots⟩
        num_slots_used := 0
        init_untyped_items := []
        untyped_items := empty_pools } items

/-- Counterpart of `allocator_alloc_cslot`. -/
def allocator_alloc_cslot (a : allocator) : Nat × allocator :=
  if usub a.cslots.count a.num_slots_used = 0 then (0, a)
  else
    (uadd (uadd a.cslots.first a.num_slots_used) a.root_cnode_offset,
      { a with num_slots_used := uadd a.num_slots_used 1 })

/-- Counterpart of `allocator_alloc_cslots`; `num_slots` is an `int`, converted to
`unsigned long` by the comparison and by the addition. -/
def allocator_alloc_cslots (a : allocator) (num_slots : Int) : Nat × allocator :=
  if usub a.cslots.count a.num_slots_used < to_ulong num_slots then (0, a)
  else
    (uadd (uadd a.cslots.first a.num_slots_used) a.root_cnode_offset,
      { a with num_slots_used := uadd a.num_slots_used (to_ulong num_slots) })

/-- Counterpart of `allocator_retype_untyped_memory`.  The function returns the
`int` result, the range written through `result`, the allocator and the kernel
calls issued. -/
def allocator_retype_untyped_memory (a : allocator) (untyped_item item_type item_size : Nat)
    (num_items : Int) : Except fault (Int × cap_range × allocator × List kernel_call) :=
  let max_objects : Int := to_int (usub a.cslots.count a.num_slots_used)
  if num_items > max_objects then .ok (0, ⟨0, 0⟩, a, [])
  else
    let node_offset := uadd a.cslots.first a.num_slots_used
    let error := seL4_Untyped_Retype untyped_item item_type item_size seL4_CapInitThreadCNode
      a.root_cnode a.root_cnode_depth node_offset num_items
    if error ≠ 0 then .error .assert_retype_error
    else
      .ok (num_items,
        ⟨uadd (uadd a.cslots.first a.num_slots_used) a.root_cnode_offset, to_ulong num_items⟩,
        { a with num_slots_used := uadd a.num_slots_used (to_ulong num_items) },
        [.Untyped_Retype untyped_item item_type item_size a.root_cnode a.root_cnode_depth
          node_offset num_items])

/-- Counterpart of `range_alloc`: the returned handle and the updated range. -/
def range_alloc (range : cap_range) (count : Int) : Except fault (Nat × cap_range) :=
  if range.count < to_ulong count then .ok (0, range)
  else if range.first = 0 then .error .assert_range_first
  else
    let c := usub range.count (to_ulong count)
    .ok (uadd range.first c, ⟨range.first, c⟩)

/-- The scan of `init_untyped_items` in `allocator_alloc_untyped`: the first free
entry of the requested size is marked used and its cap returned. -/
def scan_roots : List init_untyped_item → Nat → Option (Nat × List init_untyped_item)
  | [], _ => none
  | it :: rest, size_bits =>
    if it.is_free ∧ it.size_bits = size_bits then
      some (it.cap, { it with is_free := false } :: rest)
    else
      match scan_roots rest size_bits with
      | none => none
      | some (c, rest1) => some (c, it :: rest1)

/-- Body of `allocator_alloc_untyped`, recursing on `fuel` for the recursive call
with `size_bits + 1`. -/
def alloc_untyped_fuel :
    Nat → allocator → Nat → Except fault (Nat × allocator × List kernel_call)
  | 0, _, _ => .error .out_of_fuel
  | fuel + 1, a, size_bits =>
    if size_bits < MIN_UNTYPED_SIZE then .ok (0, a, [])
    else if size_bits > MAX_UNTYPED_SIZE then .ok (0, a, [])
    else
      let idx := size_bits - MIN_UNTYPED_SIZE
      match range_alloc (a.untyped_items.getD idx ⟨0, 0⟩) 1 with
      | .error e => .error e
      | .ok (result, pool1) =>
        let a1 := { a with untyped_items := a.untyped_items.set idx pool1 }
        if result ≠ 0 then .ok (result, a1, [])
        else
          match scan_roots a1.init_untyped_items size_bits with
          | some (c, items1) => .ok (c, { a1 with init_untyped_items := items1 }, [])
          | none =>
            match alloc_untyped_fuel fuel a1 (size_bits + 1) with
            | .error e => .error e
            | .ok (big_untyped_item, a2, calls) =>
              if big_untyped_item = 0 then .ok (0, a2, calls)
              else
                match allocator_retype_untyped_memory a2 big_untyped_item seL4_UntypedObject
                    size_bits 2 with
                | .error e => .error e
                | .ok (created_objects, range, a3, calls2) =>
                  let a4 := { a3 with untyped_items := a3.untyped_items.set idx range }
                  if created_objects = 0 then .ok (0, a4, calls ++ calls2)
                  else
                    match range_alloc range 1 with
                    | .error e => .error e
                    | .ok (result2, pool2) =>
                      if result2 = 0 then .error .assert_split_result
                      else
                        .ok (result2,
                          { a4 with untyped_items := a4.untyped_items.set idx pool2 },
                          calls ++ calls2)

/-- Fuel that covers the deepest recursion, from `MIN_UNTYPED_SIZE` up to the
rejected class `MAX_UNTYPED_SIZE + 1`. -/
def ALLOC_FUEL : Nat := (MAX_UNTYPED_SIZE - MIN_UNTYPED_SIZE) + 2

/-- Counterpart of `allocator_alloc_untyped`. -/
def allocator_alloc_untyped (a : allocator) (size_bits : Nat) :
    Except fault (Nat × allocator × List kernel_call) :=
  alloc_untyped_fuel ALLOC_FUEL a size_bits

/-- The recycle loop of `allocator_reset`. -/
def recycle_items : List init_untyped_item → Except fault (List init_untyped_item × List kernel_call)
  | [] => .ok ([], [])
  | it :: rest =>
    if it.is_free then
      match recycle_items rest with
      | .error e => .error e
      | .ok (rest1, calls) => .ok (it :: rest1, calls)
    else
      let error := seL4_CNode_Recycle seL4_CapInitThreadCNode it.cap seL4_WordBits
      if error ≠ 0 then .error .assert_recycle_error
      else
        match recycle_items rest with
        | .error e => .error e
        | .ok (rest1, calls) =>
          .ok ({ it with is_free := true } :: rest1,
            .CNode_Recycle seL4_CapInitThreadCNode it.cap seL4_WordBits :: calls)

/-- Counterpart of `allocator_reset`. -/
def allocator_reset (a : allocator) : Except fault (allocator × List kernel_call) :=
  match recycle_items a.init_untyped_items with
  | .error e => .error e
  | .ok (items1, calls) =>
    .ok ({ a with init_untyped_items := items1, num_slots_used := 0,
                  untyped_items := empty_pools }, calls)

/-- Counterpart of `allocator_destroy`. -/
def allocator_destroy (a : allocator) : Except fault (allocator × List kernel_call) :=
  allocator_reset a

/-- Counterpart of `allocator_self_test`. -/
def allocator_self_test (a : allocator) : Except fault (allocator × List kernel_call) :=
  match allocator_alloc_untyped a MIN_UNTYPED_SIZE with
  | .error e => .error e
  | .ok (x, a1, c1) =>
    match allocator_reset a1 with
    | .error e => .error e
    | .ok (a2, c2) =>
      match allocator_alloc_untyped a2 MIN_UNTYPED_SIZE with
      | .error e => .error e
      | .ok (y, a3, c3) =>
        match allocator_reset a3 with
        | .error e => .error e
        | .ok (a4, c4) =>
          if x ≠ y then .error .assert_self_test
          else .ok (a4, c1 ++ c2 ++ c3 ++ c4)

/-- The `while (1)` loop of `allocator_create_child` for one size class `i`; it
returns the parent, the child and the kernel calls issued. -/
def drain_class :
    Nat → allocator → allocator → Nat → Except fault (allocator × allocator × List kernel_call)
  | 0, _, _, _ => .error .out_of_fuel
  | fuel + 1, parent, child, i =>
    match allocator_alloc_untyped parent i with
    | .error e => .error e
    | .ok (r, parent1, calls) =>
      if r = 0 then .ok (parent1, child, calls)
      else
        match allocator_add_root_untyped_item child r i with
        | .error e => .error e
        | .ok child1 =>
          match drain_class fuel parent1 child1 i with
          | .error e => .error e
          | .ok (parent2, child2, calls2) => .ok (parent2, child2, calls ++ calls2)

/-- Fuel of the drain loop: the child's root table holds at most `MAX_UNTYPED_ITEMS`
items, so the loop body runs at most `MAX_UNTYPED_ITEMS + 1` times. -/
def DRAIN_FUEL : Nat := MAX_UNTYPED_ITEMS + 1

/-- The `for` loop of `allocator_create_child`: `drain_down n` runs the size classes
`MIN_UNTYPED_SIZE + n - 1` down to `MIN_UNTYPED_SIZE`. -/
def drain_down :
    Nat → allocator → allocator → Except fault (allocator × allocator × List kernel_call)
  | 0, parent, child => .ok (parent, child, [])
  | n + 1, parent, child =>
    match drain_class DRAIN_FUEL parent child (MIN_UNTYPED_SIZE + n) with
    | .error e => .error e
    | .ok (parent1, child1, calls) =>
      match drain_down n parent1 child1 with
      | .error e => .error e
      | .ok (parent2, child2, calls2) => .ok (parent2, child2, calls ++ calls2)

/-- Counterpart of `allocator_create_child`: the parent after the drain, the child
and the kernel calls issued. -/
def allocator_create_child (parent : allocator)
    (root_cnode root_cnode_depth root_cnode_offset first_slot num_slots : Nat) :
    Except fault (allocator × allocator × List kernel_call) :=
  match allocator_create root_cnode root_cnode_depth root_cnode_offset first_slot num_slots [] with
  | .error e => .error e
  | .ok child => drain_down NUM_POOLS parent child

/-! ## Sequences of allocations -/

/-- An allocation request of a client. -/
inductive op where
  | alloc_cslot
  | alloc_cslots (num_slots : Int)
  | alloc_untyped (size_bits : Nat)
  | retype_untyped_memory (untyped_item item_type item_size : Nat) (num_items : Int)
deriving DecidableEq

/-- One request: the value handed back to the client and the allocator afterwards
(for a retype, the first cap of the range written through `result`). -/
def step (o : op) (a : allocator) : Except fault (Nat × allocator) :=
  match o with
  | .alloc_cslot => .ok (allocator_alloc_cslot a)
  | .alloc_cslots n => .ok (allocator_alloc_cslots a n)
  | .alloc_untyped k =>
    match allocator_alloc_untyped a k with
    | .error e => .error e
    | .ok (r, a1, _) => .ok (r, a1)
  | .retype_untyped_memory u t s n =>
    match allocator_retype_untyped_memory a u t s n with
    | .error e => .error e
    | .ok (_, range, a1, _) => .ok (range.first, a1)

/-- A sequence of requests, run in order. -/
def run_ops : List op → allocator → Except fault allocator
  | [], a => .ok a
  | o :: rest, a =>
    match step o a with
    | .error e => .error e
    | .ok (_, a1) => run_ops rest a1

/-- Number of requests `alloc_untyped(MIN_UNTYPED_SIZE)` of a sequence that returned
a handle (a fault ends the sequence). -/
def min_successes : List op → allocator → Nat
  | [], _ => 0
  | o :: rest, a =>
    match step o a with
    | .error _ => 0
    | .ok (r, a1) =>
      (if o = .alloc_untyped MIN_UNTYPED_SIZE ∧ r ≠ 0 then 1 else 0) + min_successes rest a1

/-- The states an allocator goes through: built by `allocator_create`, then changed by
`allocator_add_root_untyped_item`, by the requests of `op` and by `allocator_reset`,
as long as these return. -/
inductive reachable : allocator → Prop where
  | create (rc rd ro first n : Nat) (items : List untyped_item) (a : allocator) :
      allocator_create rc rd ro first n items = .ok a → reachable a
  | add_root (a a' : allocator) (cap size_bits : Nat) :
      reachable a → allocator_add_root_untyped_item a cap size_bits = .ok a' → reachable a'
  | step (a a' : allocator) (o : op) (r : Nat) :
      reachable a → step o a = .ok (r, a') → reachable a'
  | reset (a a' : allocator) (cs : List kernel_call) :
      reachable a → allocator_reset a = .ok (a', cs) → reachable a'

/-! ## State predicates -/

/-- Slots that remain, as the expression `cslots.count - num_slots_used` of the code. -/
def slots_remaining (a : allocator) : Nat := usub a.cslots.count a.num_slots_used

/-- The cap of the next unused slot, `cslots.first + num_slots_used + root_cnode_offset`. -/
def next_slot (a : allocator) : Nat :=
  uadd (uadd a.cslots.first a.num_slots_used) a.root_cnode_offset

/-- The pool `untyped_items[size_bits - MIN_UNTYPED_SIZE]`. -/
def pool_of (a : allocator) (size_bits : Nat) : cap_range :=
  a.untyped_items.getD (size_bits - MIN_UNTYPED_SIZE) ⟨0, 0⟩

/-- Some available root item has the given size class. -/
def has_root (a : allocator) (size_bits : Nat) : Prop :=
  ∃ it ∈ a.init_untyped_items, it.is_free = true ∧ it.size_bits = size_bits

/-- The size class holds an available item: a pooled one or an available root item. -/
def class_avail (a : allocator) (size_bits : Nat) : Prop :=
  (pool_of a size_bits).count ≠ 0 ∨ has_root a size_bits

instance (a : allocator) (k : Nat) : Decidable (has_root a k) := by
  unfold has_root; infer_instance

instance (a : allocator) (k : Nat) : Decidable (class_avail a k) := by
  unfold class_avail; infer_instance

/-- A pool of a running allocator: empty, or the one item left over by a split. -/
def pool_ok (p : cap_range) : Prop :=
  p.count = 0 ∨ (p.count = 1 ∧ 0 < p.first ∧ p.first < WORD)

instance (p : cap_range) : Decidable (pool_ok p) := by
  unfold pool_ok; infer_instance

/-- All pools are present and each is `pool_ok`. -/
def pools_ok (a : allocator) : Prop :=
  a.untyped_items.length = NUM_POOLS ∧ ∀ p ∈ a.untyped_items, pool_ok p

instance (a : allocator) : Decidable (pools_ok a) := by
  unfold pools_ok; infer_instance

/-- The root table as `allocator_add_root_untyped_item` builds it: non-null caps, size
classes in range, at most `MAX_UNTYPED_ITEMS` entries. -/
def roots_ok (a : allocator) : Prop :=
  a.init_untyped_items.length ≤ MAX_UNTYPED_ITEMS ∧
  ∀ it ∈ a.init_untyped_items,
    it.cap ≠ 0 ∧ MIN_UNTYPED_SIZE ≤ it.size_bits ∧ it.size_bits ≤ MAX_UNTYPED_SIZE

instance (a : allocator) : Decidable (roots_ok a) := by
  unfold roots_ok; infer_instance

/-- The slot window of a running allocator: the counter is within the window, the
window size is an `int`, and the caps of the window do not wrap around. -/
def slots_ok (a : allocator) : Prop :=
  a.num_slots_used ≤ a.cslots.count ∧ a.cslots.count ≤ INT_MAX ∧
  a.cslots.first + a.root_cnode_offset + a.cslots.count ≤ WORD

instance (a : allocator) : Decidable (slots_ok a) := by
  unfold slots_ok; infer_instance

/-- Capacity of the available root items: the sum of `2 ^ size_bits`. -/
def roots_capacity : List init_untyped_item → Nat
  | [] => 0
  | it :: rest => (if it.is_free then 2 ^ it.size_bits else 0) + roots_capacity rest

/-- Capacity of the pooled items, the head of the list being the pool of class `k`. -/
def pools_capacity : Nat → List cap_range → Nat
  | _, [] => 0
  | k, p :: ps => p.count * 2 ^ k + pools_capacity (k + 1) ps

/-- Total available capacity: the sum of `2 ^ class` over available root items and
pooled items. -/
def capacity (a : allocator) : Nat :=
  roots_capacity a.init_untyped_items + pools_capacity MIN_UNTYPED_SIZE a.untyped_items

/-- Number of available items: available root items plus pooled items. -/
def avail_items (a : allocator) : Nat :=
  (a.init_untyped_items.filter (fun it => it.is_free)).length +
    (a.untyped_items.map (fun p => p.count)).sum

/-- The part of `allocator_alloc_untyped` after a successful recursive call: the
retype of `big_untyped_item` into the pool and the allocation out of the split. -/
def split_step (a2 : allocator) (big_untyped_item size_bits : Nat) (calls : List kernel_call) :
    Except fault (Nat × allocator × List kernel_call) :=
  match allocator_retype_untyped_memory a2 big_untyped_item seL4_UntypedObject size_bits 2 with
  | .error e => .error e
  | .ok (created_objects, range, a3, calls2) =>
    let a4 := { a3 with
      untyped_items := a3.untyped_items.set (size_bits - MIN_UNTYPED_SIZE) range }
    if created_objects = 0 then .ok (0, a4, calls ++ calls2)
    else
      match range_alloc range 1 with
      | .error e => .error e
      | .ok (result2, pool2) =>
        if result2 = 0 then .error .assert_split_result
        else
          .ok (result2,
            { a4 with
              untyped_items := a4.untyped_items.set (size_bits - MIN_UNTYPED_SIZE) pool2 },
            calls ++ calls2)

/-- The part of the allocator that no allocation changes: the CNode fields, the slot
window, the caps and size classes of the root table and the number of pools. -/
def same_frame (a a' : allocator) : Prop :=
  a'.root_cnode = a.root_cnode ∧ a'.root_cnode_depth = a.root_cnode_depth ∧
  a'.root_cnode_offset = a.root_cnode_offset ∧ a'.cslots = a.cslots ∧
  a'.init_untyped_items.map (fun it => (it.cap, it.size_bits)) =
    a.init_untyped_items.map (fun it => (it.cap, it.size_bits)) ∧
  a'.untyped_items.length = a.untyped_items.length

/-- A freshly created allocator: nothing consumed, every pool cleared, every root
item available. -/
def fresh (a : allocator) : Prop :=
  a.num_slots_used = 0 ∧ a.untyped_items = empty_pools ∧
  ∀ it ∈ a.init_untyped_items, it.is_free = true

/-- Marks a root item available, as the recycle loop of `allocator_reset` leaves it. -/
def mark_free (it : init_untyped_item) : init_untyped_item := { it with is_free := true }

/-- The recycle call `allocator_reset` issues for a root item. -/
def recycle_call (it : init_untyped_item) : kernel_call :=
  .CNode_Recycle seL4_CapInitThreadCNode it.cap seL4_WordBits

/-- Example: the allocator `allocator_create` builds over the window of five slots at
10 from one root item of class 6. -/
def ex_created : allocator := ⟨2, 32, 0, ⟨10, 5⟩, 0, [⟨100, 6, true⟩], empty_pools⟩

/-- Example: `ex_created` after `alloc_untyped(4)` and `alloc_cslot`. -/
def ex_used : allocator :=
  ⟨2, 32, 0, ⟨10, 5⟩, 5, [⟨100, 6, false⟩], (empty_pools.set 0 ⟨12, 1⟩).set 1 ⟨10, 1⟩⟩

/-- Example: a fresh allocator over three slots at 10 of a CNode with
`root_cnode_offset = 5`, as `allocator_create 2 32 5 10 3 []` builds it. -/
def ex_offset : allocator := ⟨2, 32, 5, ⟨10, 3⟩, 0, [], empty_pools⟩

/-- Example: a fresh allocator over the one slot at 0 with `root_cnode_offset = 0`, as
`allocator_create 2 32 0 0 1 []` builds it. -/
def ex_slot_zero : allocator := ⟨2, 32, 0, ⟨0, 1⟩, 0, [], empty_pools⟩

/-- Example: a fresh allocator with an empty slot window and one root item of class 5,
as `allocator_create 2 32 0 10 0 [(100, 5)]` builds it. -/
def ex_no_slots : allocator := ⟨2, 32, 0, ⟨10, 0⟩, 0, [⟨100, 5, true⟩], empty_pools⟩

/-- Example: a fresh allocator over three slots at 10 with one root item of class 6, as
`allocator_create 2 32 0 10 3 [(100, 6)]` builds it. -/
def ex_three_slots : allocator := ⟨2, 32, 0, ⟨10, 3⟩, 0, [⟨100, 6, true⟩], empty_pools⟩

/-- Counterpart of `allocator_alloc_kobject` of `object_allocator.c`.  The sizing
function `vka_get_object_size` belongs to another library and is a parameter. -/
def allocator_alloc_kobject (vka_get_object_size : Nat → Nat → Nat) (a : allocator)
    (item_type item_size : Nat) : Except fault (Nat × allocator × List kernel_call) :=
  let size_bits := vka_get_object_size item_type item_size
  match allocator_alloc_untyped a size_bits with
  | .error e => .error e
  | .ok (untyped_memory, a1, calls) =>
    if untyped_memory = 0 then .ok (0, a1, calls)
    else
      match allocator_retype_untyped_memory a1 untyped_memory item_type item_size 1 with
      | .error e => .error e
      | .ok (result, cap_range, a2, calls2) =>
        if ¬ (result = 0 ∨ result = 1) then .error .assert_kobject_count
        else .ok (cap_range.first, a2, calls ++ calls2)

/-- Example: a fresh allocator over the slots 10 to 14 whose only root item has class 4. -/
def ex_small : allocator := ⟨2, 32, 0, ⟨10, 5⟩, 0, [⟨100, 4, true⟩], empty_pools⟩

/-- Example: a full root table, 256 available items of class 4. -/
def ex_full : allocator :=
  ⟨2, 32, 0, ⟨10, 5⟩, 0, List.replicate MAX_UNTYPED_ITEMS ⟨1, 4, true⟩, empty_pools⟩

/-- The pooled items of a pool of class `k`, top item first, as root items of a child. -/
def pooled_items (p : cap_range) (k : Nat) : List init_untyped_item :=
  (List.range p.count).reverse.map (fun j => ⟨p.first + j, k, true⟩)

/-- The available root items of class `k`, in table order, as root items of a child. -/
def free_roots_of (l : List init_untyped_item) (k : Nat) : List init_untyped_item :=
  (l.filter (fun it => it.is_free && it.size_bits == k)).map (fun it => ⟨it.cap, k, true⟩)

/-- The available items of one size class: the pooled items, then the available root
items of that class. -/
def class_items (a : allocator) (k : Nat) : List init_untyped_item :=
  pooled_items (pool_of a k) k ++ free_roots_of a.init_untyped_items k

/-- The available items of the `n` lowest size classes, largest class first. -/
def avail_from_top : Nat → allocator → List init_untyped_item
  | 0, _ => []
  | n + 1, a => class_items a (MIN_UNTYPED_SIZE + n) ++ avail_from_top n a

/-- Every item a state holds as available (available root items and pooled items), each
with its size class, ordered from `MAX_UNTYPED_SIZE` down to `MIN_UNTYPED_SIZE`. -/
def available_items (a : allocator) : List init_untyped_item :=
  avail_from_top NUM_POOLS a

/-- The pooled items of the pools from class `k` on, as (cap, class) pairs. -/
def pooled_from : Nat → List cap_range → List (Nat × Nat)
  | _, [] => []
  | k, p :: ps =>
    (pooled_items p k).map (fun it => (it.cap, it.size_bits)) ++ pooled_from (k + 1) ps

/-- The items a state holds as available, as (cap, class) pairs: its available root
items and the items of its pools. -/
def held_items (a : allocator) : List (Nat × Nat) :=
  (a.init_untyped_items.filter (fun it => it.is_free)).map (fun it => (it.cap, it.size_bits)) ++
    pooled_from MIN_UNTYPED_SIZE a.untyped_items

/-- Class `j` is the smallest class from `k` up that holds an available item. -/
def least_avail (a : allocator) (k j : Nat) : Prop :=
  k ≤ j ∧ j ≤ MAX_UNTYPED_SIZE ∧ class_avail a j ∧ ∀ c, c < j → k ≤ c → ¬ class_avail a c

instance (a : allocator) (k j : Nat) : Decidable (least_avail a k j) := by
  unfold least_avail; infer_instance

/-- What a successful `alloc_untyped(k)` served from class `j` leaves behind, `a2` being
the state after the item of class `j` was taken: `2 * (j - k)` more slots consumed, one
retype per level, the root table and the pools from `j` up as in `a2`, one item in each
pool from `k` to `j - 1`, the pools below `k` untouched. -/
def split_effect (a a2 a' : allocator) (k j : Nat) (cs : List kernel_call) : Prop :=
  a'.num_slots_used = a.num_slots_used + 2 * (j - k) ∧
  cs.length = j - k ∧
  a'.init_untyped_items = a2.init_untyped_items ∧
  (∀ c, j ≤ c → pool_of a' c = pool_of a2 c) ∧
  (∀ c, k ≤ c → c < j → (pool_of a' c).count = 1) ∧
  (∀ c, MIN_UNTYPED_SIZE ≤ c → c < k → pool_of a' c = pool_of a c)

/-- A call of the client interface: a request of `op`, `allocator_alloc_kobject`,
`allocator_add_root_untyped_item` or `allocator_reset`. -/
inductive request where
  | alloc (o : op)
  | alloc_kobject (item_type item_size : Nat)
  | add_root_untyped_item (cap size_bits : Nat)
  | reset
deriving DecidableEq

/-- The request passes a non-negative object count to `retype_untyped_memory`. -/
def valid_request : request → Prop
  | .alloc (.retype_untyped_memory _ _ _ n) => 0 ≤ n
  | _ => True

instance (q : request) : Decidable (valid_request q) := by
  unfold valid_request; split <;> infer_instance

/-- One call: the caps it hands to the client and the allocator afterwards.  A slot
request hands out the slots of the range it returns, as many as the counter advances by
(none when it returns zero), an untyped or object request the cap it returns (none when
zero), a retype the range written through `result`. -/
def serve (vka_get_object_size : Nat → Nat → Nat) (q : request) (a : allocator) :
    Except fault (List Nat × allocator) :=
  match q with
  | .alloc .alloc_cslot =>
    let res := allocator_alloc_cslot a
    .ok (if res.1 = 0 then [] else [res.1], res.2)
  | .alloc (.alloc_cslots n) =>
    let res := allocator_alloc_cslots a n
    .ok (if res.1 = 0 then [] else List.range' res.1 (to_ulong n), res.2)
  | .alloc (.alloc_untyped k) =>
    match allocator_alloc_untyped a k with
    | .error e => .error e
    | .ok (r, a1, _) => .ok (if r = 0 then [] else [r], a1)
  | .alloc (.retype_untyped_memory u t s n) =>
    match allocator_retype_untyped_memory a u t s n with
    | .error e => .error e
    | .ok (_, range, a1, _) => .ok (List.range' range.first range.count, a1)
  | .alloc_kobject t s =>
    match allocator_alloc_kobject vka_get_object_size a t s with
    | .error e => .error e
    | .ok (r, a1, _) => .ok (if r = 0 then [] else [r], a1)
  | .add_root_untyped_item cap k =>
    match allocator_add_root_untyped_item a cap k with
    | .error e => .error e
    | .ok a1 => .ok ([], a1)
  | .reset =>
    match allocator_reset a with
    | .error e => .error e
    | .ok (a1, _) => .ok ([], a1)

/-- A sequence of calls, run in order: the caps handed out, in order, and the final
allocator. -/
def serve_all (vka_get_object_size : Nat → Nat → Nat) :
    List request → allocator → Except fault (List Nat × allocator)
  | [], a => .ok ([], a)
  | q :: rest, a =>
    match serve vka_get_object_size q a with
    | .error e => .error e
    | .ok (hs, a1) =>
      match serve_all vka_get_object_size rest a1 with
      | .error e => .error e
      | .ok (hs2, a2) => .ok (hs ++ hs2, a2)

/-- The slot counter is within the window, and the window count is a machine word. -/
def counter_ok (a : allocator) : Prop :=
  a.num_slots_used ≤ a.cslots.count ∧ a.cslots.count < WORD

instance (a : allocator) : Decidable (counter_ok a) := by
  unfold counter_ok; infer_instance

/-- Example: the state of `allocator_create 2 32 0 10 5 [(100, 6)]` after a slot request,
a retype of one object, a reset and a request for two slots. -/
def ex_accounted : allocator := ⟨2, 32, 0, ⟨10, 5⟩, 2, [⟨100, 6, true⟩], empty_pools⟩

/-- A call that stays within an epoch: a slot request, an untyped request, an object
request, or a retype with a non-negative object count. -/
def epoch_request : request → Prop
  | .alloc (.retype_untyped_memory _ _ _ n) => 0 ≤ n
  | .alloc _ => True
  | .alloc_kobject _ _ => True
  | _ => False

instance (q : request) : Decidable (epoch_request q) := by
  unfold epoch_request; split <;> infer_instance

/-- First cap of the slot window: `cslots.first + root_cnode_offset`. -/
def window_base (a : allocator) : Nat := a.cslots.first + a.root_cnode_offset

/-- The pool at index `i` of the pool array. -/
def pool_at (a : allocator) (i : Nat) : cap_range := a.untyped_items.getD i ⟨0, 0⟩

/-- How a state relates to the caps `H` handed out since it was created: the handed
caps are pairwise distinct, each one a consumed slot of the window or the cap of an
unavailable root item; the root caps are pairwise distinct and outside the window;
the pooled items are consumed slots, pairwise distinct and not handed out; no available
root item was handed out. -/
structure handed_inv (a : allocator) (H : List Nat) : Prop where
  counter : a.num_slots_used ≤ a.cslots.count
  word : a.cslots.count < WORD
  no_wrap : window_base a + a.cslots.count ≤ WORD
  pools : pools_ok a
  nodup : H.Nodup
  origin : ∀ h ∈ H, (window_base a ≤ h ∧ h < window_base a + a.num_slots_used) ∨
    ∃ it ∈ a.init_untyped_items, it.is_free = false ∧ it.cap = h
  roots_nodup : (a.init_untyped_items.map (fun it => it.cap)).Nodup
  roots_outside : ∀ it ∈ a.init_untyped_items,
    it.cap < window_base a ∨ window_base a + a.cslots.count ≤ it.cap
  pooled_in : ∀ i, (pool_at a i).count ≠ 0 →
    window_base a ≤ (pool_at a i).first ∧
    (pool_at a i).first < window_base a + a.num_slots_used ∧ (pool_at a i).first ∉ H
  pooled_distinct : ∀ i j, i ≠ j → (pool_at a i).count ≠ 0 → (pool_at a j).count ≠ 0 →
    (pool_at a i).first ≠ (pool_at a j).first
  free_fresh : ∀ it ∈ a.init_untyped_items, it.is_free = true → it.cap ∉ H

/-- Example: the state of `allocator_create 2 32 0 10 8 [(100, 6), (101, 4)]` after a
slot request, `alloc_untyped(5)`, a retype of one object, a request for one slot and an
object request of class 4. -/
def ex_epoch : allocator :=
  ⟨2, 32, 0, ⟨10, 8⟩, 6, [⟨100, 6, false⟩, ⟨101, 4, false⟩], empty_pools.set 1 ⟨11, 1⟩⟩

/-- The conditions under which the assertions of the split path hold: the slot counter is
within the window, the window starts at a non-zero cap and does not wrap around, and
every non-empty pool holds one item, a consumed slot of the window. -/
def split_safe (a : allocator) : Prop :=
  counter_ok a ∧ 1 ≤ window_base a ∧ window_base a + a.cslots.count ≤ WORD ∧ pools_ok a ∧
  ∀ i, (pool_at a i).count ≠ 0 →
    window_base a ≤ (pool_at a i).first ∧
    (pool_at a i).first < window_base a + a.num_slots_used

/-- Where a returned cap comes from: the pooled item of the class, an available root item
of the class, or the second of the two slots the last split filled. -/
def real_handle (a a' : allocator) (k r : Nat) (cs : List kernel_call) : Prop :=
  ((pool_of a k).count = 1 ∧ r = (pool_of a k).first ∧
    window_base a ≤ r ∧ r < window_base a + a.num_slots_used) ∨
  (∃ it ∈ a.init_untyped_items, it.is_free = true ∧ it.size_bits = k ∧ it.cap = r) ∨
  (∃ big calls, big ≠ 0 ∧
    cs = calls ++ [.Untyped_Retype big seL4_UntypedObject k a'.root_cnode a'.root_cnode_depth
      (a'.cslots.first + (a'.num_slots_used - 2)) 2] ∧
    2 ≤ a'.num_slots_used ∧
    r = a'.cslots.first + (a'.num_slots_used - 2) + a'.root_cnode_offset + 1 ∧
    pool_of a' k = ⟨r - 1, 1⟩)

/-- Example: a fresh allocator over sixty slots at 10 seeded with one root item of the
largest class, as `allocator_create 2 32 0 10 60 [(100, 32)]` builds it. -/
def ex_wide : allocator := ⟨2, 32, 0, ⟨10, 60⟩, 0, [⟨100, 32, true⟩], empty_pools⟩

/-- Example: a fresh allocator over `2 ^ 31` slots at 10 with one root item of class 5, as
`allocator_create 2 32 0 10 2147483648 [(100, 5)]` builds it. -/
def ex_huge : allocator := ⟨2, 32, 0, ⟨10, 2147483648⟩, 0, [⟨100, 5, true⟩], empty_pools⟩

/-- Example: the allocator of `allocator_create 2 32 0 4294967294 4 [(100, 5)]`, whose
window runs past the last cap `2 ^ 32 - 1`, after `alloc_cslots(2)`. -/
def ex_wrap : allocator := ⟨2, 32, 0, ⟨4294967294, 4⟩, 2, [⟨100, 5, true⟩], empty_pools⟩

/-- Example: the allocator of `allocator_create 2 32 0 4294967293 4 [(100, 5)]` after
`alloc_cslots(2)`. -/
def ex_wrap_next : allocator := ⟨2, 32, 0, ⟨4294967293, 4⟩, 2, [⟨100, 5, true⟩], empty_pools⟩

/-- Example: a parent holding 257 available items: a table of 256 root items of class 32
after one `alloc_untyped(30)`, which took the first root item and left one item in pool 31
and one in pool 30. -/
def ex_crowded : allocator :=
  ⟨2, 32, 0, ⟨10, 5⟩, 4, ⟨100, 32, false⟩ :: List.replicate 255 ⟨1, 32, true⟩,
    (empty_pools.set 27 ⟨10, 1⟩).set 26 ⟨12, 1⟩⟩

/-! ## Basic facts -/

theorem set_getD_self {α : Type} (l : List α) (i : Nat) (d : α) : l.set i (l.getD i d) = l := by
  induction l generalizing i with
  | nil => simp
  | cons x xs ih =>
    cases i with
    | zero => simp
    | succ j => simpa using ih j

theorem getD_set_eq {α : Type} (l : List α) (i : Nat) (x d : α) (h : i < l.length) :
    (l.set i x).getD i d = x := by
  induction l generalizing i with
  | nil => simp at h
  | cons y ys ih =>
    cases i with
    | zero => simp
    | succ j => simpa using ih j (by simpa using h)

theorem getD_set_ne {α : Type} (l : List α) (i j : Nat) (x d : α) (h : i ≠ j) :
    (l.set i x).getD j d = l.getD j d := by
  induction l generalizing i j with
  | nil => simp
  | cons y ys ih =>
    cases i with
    | zero =>
      cases j with
      | zero => exact absurd rfl h
      | succ j => simp
    | succ i =>
      cases j with
      | zero => simp
      | succ j => simpa using ih i j (by omega)

theorem to_ulong_one : to_ulong 1 = 1 := by decide

theorem to_ulong_two : to_ulong 2 = 2 := by decide

theorem range_alloc_empty (f : Nat) : range_alloc ⟨f, 0⟩ 1 = .ok (0, ⟨f, 0⟩) := by
  simp [range_alloc, to_ulong_one]

theorem range_alloc_one (f : Nat) (h0 : 0 < f) (h1 : f < WORD) :
    range_alloc ⟨f, 1⟩ 1 = .ok (f, ⟨f, 0⟩) := by
  have hu : usub 1 1 = 0 := by decide
  have hf : uadd f 0 = f := by unfold uadd; simpa using Nat.mod_eq_of_lt h1
  simp [range_alloc, to_ulong_one, hu, hf]
  omega

theorem alloc_out_of_range (fuel : Nat) (a : allocator) (k : Nat)
    (h : k < MIN_UNTYPED_SIZE ∨ MAX_UNTYPED_SIZE < k) :
    alloc_untyped_fuel (fuel + 1) a k = .ok (0, a, []) := by
  unfold alloc_untyped_fuel
  rcases h with h | h
  · simp [h]
  · by_cases h' : k < MIN_UNTYPED_SIZE
    · simp [h']
    · simp [h', h]

theorem pool_count_zero (a : allocator) (k : Nat) (hp : (pool_of a k).count = 0) :
    range_alloc (a.untyped_items.getD (k - MIN_UNTYPED_SIZE) ⟨0, 0⟩) 1 =
      .ok (0, a.untyped_items.getD (k - MIN_UNTYPED_SIZE) ⟨0, 0⟩) := by
  unfold pool_of at hp
  generalize a.untyped_items.getD (k - MIN_UNTYPED_SIZE) ⟨0, 0⟩ = p at hp
  cases p with
  | mk f c =>
    simp only at hp
    subst hp
    exact range_alloc_empty f

theorem set_pool_self (a : allocator) (i : Nat) :
    ({ a with untyped_items := a.untyped_items.set i (a.untyped_items.getD i ⟨0, 0⟩) } : allocator)
      = a := by
  rw [set_getD_self]

theorem alloc_pool_hit (fuel : Nat) (a : allocator) (k f : Nat)
    (h1 : MIN_UNTYPED_SIZE ≤ k) (h2 : k ≤ MAX_UNTYPED_SIZE)
    (hp : pool_of a k = ⟨f, 1⟩) (h0 : 0 < f) (hW : f < WORD) :
    alloc_untyped_fuel (fuel + 1) a k =
      .ok (f, { a with untyped_items := a.untyped_items.set (k - MIN_UNTYPED_SIZE) ⟨f, 0⟩ },
        []) := by
  unfold pool_of at hp
  unfold alloc_untyped_fuel
  have h1' : ¬ k < MIN_UNTYPED_SIZE := by omega
  have h2' : ¬ k > MAX_UNTYPED_SIZE := by omega
  have hf : f ≠ 0 := by omega
  simp only [h1', h2', if_false]
  rw [hp, range_alloc_one f h0 hW]
  simp only [ne_eq, hf, not_false_eq_true, if_true]

theorem alloc_root_hit (fuel : Nat) (a : allocator) (k c : Nat) (items1 : List init_untyped_item)
    (h1 : MIN_UNTYPED_SIZE ≤ k) (h2 : k ≤ MAX_UNTYPED_SIZE)
    (hp : (pool_of a k).count = 0)
    (hs : scan_roots a.init_untyped_items k = some (c, items1)) :
    alloc_untyped_fuel (fuel + 1) a k = .ok (c, { a with init_untyped_items := items1 }, []) := by
  unfold alloc_untyped_fuel
  have h1' : ¬ k < MIN_UNTYPED_SIZE := by omega
  have h2' : ¬ k > MAX_UNTYPED_SIZE := by omega
  simp only [h1', h2', if_false]
  rw [pool_count_zero a k hp]
  simp only [set_getD_self, hs, ne_eq, not_true_eq_false, if_false]

theorem alloc_recurse (fuel : Nat) (a : allocator) (k : Nat)
    (h1 : MIN_UNTYPED_SIZE ≤ k) (h2 : k ≤ MAX_UNTYPED_SIZE)
    (hp : (pool_of a k).count = 0)
    (hs : scan_roots a.init_untyped_items k = none) :
    alloc_untyped_fuel (fuel + 1) a k =
      match alloc_untyped_fuel fuel a (k + 1) with
      | .error e => .error e
      | .ok (big, a2, calls) =>
        if big = 0 then .ok (0, a2, calls) else split_step a2 big k calls := by
  conv => lhs; unfold alloc_untyped_fuel
  have h1' : ¬ k < MIN_UNTYPED_SIZE := by omega
  have h2' : ¬ k > MAX_UNTYPED_SIZE := by omega
  simp only [h1', h2', if_false]
  rw [pool_count_zero a k hp]
  simp only [set_getD_self, hs, ne_eq, not_true_eq_false, if_false]
  cases hrec : alloc_untyped_fuel fuel a (k + 1) with
  | error e => rfl
  | ok v =>
    obtain ⟨big, a2, calls⟩ := v
    simp only
    by_cases hb : big = 0
    · simp [hb]
    · simp only [hb, if_false]
      unfold split_step
      rfl

theorem retype_fail (a : allocator) (u t s : Nat) (n : Int)
    (h : to_int (slots_remaining a) < n) :
    allocator_retype_untyped_memory a u t s n = .ok (0, ⟨0, 0⟩, a, []) := by
  unfold slots_remaining at h
  simp [allocator_retype_untyped_memory, h]

theorem retype_ok (a : allocator) (u t s : Nat) (n : Int)
    (h : n ≤ to_int (slots_remaining a)) :
    allocator_retype_untyped_memory a u t s n =
      .ok (n, ⟨next_slot a, to_ulong n⟩,
        { a with num_slots_used := uadd a.num_slots_used (to_ulong n) },
        [.Untyped_Retype u t s a.root_cnode a.root_cnode_depth
          (uadd a.cslots.first a.num_slots_used) n]) := by
  unfold slots_remaining at h
  have h' : ¬ (to_int (usub a.cslots.count a.num_slots_used) < n) := by omega
  simp [allocator_retype_untyped_memory, h', seL4_Untyped_Retype, next_slot]

theorem split_step_fail (a2 : allocator) (big k : Nat) (calls : List kernel_call)
    (h : to_int (slots_remaining a2) < 2) :
    split_step a2 big k calls =
      .ok (0, { a2 with untyped_items := a2.untyped_items.set (k - MIN_UNTYPED_SIZE) ⟨0, 0⟩ },
        calls) := by
  unfold split_step
  rw [retype_fail a2 _ _ _ 2 h]
  simp

theorem split_step_ok (a2 : allocator) (big k : Nat) (calls : List kernel_call)
    (h : 2 ≤ to_int (slots_remaining a2)) (hp : next_slot a2 ≠ 0)
    (hq : uadd (next_slot a2) 1 ≠ 0) :
    split_step a2 big k calls =
      .ok (uadd (next_slot a2) 1,
        { a2 with
          num_slots_used := uadd a2.num_slots_used 2
          untyped_items := a2.untyped_items.set (k - MIN_UNTYPED_SIZE) ⟨next_slot a2, 1⟩ },
        calls ++ [.Untyped_Retype big seL4_UntypedObject k a2.root_cnode a2.root_cnode_depth
          (uadd a2.cslots.first a2.num_slots_used) 2]) := by
  unfold split_step
  rw [retype_ok a2 _ _ _ 2 h]
  have hu : usub 2 1 = 1 := by decide
  simp [range_alloc, to_ulong_one, to_ulong_two, hp, hq, hu, List.set_set]

theorem split_step_error (a2 : allocator) (big k : Nat) (calls : List kernel_call)
    (h : 2 ≤ to_int (slots_remaining a2))
    (hp : next_slot a2 = 0 ∨ uadd (next_slot a2) 1 = 0) :
    ∃ e, split_step a2 big k calls = .error e := by
  unfold split_step
  rw [retype_ok a2 _ _ _ 2 h]
  have hu : usub 2 1 = 1 := by decide
  by_cases h0 : next_slot a2 = 0
  · simp [range_alloc, to_ulong_one, to_ulong_two, h0]
  · rcases hp with hp | hp
    · exact absurd hp h0
    · simp [range_alloc, to_ulong_one, to_ulong_two, h0, hp, hu]

/-- The two ways `split_step` returns. -/
theorem split_step_cases (a2 : allocator) (big k : Nat) (calls cs : List kernel_call)
    (r : Nat) (a' : allocator) (h : split_step a2 big k calls = .ok (r, a', cs)) :
    (to_int (slots_remaining a2) < 2 ∧ r = 0 ∧ cs = calls ∧
      a' = { a2 with untyped_items := a2.untyped_items.set (k - MIN_UNTYPED_SIZE) ⟨0, 0⟩ }) ∨
    (2 ≤ to_int (slots_remaining a2) ∧ next_slot a2 ≠ 0 ∧ r ≠ 0 ∧ r = uadd (next_slot a2) 1 ∧
      cs = calls ++ [.Untyped_Retype big seL4_UntypedObject k a2.root_cnode a2.root_cnode_depth
          (uadd a2.cslots.first a2.num_slots_used) 2] ∧
      a' = { a2 with
          num_slots_used := uadd a2.num_slots_used 2
          untyped_items := a2.untyped_items.set (k - MIN_UNTYPED_SIZE) ⟨next_slot a2, 1⟩ }) := by
  by_cases hs : to_int (slots_remaining a2) < 2
  · rw [split_step_fail a2 big k calls hs] at h
    simp only [Except.ok.injEq, Prod.mk.injEq] at h
    obtain ⟨h1, h2, h3⟩ := h
    exact Or.inl ⟨hs, h1.symm, h3.symm, h2.symm⟩
  · have hs' : 2 ≤ to_int (slots_remaining a2) := by omega
    by_cases hp : next_slot a2 = 0 ∨ uadd (next_slot a2) 1 = 0
    · obtain ⟨e, he⟩ := split_step_error a2 big k calls hs' hp
      rw [he] at h
      cases h
    · have hp1 : next_slot a2 ≠ 0 := fun hh => hp (Or.inl hh)
      have hp2 : uadd (next_slot a2) 1 ≠ 0 := fun hh => hp (Or.inr hh)
      rw [split_step_ok a2 big k calls hs' hp1 hp2] at h
      simp only [Except.ok.injEq, Prod.mk.injEq] at h
      obtain ⟨h1, h2, h3⟩ := h
      exact Or.inr ⟨hs', hp1, h1 ▸ hp2, h1.symm, h3.symm, h2.symm⟩

/-- Induction along the calls of `alloc_untyped_fuel` that return; the recursive call
is at hand in the two cases that make one. -/
theorem alloc_induct_rec {P : Nat → allocator → Nat → allocator → List kernel_call → Prop}
    (h_out : ∀ a k, (k < MIN_UNTYPED_SIZE ∨ MAX_UNTYPED_SIZE < k) → P k a 0 a [])
    (h_pop : ∀ a k res pool1, MIN_UNTYPED_SIZE ≤ k → k ≤ MAX_UNTYPED_SIZE →
      range_alloc (pool_of a k) 1 = .ok (res, pool1) → res ≠ 0 →
      P k a res { a with untyped_items := a.untyped_items.set (k - MIN_UNTYPED_SIZE) pool1 } [])
    (h_root : ∀ a k pool1 c items1, MIN_UNTYPED_SIZE ≤ k → k ≤ MAX_UNTYPED_SIZE →
      range_alloc (pool_of a k) 1 = .ok (0, pool1) →
      scan_roots a.init_untyped_items k = some (c, items1) →
      P k a c { a with untyped_items := a.untyped_items.set (k - MIN_UNTYPED_SIZE) pool1,
                       init_untyped_items := items1 } [])
    (h_up : ∀ a k pool1 a2 calls, MIN_UNTYPED_SIZE ≤ k → k ≤ MAX_UNTYPED_SIZE →
      range_alloc (pool_of a k) 1 = .ok (0, pool1) →
      scan_roots a.init_untyped_items k = none →
      (∃ fuel, alloc_untyped_fuel fuel
        { a with untyped_items := a.untyped_items.set (k - MIN_UNTYPED_SIZE) pool1 } (k + 1) =
          .ok (0, a2, calls)) →
      P (k + 1) { a with untyped_items := a.untyped_items.set (k - MIN_UNTYPED_SIZE) pool1 }
        0 a2 calls →
      P k a 0 a2 calls)
    (h_split : ∀ a k pool1 big a2 calls r a' cs, MIN_UNTYPED_SIZE ≤ k → k ≤ MAX_UNTYPED_SIZE →
      range_alloc (pool_of a k) 1 = .ok (0, pool1) →
      scan_roots a.init_untyped_items k = none →
      (∃ fuel, alloc_untyped_fuel fuel
        { a with untyped_items := a.untyped_items.set (k - MIN_UNTYPED_SIZE) pool1 } (k + 1) =
          .ok (big, a2, calls)) →
      P (k + 1) { a with untyped_items := a.untyped_items.set (k - MIN_UNTYPED_SIZE) pool1 }
        big a2 calls →
      big ≠ 0 → split_step a2 big k calls = .ok (r, a', cs) →
      P k a r a' cs) :
    ∀ fuel a k r a' cs, alloc_untyped_fuel fuel a k = .ok (r, a', cs) → P k a r a' cs := by
  intro fuel
  induction fuel with
  | zero => intro a k r a' cs h; simp [alloc_untyped_fuel] at h
  | succ fuel ih =>
    intro a k r a' cs h
    by_cases hr : k < MIN_UNTYPED_SIZE ∨ MAX_UNTYPED_SIZE < k
    · rw [alloc_out_of_range fuel a k hr] at h
      simp only [Except.ok.injEq, Prod.mk.injEq] at h
      obtain ⟨h1, h2, h3⟩ := h
      subst h1 h2 h3
      exact h_out a k hr
    · have h1 : MIN_UNTYPED_SIZE ≤ k := by omega
      have h2 : k ≤ MAX_UNTYPED_SIZE := by omega
      have h1' : ¬ k < MIN_UNTYPED_SIZE := by omega
      have h2' : ¬ k > MAX_UNTYPED_SIZE := by omega
      unfold alloc_untyped_fuel at h
      simp only [h1', h2', if_false] at h
      cases hra : range_alloc (pool_of a k) 1 with
      | error e =>
        unfold pool_of at hra
        rw [hra] at h
        cases h
      | ok v =>
        obtain ⟨res, pool1⟩ := v
        have hra' := hra
        unfold pool_of at hra'
        rw [hra'] at h
        simp only at h
        by_cases hres : res = 0
        · subst hres
          simp only [ne_eq, not_true_eq_false, if_false] at h
          cases hs : scan_roots a.init_untyped_items k with
          | some v =>
            obtain ⟨c, items1⟩ := v
            rw [hs] at h
            simp only [Except.ok.injEq, Prod.mk.injEq] at h
            obtain ⟨e1, e2, e3⟩ := h
            subst e1 e2 e3
            exact h_root a k pool1 c items1 h1 h2 hra hs
          | none =>
            rw [hs] at h
            simp only at h
            cases hrec : alloc_untyped_fuel fuel
                { a with untyped_items := a.untyped_items.set (k - MIN_UNTYPED_SIZE) pool1 }
                (k + 1) with
            | error e => rw [hrec] at h; cases h
            | ok v =>
              obtain ⟨big, a2, calls⟩ := v
              rw [hrec] at h
              simp only at h
              have hP := ih _ _ _ _ _ hrec
              by_cases hb : big = 0
              · subst hb
                simp only [if_true, Except.ok.injEq, Prod.mk.injEq] at h
                obtain ⟨e1, e2, e3⟩ := h
                subst e1 e2 e3
                exact h_up a k pool1 _ _ h1 h2 hra hs ⟨fuel, hrec⟩ hP
              · simp only [hb, if_false] at h
                exact h_split a k pool1 big a2 calls r a' cs h1 h2 hra hs ⟨fuel, hrec⟩ hP hb
                  (by unfold split_step; exact h)
        · simp only [ne_eq, hres, not_false_eq_true, if_true, Except.ok.injEq,
            Prod.mk.injEq] at h
          obtain ⟨e1, e2, e3⟩ := h
          subst e1 e2 e3
          exact h_pop a k res pool1 h1 h2 hra hres

/-- Induction along the calls of `alloc_untyped_fuel` that return. -/
theorem alloc_induct {P : Nat → allocator → Nat → allocator → List kernel_call → Prop}
    (h_out : ∀ a k, (k < MIN_UNTYPED_SIZE ∨ MAX_UNTYPED_SIZE < k) → P k a 0 a [])
    (h_pop : ∀ a k res pool1, MIN_UNTYPED_SIZE ≤ k → k ≤ MAX_UNTYPED_SIZE →
      range_alloc (pool_of a k) 1 = .ok (res, pool1) → res ≠ 0 →
      P k a res { a with untyped_items := a.untyped_items.set (k - MIN_UNTYPED_SIZE) pool1 } [])
    (h_root : ∀ a k pool1 c items1, MIN_UNTYPED_SIZE ≤ k → k ≤ MAX_UNTYPED_SIZE →
      range_alloc (pool_of a k) 1 = .ok (0, pool1) →
      scan_roots a.init_untyped_items k = some (c, items1) →
      P k a c { a with untyped_items := a.untyped_items.set (k - MIN_UNTYPED_SIZE) pool1,
                       init_untyped_items := items1 } [])
    (h_up : ∀ a k pool1 a2 calls, MIN_UNTYPED_SIZE ≤ k → k ≤ MAX_UNTYPED_SIZE →
      range_alloc (pool_of a k) 1 = .ok (0, pool1) →
      scan_roots a.init_untyped_items k = none →
      P (k + 1) { a with untyped_items := a.untyped_items.set (k - MIN_UNTYPED_SIZE) pool1 }
        0 a2 calls →
      P k a 0 a2 calls)
    (h_split : ∀ a k pool1 big a2 calls r a' cs, MIN_UNTYPED_SIZE ≤ k → k ≤ MAX_UNTYPED_SIZE →
      range_alloc (pool_of a k) 1 = .ok (0, pool1) →
      scan_roots a.init_untyped_items k = none →
      P (k + 1) { a with untyped_items := a.untyped_items.set (k - MIN_UNTYPED_SIZE) pool1 }
        big a2 calls →
      big ≠ 0 → split_step a2 big k calls = .ok (r, a', cs) →
      P k a r a' cs) :
    ∀ fuel a k r a' cs, alloc_untyped_fuel fuel a k = .ok (r, a', cs) → P k a r a' cs :=
  alloc_induct_rec h_out h_pop h_root
    (fun a k pool1 a2 calls h1 h2 hra hs _ ih => h_up a k pool1 a2 calls h1 h2 hra hs ih)
    (fun a k pool1 big a2 calls r a' cs h1 h2 hra hs _ ih hb hsp =>
      h_split a k pool1 big a2 calls r a' cs h1 h2 hra hs ih hb hsp)

theorem same_frame_refl (a : allocator) : same_frame a a :=
  ⟨rfl, rfl, rfl, rfl, rfl, rfl⟩

theorem same_frame_trans {a b c : allocator} (h1 : same_frame a b) (h2 : same_frame b c) :
    same_frame a c := by
  obtain ⟨p1, p2, p3, p4, p5, p6⟩ := h1
  obtain ⟨q1, q2, q3, q4, q5, q6⟩ := h2
  exact ⟨q1.trans p1, q2.trans p2, q3.trans p3, q4.trans p4, q5.trans p5, q6.trans p6⟩

theorem scan_roots_map (l l' : List init_untyped_item) (k c : Nat)
    (h : scan_roots l k = some (c, l')) :
    l'.map (fun it => (it.cap, it.size_bits)) = l.map (fun it => (it.cap, it.size_bits)) := by
  induction l generalizing l' c with
  | nil => simp [scan_roots] at h
  | cons it rest ih =>
    unfold scan_roots at h
    by_cases hc : it.is_free = true ∧ it.size_bits = k
    · simp only [hc, and_self, if_true, Option.some.injEq, Prod.mk.injEq] at h
      obtain ⟨_, h2⟩ := h
      subst h2
      simp [hc.2]
    · simp only [hc, if_false] at h
      cases hs : scan_roots rest k with
      | none => rw [hs] at h; cases h
      | some v =>
        obtain ⟨c1, rest1⟩ := v
        rw [hs] at h
        simp only [Option.some.injEq, Prod.mk.injEq] at h
        obtain ⟨_, h2⟩ := h
        subst h2
        simp [ih rest1 c1 hs]

theorem scan_roots_none (l : List init_untyped_item) (k : Nat) :
    scan_roots l k = none ↔ ¬ ∃ it ∈ l, it.is_free = true ∧ it.size_bits = k := by
  induction l with
  | nil => simp [scan_roots]
  | cons it rest ih =>
    unfold scan_roots
    by_cases hc : it.is_free = true ∧ it.size_bits = k
    · simp only [hc, and_self, if_true]
      constructor
      · intro h; cases h
      · intro h; exact absurd ⟨it, List.mem_cons_self _ _, hc⟩ h
    · simp only [hc, if_false]
      cases hs : scan_roots rest k with
      | none =>
        simp only [true_iff]
        rintro ⟨x, hx, hx2⟩
        rcases List.mem_cons.mp hx with rfl | hx'
        · exact hc hx2
        · exact (ih.mp hs) ⟨x, hx', hx2⟩
      | some v =>
        obtain ⟨c1, rest1⟩ := v
        constructor
        · intro h; cases h
        · intro hn
          exfalso
          have : ¬ ¬ ∃ it ∈ rest, it.is_free = true ∧ it.size_bits = k := by
            intro hn'
            rw [ih.mpr hn'] at hs
            cases hs
          obtain ⟨x, hx, hx2⟩ := not_not.mp this
          exact hn ⟨x, List.mem_cons_of_mem _ hx, hx2⟩

theorem scan_roots_mem (l l' : List init_untyped_item) (k c : Nat)
    (h : scan_roots l k = some (c, l')) :
    ∃ it ∈ l, it.cap = c ∧ it.is_free = true ∧ it.size_bits = k := by
  induction l generalizing l' c with
  | nil => simp [scan_roots] at h
  | cons it rest ih =>
    unfold scan_roots at h
    by_cases hc : it.is_free = true ∧ it.size_bits = k
    · simp only [hc, and_self, if_true, Option.some.injEq, Prod.mk.injEq] at h
      exact ⟨it, List.mem_cons_self _ _, h.1, hc.1, hc.2⟩
    · simp only [hc, if_false] at h
      cases hs : scan_roots rest k with
      | none => rw [hs] at h; cases h
      | some v =>
        obtain ⟨c1, rest1⟩ := v
        rw [hs] at h
        simp only [Option.some.injEq, Prod.mk.injEq] at h
        obtain ⟨x, hx, hx2⟩ := ih rest1 c1 hs
        exact ⟨x, List.mem_cons_of_mem _ hx, h.1 ▸ hx2⟩

theorem scan_roots_capacity (l l' : List init_untyped_item) (k c : Nat)
    (h : scan_roots l k = some (c, l')) :
    roots_capacity l' + 2 ^ k = roots_capacity l := by
  induction l generalizing l' c with
  | nil => simp [scan_roots] at h
  | cons it rest ih =>
    unfold scan_roots at h
    by_cases hc : it.is_free = true ∧ it.size_bits = k
    · simp only [hc, and_self, if_true, Option.some.injEq, Prod.mk.injEq] at h
      obtain ⟨_, h2⟩ := h
      subst h2
      simp [roots_capacity, hc.1, hc.2]
      omega
    · simp only [hc, if_false] at h
      cases hs : scan_roots rest k with
      | none => rw [hs] at h; cases h
      | some v =>
        obtain ⟨c1, rest1⟩ := v
        rw [hs] at h
        simp only [Option.some.injEq, Prod.mk.injEq] at h
        obtain ⟨_, h2⟩ := h
        subst h2
        have := ih rest1 c1 hs
        simp only [roots_capacity]
        omega

theorem range_alloc_cases (p pool1 : cap_range) (res : Nat) (hp : pool_ok p)
    (h : range_alloc p 1 = .ok (res, pool1)) :
    (p.count = 0 ∧ res = 0 ∧ pool1 = p) ∨
    (p.count = 1 ∧ res = p.first ∧ res ≠ 0 ∧ pool1 = ⟨p.first, 0⟩) := by
  obtain ⟨f, c⟩ := p
  rcases hp with hp | ⟨hp, h0, hW⟩
  · simp only at hp
    subst hp
    rw [range_alloc_empty] at h
    simp only [Except.ok.injEq, Prod.mk.injEq] at h
    exact Or.inl ⟨rfl, h.1.symm, h.2.symm⟩
  · simp only at hp h0 hW
    subst hp
    rw [range_alloc_one f h0 hW] at h
    simp only [Except.ok.injEq, Prod.mk.injEq] at h
    refine Or.inr ⟨rfl, h.1.symm, ?_, h.2.symm⟩
    rw [← h.1]
    omega

theorem pool_of_ok (a : allocator) (k : Nat) (h : pools_ok a) : pool_ok (pool_of a k) := by
  unfold pool_of
  by_cases hi : k - MIN_UNTYPED_SIZE < a.untyped_items.length
  · rw [List.getD_eq_getElem _ _ hi]
    exact h.2 _ (List.getElem_mem _)
  · rw [List.getD_eq_default _ _ (by omega)]
    exact Or.inl rfl

theorem pools_ok_set (a : allocator) (i : Nat) (p : cap_range) (h : pools_ok a)
    (hp : pool_ok p) :
    pools_ok { a with untyped_items := a.untyped_items.set i p } := by
  refine ⟨by simpa using h.1, ?_⟩
  intro q hq
  rcases List.mem_or_eq_of_mem_set hq with hq | hq
  · exact h.2 q hq
  · exact hq ▸ hp

theorem pools_capacity_set (ps : List cap_range) (k i : Nat) (q : cap_range)
    (h : i < ps.length) :
    pools_capacity k (ps.set i q) + (ps.getD i ⟨0, 0⟩).count * 2 ^ (k + i) =
      pools_capacity k ps + q.count * 2 ^ (k + i) := by
  induction ps generalizing k i with
  | nil => simp at h
  | cons p ps ih =>
    cases i with
    | zero =>
      simp only [List.set_cons_zero, pools_capacity, List.getD_cons_zero, Nat.add_zero]
      omega
    | succ j =>
      have hj : j < ps.length := by simpa using h
      have he : k + (j + 1) = (k + 1) + j := by omega
      have := ih (k + 1) j hj
      simp only [List.set_cons_succ, pools_capacity, List.getD_cons_succ, he]
      omega

theorem same_frame_set_pool (a : allocator) (i : Nat) (p : cap_range) :
    same_frame a { a with untyped_items := a.untyped_items.set i p } :=
  ⟨rfl, rfl, rfl, rfl, rfl, by simp⟩

theorem same_frame_split (a : allocator) (i u : Nat) (p : cap_range) :
    same_frame a { a with num_slots_used := u, untyped_items := a.untyped_items.set i p } :=
  ⟨rfl, rfl, rfl, rfl, rfl, by simp⟩

/-- What one call changes: the frame stays, and so do the pools below the class. -/
theorem alloc_same_frame (fuel : Nat) (a : allocator) (k r : Nat) (a' : allocator)
    (cs : List kernel_call) (h : alloc_untyped_fuel fuel a k = .ok (r, a', cs)) :
    same_frame a a' ∧ ∀ i, i < k - MIN_UNTYPED_SIZE →
      a'.untyped_items.getD i ⟨0, 0⟩ = a.untyped_items.getD i ⟨0, 0⟩ := by
  revert h
  refine alloc_induct (P := fun k a _ a' _ => same_frame a a' ∧ ∀ i, i < k - MIN_UNTYPED_SIZE →
      a'.untyped_items.getD i ⟨0, 0⟩ = a.untyped_items.getD i ⟨0, 0⟩)
    ?_ ?_ ?_ ?_ ?_ fuel a k r a' cs
  · intro a k _
    exact ⟨same_frame_refl a, fun _ _ => rfl⟩
  · intro a k res pool1 _ _ _ _
    refine ⟨⟨rfl, rfl, rfl, rfl, rfl, by simp⟩, ?_⟩
    intro i hi
    exact getD_set_ne _ _ _ _ _ (by omega)
  · intro a k pool1 c items1 _ _ _ hs
    refine ⟨⟨rfl, rfl, rfl, rfl, scan_roots_map _ _ _ _ hs, by simp⟩, ?_⟩
    intro i hi
    exact getD_set_ne _ _ _ _ _ (by omega)
  · intro a k pool1 a2 calls _ _ _ _ ih
    obtain ⟨hf, hb⟩ := ih
    refine ⟨same_frame_trans (same_frame_set_pool a _ _) hf, ?_⟩
    intro i hi
    rw [hb i (by omega)]
    exact getD_set_ne _ _ _ _ _ (by omega)
  · intro a k pool1 big a2 calls r a' cs _ _ _ _ ih _ hsp
    obtain ⟨hf, hb⟩ := ih
    have hfa : same_frame a a2 := same_frame_trans (same_frame_set_pool a _ _) hf
    have hba : ∀ i, i < k - MIN_UNTYPED_SIZE →
        a2.untyped_items.getD i ⟨0, 0⟩ = a.untyped_items.getD i ⟨0, 0⟩ := by
      intro i hi
      rw [hb i (by omega)]
      exact getD_set_ne _ _ _ _ _ (by omega)
    rcases split_step_cases _ _ _ _ _ _ _ hsp with ⟨_, _, _, ha'⟩ | ⟨_, _, _, _, _, ha'⟩
    · subst ha'
      refine ⟨same_frame_trans hfa (same_frame_set_pool a2 _ _), ?_⟩
      intro i hi
      rw [← hba i hi]
      exact getD_set_ne _ _ _ _ _ (by omega)
    · subst ha'
      refine ⟨same_frame_trans hfa (same_frame_split a2 _ _ _), ?_⟩
      intro i hi
      rw [← hba i hi]
      exact getD_set_ne _ _ _ _ _ (by omega)

theorem next_slot_lt (a : allocator) : next_slot a < WORD := by
  unfold next_slot uadd
  exact Nat.mod_lt _ (by decide)

/-- Pools stay well formed. -/
theorem alloc_pools_ok (fuel : Nat) (a : allocator) (k r : Nat) (a' : allocator)
    (cs : List kernel_call) (h : alloc_untyped_fuel fuel a k = .ok (r, a', cs))
    (hp : pools_ok a) : pools_ok a' := by
  revert h hp
  refine alloc_induct (P := fun _ a _ a' _ => pools_ok a → pools_ok a')
    ?_ ?_ ?_ ?_ ?_ fuel a k r a' cs
  · intro a k _ h; exact h
  · intro a k res pool1 _ _ hra _ hp
    apply pools_ok_set a _ _ hp
    rcases range_alloc_cases _ _ _ (pool_of_ok a k hp) hra with ⟨_, _, h3⟩ | ⟨_, _, _, h3⟩
    · rw [h3]; exact pool_of_ok a k hp
    · rw [h3]; exact Or.inl rfl
  · intro a k pool1 c items1 _ _ hra _ hp
    have : pool_ok pool1 := by
      rcases range_alloc_cases _ _ _ (pool_of_ok a k hp) hra with ⟨_, _, h3⟩ | ⟨_, _, _, h3⟩
      · rw [h3]; exact pool_of_ok a k hp
      · rw [h3]; exact Or.inl rfl
    exact pools_ok_set { a with init_untyped_items := items1 } _ _ hp this
  · intro a k pool1 a2 calls _ _ hra _ ih hp
    apply ih
    apply pools_ok_set a _ _ hp
    rcases range_alloc_cases _ _ _ (pool_of_ok a k hp) hra with ⟨_, _, h3⟩ | ⟨_, _, _, h3⟩
    · rw [h3]; exact pool_of_ok a k hp
    · rw [h3]; exact Or.inl rfl
  · intro a k pool1 big a2 calls r a' cs _ _ hra _ ih _ hsp hp
    have h2 : pools_ok a2 := by
      apply ih
      apply pools_ok_set a _ _ hp
      rcases range_alloc_cases _ _ _ (pool_of_ok a k hp) hra with ⟨_, _, h3⟩ | ⟨_, _, _, h3⟩
      · rw [h3]; exact pool_of_ok a k hp
      · rw [h3]; exact Or.inl rfl
    rcases split_step_cases _ _ _ _ _ _ _ hsp with ⟨_, _, _, ha'⟩ | ⟨_, hn, _, _, _, ha'⟩
    · subst ha'
      exact pools_ok_set a2 _ _ h2 (Or.inl rfl)
    · subst ha'
      exact pools_ok_set { a2 with num_slots_used := uadd a2.num_slots_used 2 } _ _ h2
        (Or.inr ⟨rfl, Nat.pos_of_ne_zero hn, next_slot_lt a2⟩)

theorem slots_remaining_eq (a : allocator) (h : slots_ok a) :
    slots_remaining a = a.cslots.count - a.num_slots_used := by
  unfold slots_ok INT_MAX WORD at h
  unfold slots_remaining usub WORD
  omega

theorem to_int_slots_remaining (a : allocator) (h : slots_ok a) :
    to_int (slots_remaining a) = ((a.cslots.count - a.num_slots_used : Nat) : Int) := by
  rw [slots_remaining_eq a h]
  unfold slots_ok INT_MAX WORD at h
  unfold to_int INT_MAX WORD
  split <;> omega

theorem slots_ok_split (a : allocator) (i : Nat) (p : cap_range) (h : slots_ok a)
    (h2 : 2 ≤ to_int (slots_remaining a)) :
    slots_ok { a with num_slots_used := uadd a.num_slots_used 2,
                      untyped_items := a.untyped_items.set i p } ∧
    uadd a.num_slots_used 2 = a.num_slots_used + 2 := by
  rw [to_int_slots_remaining a h] at h2
  unfold slots_ok INT_MAX WORD at *
  unfold uadd WORD
  simp only
  omega

/-- The slot counter stays within the window and never decreases. -/
theorem alloc_slots_ok (fuel : Nat) (a : allocator) (k r : Nat) (a' : allocator)
    (cs : List kernel_call) (h : alloc_untyped_fuel fuel a k = .ok (r, a', cs))
    (hs : slots_ok a) : slots_ok a' ∧ a.num_slots_used ≤ a'.num_slots_used := by
  revert h hs
  refine alloc_induct
    (P := fun _ a _ a' _ => slots_ok a → slots_ok a' ∧ a.num_slots_used ≤ a'.num_slots_used)
    ?_ ?_ ?_ ?_ ?_ fuel a k r a' cs
  · intro a k _ h; exact ⟨h, le_refl _⟩
  · intro a k res pool1 _ _ _ _ hs
    exact ⟨hs, le_refl _⟩
  · intro a k pool1 c items1 _ _ _ _ hs
    exact ⟨hs, le_refl _⟩
  · intro a k pool1 a2 calls _ _ _ _ ih hs
    exact ih hs
  · intro a k pool1 big a2 calls r a' cs _ _ _ _ ih _ hsp hs
    obtain ⟨h2, hle⟩ := ih hs
    simp only at hle
    rcases split_step_cases _ _ _ _ _ _ _ hsp with ⟨_, _, _, ha'⟩ | ⟨hr, _, _, _, _, ha'⟩
    · subst ha'
      exact ⟨h2, hle⟩
    · subst ha'
      obtain ⟨q1, q2⟩ := slots_ok_split a2 (k - MIN_UNTYPED_SIZE) ⟨next_slot a2, 1⟩ h2 hr
      refine ⟨q1, ?_⟩
      simp only [q2]
      omega

theorem capacity_set_pool (a b : allocator) (i : Nat) (q : cap_range)
    (h : i < a.untyped_items.length)
    (hr : b.init_untyped_items = a.init_untyped_items)
    (hu : b.untyped_items = a.untyped_items.set i q) :
    capacity b + (a.untyped_items.getD i ⟨0, 0⟩).count * 2 ^ (MIN_UNTYPED_SIZE + i) =
      capacity a + q.count * 2 ^ (MIN_UNTYPED_SIZE + i) := by
  unfold capacity
  have := pools_capacity_set a.untyped_items MIN_UNTYPED_SIZE i q h
  rw [hr, hu]
  omega

/-- Capacity accounting: a call that returns a handle lowers the available capacity by
exactly `2 ^ k`, and no call raises it. -/
theorem alloc_capacity (fuel : Nat) (a : allocator) (k r : Nat) (a' : allocator)
    (cs : List kernel_call) (h : alloc_untyped_fuel fuel a k = .ok (r, a', cs))
    (hp : pools_ok a) :
    (r ≠ 0 → capacity a' + 2 ^ k = capacity a) ∧ capacity a' ≤ capacity a := by
  have key : ∀ fuel a k r a' cs, alloc_untyped_fuel fuel a k = .ok (r, a', cs) → pools_ok a →
      pools_ok a' ∧ (∀ i, i < k - MIN_UNTYPED_SIZE →
        a'.untyped_items.getD i ⟨0, 0⟩ = a.untyped_items.getD i ⟨0, 0⟩) ∧
      (r ≠ 0 → capacity a' + 2 ^ k = capacity a) ∧ capacity a' ≤ capacity a := by
    refine alloc_induct (P := fun k a r a' _ => pools_ok a →
      pools_ok a' ∧ (∀ i, i < k - MIN_UNTYPED_SIZE →
        a'.untyped_items.getD i ⟨0, 0⟩ = a.untyped_items.getD i ⟨0, 0⟩) ∧
      (r ≠ 0 → capacity a' + 2 ^ k = capacity a) ∧ capacity a' ≤ capacity a) ?_ ?_ ?_ ?_ ?_
    · intro a k _ hp
      exact ⟨hp, fun _ _ => rfl, fun h => absurd rfl h, le_refl _⟩
    · intro a k res pool1 h1 h2 hra hres hp
      have hlen : k - MIN_UNTYPED_SIZE < a.untyped_items.length := by
        rw [hp.1]; unfold NUM_POOLS MAX_UNTYPED_SIZE MIN_UNTYPED_SIZE at *; omega
      have hidx : MIN_UNTYPED_SIZE + (k - MIN_UNTYPED_SIZE) = k := by omega
      rcases range_alloc_cases _ _ _ (pool_of_ok a k hp) hra with ⟨_, h0, _⟩ | ⟨c1, _, _, h3⟩
      · exact absurd h0 hres
      · have hc := capacity_set_pool a
          { a with untyped_items := a.untyped_items.set (k - MIN_UNTYPED_SIZE) pool1 }
          (k - MIN_UNTYPED_SIZE) pool1 hlen rfl rfl
        unfold pool_of at c1
        rw [hidx, c1, h3] at hc
        simp only [zero_mul, one_mul, add_zero] at hc
        refine ⟨pools_ok_set a _ _ hp (h3 ▸ Or.inl rfl),
          fun i hi => getD_set_ne _ _ _ _ _ (by omega), fun _ => ?_, ?_⟩
        · rw [h3]; exact hc
        · rw [h3]; generalize 2 ^ k = x at hc; omega
    · intro a k pool1 c items1 h1 h2 hra hs hp
      rcases range_alloc_cases _ _ _ (pool_of_ok a k hp) hra with ⟨_, _, h3⟩ | ⟨_, h0, hn, _⟩
      · rw [h3]
        unfold pool_of
        rw [set_getD_self]
        have hc := scan_roots_capacity _ _ _ _ hs
        generalize 2 ^ k = x at hc
        refine ⟨⟨hp.1, hp.2⟩, fun _ _ => rfl, fun _ => ?_, ?_⟩
        · unfold capacity; simp only; omega
        · unfold capacity; simp only; omega
      · exact absurd h0.symm (h0 ▸ hn)
    · intro a k pool1 a2 calls h1 h2 hra hs ih hp
      rcases range_alloc_cases _ _ _ (pool_of_ok a k hp) hra with ⟨_, _, h3⟩ | ⟨_, h0, hn, _⟩
      · rw [h3] at ih
        unfold pool_of at ih
        rw [set_pool_self] at ih
        obtain ⟨i1, i2, _, i4⟩ := ih hp
        exact ⟨i1, fun i hi => i2 i (by omega), fun h => absurd rfl h, i4⟩
      · exact absurd h0.symm (h0 ▸ hn)
    · intro a k pool1 big a2 calls r a' cs h1 h2 hra hs ih hb hsp hp
      rcases range_alloc_cases _ _ _ (pool_of_ok a k hp) hra with ⟨hc0, _, h3⟩ | ⟨_, h0, hn, _⟩
      · rw [h3] at ih
        unfold pool_of at ih
        rw [set_pool_self] at ih
        obtain ⟨i1, i2, i3, i4⟩ := ih hp
        have i3' := i3 hb
        have hlen : k - MIN_UNTYPED_SIZE < a2.untyped_items.length := by
          rw [i1.1]; unfold NUM_POOLS MAX_UNTYPED_SIZE MIN_UNTYPED_SIZE at *; omega
        have hidx : MIN_UNTYPED_SIZE + (k - MIN_UNTYPED_SIZE) = k := by omega
        have hk0 : (a2.untyped_items.getD (k - MIN_UNTYPED_SIZE) ⟨0, 0⟩).count = 0 := by
          rw [i2 _ (by omega)]
          exact hc0
        have hpow : 2 ^ (k + 1) = 2 ^ k + 2 ^ k := by rw [pow_succ]; omega
        rw [hpow] at i3'
        rcases split_step_cases _ _ _ _ _ _ _ hsp with ⟨_, hr0, _, ha'⟩ | ⟨hr, hn, _, _, _, ha'⟩
        · have hc := capacity_set_pool a2 a' (k - MIN_UNTYPED_SIZE) ⟨0, 0⟩ hlen
            (by rw [ha']) (by rw [ha'])
          rw [hidx, hk0] at hc
          simp only [zero_mul, add_zero] at hc
          refine ⟨ha' ▸ pools_ok_set a2 _ _ i1 (Or.inl rfl), ?_, fun h => absurd hr0 h, ?_⟩
          · intro i hi
            rw [← i2 i (by omega), ha']
            exact getD_set_ne _ _ _ _ _ (by omega)
          · generalize 2 ^ k = x at i3'; omega
        · have hc := capacity_set_pool a2 a' (k - MIN_UNTYPED_SIZE) ⟨next_slot a2, 1⟩ hlen
            (by rw [ha']) (by rw [ha'])
          rw [hidx, hk0] at hc
          simp only [zero_mul, add_zero, one_mul] at hc
          refine ⟨ha' ▸ pools_ok_set { a2 with num_slots_used := uadd a2.num_slots_used 2 } _ _ i1
              (Or.inr ⟨rfl, Nat.pos_of_ne_zero hn, next_slot_lt a2⟩), ?_, fun _ => ?_, ?_⟩
          · intro i hi
            rw [← i2 i (by omega), ha']
            exact getD_set_ne _ _ _ _ _ (by omega)
          · generalize 2 ^ k = x at i3' hc; omega
          · generalize 2 ^ k = x at i3' hc; omega
      · exact absurd h0.symm (h0 ▸ hn)
  obtain ⟨_, _, k3, k4⟩ := key fuel a k r a' cs h hp
  exact ⟨k3, k4⟩

theorem recycle_items_eq (l : List init_untyped_item) :
    recycle_items l =
      .ok (l.map mark_free, (l.filter (fun it => !it.is_free)).map recycle_call) := by
  induction l with
  | nil => rfl
  | cons it rest ih =>
    cases h : it.is_free <;>
      simp [recycle_items, h, ih, seL4_CNode_Recycle, mark_free, recycle_call]
    cases it
    simp_all

theorem reset_eq (a : allocator) :
    allocator_reset a =
      .ok ({ a with init_untyped_items := a.init_untyped_items.map mark_free,
                    num_slots_used := 0, untyped_items := empty_pools },
        (a.init_untyped_items.filter (fun it => !it.is_free)).map recycle_call) := by
  unfold allocator_reset
  rw [recycle_items_eq]

theorem map_mark_free_of_free (l : List init_untyped_item)
    (h : ∀ it ∈ l, it.is_free = true) : l.map mark_free = l := by
  induction l with
  | nil => rfl
  | cons it rest ih =>
    have h1 := h it (List.mem_cons_self _ _)
    have h2 := ih (fun x hx => h x (List.mem_cons_of_mem _ hx))
    cases it
    simp_all [mark_free]

theorem filter_used_of_free (l : List init_untyped_item)
    (h : ∀ it ∈ l, it.is_free = true) : l.filter (fun it => !it.is_free) = [] := by
  rw [List.filter_eq_nil_iff]
  intro it hit
  simp [h it hit]

theorem map_mark_free_of_map (l l' : List init_untyped_item)
    (h : l'.map (fun it => (it.cap, it.size_bits)) = l.map (fun it => (it.cap, it.size_bits))) :
    l'.map mark_free = l.map mark_free := by
  induction l generalizing l' with
  | nil =>
    cases l' with
    | nil => rfl
    | cons x xs => simp at h
  | cons it rest ih =>
    cases l' with
    | nil => simp at h
    | cons x xs =>
      simp only [List.map_cons, List.cons.injEq, Prod.mk.injEq] at h
      obtain ⟨⟨h1, h2⟩, h3⟩ := h
      simp only [List.map_cons, List.cons.injEq]
      refine ⟨?_, ih xs h3⟩
      cases x; cases it
      simp_all [mark_free]

/-- Reset of any state with the frame of a fresh state gives that fresh state back. -/
theorem reset_of_frame (s0 s : allocator) (hf : fresh s0) (h : same_frame s0 s) :
    ∃ calls, allocator_reset s = .ok (s0, calls) := by
  obtain ⟨h1, h2, h3, h4, h5, _⟩ := h
  obtain ⟨f1, f2, f3⟩ := hf
  have hm : s.init_untyped_items.map mark_free = s0.init_untyped_items := by
    rw [map_mark_free_of_map _ _ h5, map_mark_free_of_free _ f3]
  refine ⟨(s.init_untyped_items.filter (fun it => !it.is_free)).map recycle_call, ?_⟩
  rw [reset_eq]
  congr 2
  cases s0
  simp_all

/-- C9.  For every allocator state, `allocator_reset` (and `allocator_destroy`, which
is the same operation) returns normally; afterwards every root item is available,
every pool is empty and the slot counter is zero; the recycle calls issued are, in
table order, exactly one per root item that was unavailable and none for an item that
was available; the number, caps and size classes of the root items, the slot window
and the CNode fields are unchanged; a second reset returns the same state and issues
no recycle. -/
theorem reset_restores_and_is_idempotent (a : allocator) :
    ∃ a' calls, allocator_reset a = .ok (a', calls) ∧
      allocator_destroy a = allocator_reset a ∧
      (∀ it ∈ a'.init_untyped_items, it.is_free = true) ∧
      a'.untyped_items = empty_pools ∧
      (∀ p ∈ a'.untyped_items, p.count = 0) ∧
      a'.num_slots_used = 0 ∧
      calls = (a.init_untyped_items.filter (fun it => !it.is_free)).map recycle_call ∧
      a'.init_untyped_items.length = a.init_untyped_items.length ∧
      a'.init_untyped_items.map (fun it => (it.cap, it.size_bits)) =
        a.init_untyped_items.map (fun it => (it.cap, it.size_bits)) ∧
      a'.cslots = a.cslots ∧ a'.root_cnode = a.root_cnode ∧
      a'.root_cnode_depth = a.root_cnode_depth ∧
      a'.root_cnode_offset = a.root_cnode_offset ∧
      allocator_reset a' = .ok (a', []) := by
  have hfree : ∀ it ∈ a.init_untyped_items.map mark_free, it.is_free = true := by
    intro it hit
    obtain ⟨x, _, hx⟩ := List.mem_map.mp hit
    rw [← hx]
    rfl
  refine ⟨_, _, reset_eq a, rfl, hfree, rfl, ?_, rfl, rfl, by simp, ?_, rfl, rfl, rfl, rfl, ?_⟩
  · intro p hp
    have := List.eq_of_mem_replicate hp
    rw [this]
  · simp [mark_free]
  · rw [reset_eq]
    simp only
    rw [map_mark_free_of_free _ hfree, filter_used_of_free _ hfree]
    rfl

theorem add_root_shape (a a' : allocator) (cap size_bits : Nat)
    (h : allocator_add_root_untyped_item a cap size_bits = .ok a') :
    a' = { a with init_untyped_items := a.init_untyped_items ++ [⟨cap, size_bits, true⟩] } ∧
    cap ≠ 0 ∧ MIN_UNTYPED_SIZE ≤ size_bits ∧ size_bits ≤ MAX_UNTYPED_SIZE ∧
    a.init_untyped_items.length < MAX_UNTYPED_ITEMS := by
  unfold allocator_add_root_untyped_item at h
  by_cases h1 : cap = 0
  · simp [h1] at h
  · by_cases h2 : size_bits < MIN_UNTYPED_SIZE
    · simp [h1, h2] at h
    · by_cases h3 : size_bits > MAX_UNTYPED_SIZE
      · simp [h1, h2, h3] at h
      · by_cases h4 : a.init_untyped_items.length < MAX_UNTYPED_ITEMS
        · simp only [h1, h2, h3, h4, if_false, not_true_eq_false, Except.ok.injEq] at h
          exact ⟨h.symm, h1, by omega, by omega, h4⟩
        · simp [h1, h2, h3, h4] at h

theorem add_items_shape (a a' : allocator) (items : List untyped_item)
    (h : add_items a items = .ok a') :
    a' = { a with init_untyped_items :=
      a.init_untyped_items ++ items.map (fun it => ⟨it.cap, it.size_bits, true⟩) } := by
  induction items generalizing a with
  | nil =>
    simp only [add_items, Except.ok.injEq] at h
    subst h
    simp
  | cons it rest ih =>
    unfold add_items at h
    cases h1 : allocator_add_root_untyped_item a it.cap it.size_bits with
    | error e => rw [h1] at h; cases h
    | ok a1 =>
      rw [h1] at h
      simp only at h
      rw [ih a1 h, (add_root_shape _ _ _ _ h1).1]
      simp

theorem create_shape (rc rd ro first n : Nat) (items : List untyped_item) (s0 : allocator)
    (h : allocator_create rc rd ro first n items = .ok s0) :
    s0 = ⟨rc, rd, ro, ⟨first, n⟩, 0,
      items.map (fun it => ⟨it.cap, it.size_bits, true⟩), empty_pools⟩ := by
  unfold allocator_create at h
  by_cases h1 : items.length < MAX_UNTYPED_ITEMS
  · simp only [h1, not_true_eq_false, if_false] at h
    rw [add_items_shape _ _ _ h]
    simp
  · simp [h1] at h

theorem create_fresh (rc rd ro first n : Nat) (items : List untyped_item) (s0 : allocator)
    (h : allocator_create rc rd ro first n items = .ok s0) : fresh s0 := by
  rw [create_shape _ _ _ _ _ _ _ h]
  refine ⟨rfl, rfl, ?_⟩
  intro it hit
  obtain ⟨x, _, hx⟩ := List.mem_map.mp hit
  rw [← hx]

theorem alloc_cslot_cases (a : allocator) :
    allocator_alloc_cslot a = (0, a) ∨
    allocator_alloc_cslot a = (next_slot a, { a with num_slots_used := uadd a.num_slots_used 1 }) := by
  unfold allocator_alloc_cslot next_slot
  by_cases h : usub a.cslots.count a.num_slots_used = 0
  · simp [h]
  · simp [h]

theorem alloc_cslots_cases (a : allocator) (n : Int) :
    allocator_alloc_cslots a n = (0, a) ∨
    allocator_alloc_cslots a n =
      (next_slot a, { a with num_slots_used := uadd a.num_slots_used (to_ulong n) }) := by
  unfold allocator_alloc_cslots next_slot
  by_cases h : usub a.cslots.count a.num_slots_used < to_ulong n
  · simp [h]
  · simp [h]

theorem retype_cases (a : allocator) (u t s : Nat) (n : Int) :
    allocator_retype_untyped_memory a u t s n = .ok (0, ⟨0, 0⟩, a, []) ∨
    allocator_retype_untyped_memory a u t s n =
      .ok (n, ⟨next_slot a, to_ulong n⟩,
        { a with num_slots_used := uadd a.num_slots_used (to_ulong n) },
        [.Untyped_Retype u t s a.root_cnode a.root_cnode_depth
          (uadd a.cslots.first a.num_slots_used) n]) := by
  by_cases h : to_int (slots_remaining a) < n
  · exact Or.inl (retype_fail a u t s n h)
  · exact Or.inr (retype_ok a u t s n (by omega))

/-- A request changes the slot counter, the availability flags and the pools only. -/
theorem step_shape (o : op) (a a' : allocator) (r : Nat) (h : step o a = .ok (r, a')) :
    (∃ u, a' = { a with num_slots_used := u }) ∨
    (∃ k cs, allocator_alloc_untyped a k = .ok (r, a', cs) ∧ o = .alloc_untyped k) := by
  cases o with
  | alloc_cslot =>
    simp only [step, Except.ok.injEq] at h
    rcases alloc_cslot_cases a with h1 | h1
    · rw [h1] at h; simp only [Prod.mk.injEq] at h; exact Or.inl ⟨a.num_slots_used, h.2.symm⟩
    · rw [h1] at h; simp only [Prod.mk.injEq] at h; exact Or.inl ⟨_, h.2.symm⟩
  | alloc_cslots n =>
    simp only [step, Except.ok.injEq] at h
    rcases alloc_cslots_cases a n with h1 | h1
    · rw [h1] at h; simp only [Prod.mk.injEq] at h; exact Or.inl ⟨a.num_slots_used, h.2.symm⟩
    · rw [h1] at h; simp only [Prod.mk.injEq] at h; exact Or.inl ⟨_, h.2.symm⟩
  | alloc_untyped k =>
    simp only [step] at h
    cases h1 : allocator_alloc_untyped a k with
    | error e => rw [h1] at h; cases h
    | ok v =>
      obtain ⟨r1, a1, cs⟩ := v
      rw [h1] at h
      simp only [Except.ok.injEq, Prod.mk.injEq] at h
      exact Or.inr ⟨k, cs, by rw [← h.1, ← h.2]; exact h1, rfl⟩
  | retype_untyped_memory u t s n =>
    simp only [step] at h
    rcases retype_cases a u t s n with h1 | h1
    · rw [h1] at h
      simp only [Except.ok.injEq, Prod.mk.injEq] at h
      exact Or.inl ⟨a.num_slots_used, h.2.symm⟩
    · rw [h1] at h
      simp only [Except.ok.injEq, Prod.mk.injEq] at h
      exact Or.inl ⟨_, h.2.symm⟩

theorem step_same_frame (o : op) (a a' : allocator) (r : Nat) (h : step o a = .ok (r, a')) :
    same_frame a a' := by
  rcases step_shape o a a' r h with ⟨u, hu⟩ | ⟨k, cs, hk, _⟩
  · rw [hu]; exact ⟨rfl, rfl, rfl, rfl, rfl, rfl⟩
  · exact (alloc_same_frame _ _ _ _ _ _ hk).1

theorem run_ops_same_frame (ops : List op) (a a' : allocator) (h : run_ops ops a = .ok a') :
    same_frame a a' := by
  induction ops generalizing a with
  | nil =>
    simp only [run_ops, Except.ok.injEq] at h
    rw [h]; exact same_frame_refl a'
  | cons o rest ih =>
    unfold run_ops at h
    cases h1 : step o a with
    | error e => rw [h1] at h; cases h
    | ok v =>
      obtain ⟨r, a1⟩ := v
      rw [h1] at h
      exact same_frame_trans (step_same_frame o a a1 r h1) (ih a1 h)

theorem range_alloc_fault (p : cap_range) (e : fault) (h : range_alloc p 1 = .error e) :
    e = .assert_range_first := by
  unfold range_alloc at h
  by_cases c1 : p.count < to_ulong 1
  · simp [c1] at h
  · by_cases c2 : p.first = 0
    · simp only [c1, c2, if_true, if_false, Except.error.injEq] at h
      exact h.symm
    · simp [c1, c2] at h

theorem split_step_fault (a2 : allocator) (big k : Nat) (calls : List kernel_call) (e : fault)
    (h : split_step a2 big k calls = .error e) :
    e = .assert_range_first ∨ e = .assert_split_result := by
  unfold split_step at h
  rcases retype_cases a2 big seL4_UntypedObject k 2 with hc | hc
  · rw [hc] at h
    simp at h
  · rw [hc] at h
    simp only [OfNat.ofNat_ne_zero, if_false] at h
    cases hra : range_alloc ⟨next_slot a2, to_ulong 2⟩ 1 with
    | error e1 =>
      rw [hra] at h
      simp only [Except.error.injEq] at h
      exact Or.inl (h ▸ range_alloc_fault _ _ hra)
    | ok v =>
      obtain ⟨r2, p2⟩ := v
      rw [hra] at h
      by_cases hr2 : r2 = 0
      · simp only [hr2, if_true, Except.error.injEq] at h
        exact Or.inr h.symm
      · simp [hr2] at h

/-- The faults `alloc_untyped_fuel` can end with. -/
theorem alloc_fault_kinds (fuel : Nat) (a : allocator) (k : Nat) (e : fault)
    (h : alloc_untyped_fuel fuel a k = .error e) :
    e = .assert_range_first ∨ e = .assert_split_result ∨ e = .out_of_fuel := by
  induction fuel generalizing a k e with
  | zero =>
    simp only [alloc_untyped_fuel, Except.error.injEq] at h
    exact Or.inr (Or.inr h.symm)
  | succ fuel ih =>
    by_cases hr : k < MIN_UNTYPED_SIZE ∨ MAX_UNTYPED_SIZE < k
    · rw [alloc_out_of_range fuel a k hr] at h
      cases h
    · have h1' : ¬ k < MIN_UNTYPED_SIZE := by omega
      have h2' : ¬ k > MAX_UNTYPED_SIZE := by omega
      unfold alloc_untyped_fuel at h
      simp only [h1', h2', if_false] at h
      cases hra : range_alloc (a.untyped_items.getD (k - MIN_UNTYPED_SIZE) ⟨0, 0⟩) 1 with
      | error e1 =>
        rw [hra] at h
        simp only [Except.error.injEq] at h
        exact Or.inl (h ▸ range_alloc_fault _ _ hra)
      | ok v =>
        obtain ⟨res, pool1⟩ := v
        rw [hra] at h
        simp only at h
        by_cases hres : res = 0
        · subst hres
          simp only [ne_eq, not_true_eq_false, if_false] at h
          cases hs : scan_roots a.init_untyped_items k with
          | some v =>
            rw [hs] at h
            cases h
          | none =>
            rw [hs] at h
            simp only at h
            cases hrec : alloc_untyped_fuel fuel
                { a with untyped_items := a.untyped_items.set (k - MIN_UNTYPED_SIZE) pool1 }
                (k + 1) with
            | error e1 =>
              rw [hrec] at h
              simp only [Except.error.injEq] at h
              exact h ▸ ih _ _ _ hrec
            | ok v =>
              obtain ⟨big, a2, calls⟩ := v
              rw [hrec] at h
              simp only at h
              by_cases hb : big = 0
              · simp [hb] at h
              · simp only [hb, if_false] at h
                have hsp : split_step a2 big k calls = .error e := by
                  unfold split_step; exact h
                rcases split_step_fault _ _ _ _ _ hsp with h3 | h3
                · exact Or.inl h3
                · exact Or.inr (Or.inl h3)
        · simp [hres] at h

/-- C1.  For an allocator `s0` built by `allocator_create` (any window, any seed items)
and any state `s` reached from it by a sequence of slot, untyped and retype requests
that returns: `allocator_reset s` returns a state on which `alloc_untyped(k)` gives the
result (handle or zero, allocator and kernel calls, or fault) that it gives on `s0`,
for every `k`.  In particular, when the first `alloc_untyped(MIN_UNTYPED_SIZE)` of
`allocator_self_test` returns `x`, the allocation after the reset returns the same `x`,
so the self test never fails its assertion `x == y`. -/
theorem reset_then_alloc_same (rc rd ro first n : Nat) (items : List untyped_item)
    (s0 s : allocator) (ops : List op) (k : Nat)
    (hc : allocator_create rc rd ro first n items = .ok s0)
    (hr : run_ops ops s0 = .ok s) :
    (∃ s1 calls, allocator_reset s = .ok (s1, calls) ∧
      allocator_alloc_untyped s1 k = allocator_alloc_untyped s0 k) ∧
    (∀ x a1 c1, allocator_alloc_untyped s0 MIN_UNTYPED_SIZE = .ok (x, a1, c1) →
      ∃ a2 c2, allocator_reset a1 = .ok (a2, c2) ∧
        allocator_alloc_untyped a2 MIN_UNTYPED_SIZE = .ok (x, a1, c1)) ∧
    allocator_self_test s0 ≠ .error .assert_self_test := by
  have hf := create_fresh _ _ _ _ _ _ _ hc
  refine ⟨?_, ?_, ?_⟩
  · obtain ⟨calls, hcalls⟩ := reset_of_frame s0 s hf (run_ops_same_frame ops s0 s hr)
    exact ⟨s0, calls, hcalls, rfl⟩
  · intro x a1 c1 hx
    obtain ⟨c2, h2⟩ := reset_of_frame s0 a1 hf (alloc_same_frame _ _ _ _ _ _ hx).1
    exact ⟨s0, c2, h2, hx⟩
  · unfold allocator_self_test
    cases hx : allocator_alloc_untyped s0 MIN_UNTYPED_SIZE with
    | error e =>
      simp only [ne_eq, Except.error.injEq]
      intro he
      rcases alloc_fault_kinds _ _ _ _ hx with h | h | h <;>
        · rw [he] at h; cases h
    | ok v =>
      obtain ⟨x, a1, c1⟩ := v
      obtain ⟨c2, h2⟩ := reset_of_frame s0 a1 hf (alloc_same_frame _ _ _ _ _ _ hx).1
      simp only [h2, hx]
      simp

/-- Witness for C1: the allocator created over five slots from one root item of class 6,
after `alloc_untyped(4)` and `alloc_cslot`. -/
theorem reset_then_alloc_same_witness :
    (∃ s1 calls, allocator_reset ex_used = .ok (s1, calls) ∧
      allocator_alloc_untyped s1 4 = allocator_alloc_untyped ex_created 4) ∧
    (∀ x a1 c1, allocator_alloc_untyped ex_created MIN_UNTYPED_SIZE = .ok (x, a1, c1) →
      ∃ a2 c2, allocator_reset a1 = .ok (a2, c2) ∧
        allocator_alloc_untyped a2 MIN_UNTYPED_SIZE = .ok (x, a1, c1)) ∧
    allocator_self_test ex_created ≠ .error .assert_self_test :=
  reset_then_alloc_same 2 32 0 10 5 [⟨100, 6⟩] ex_created ex_used
    [.alloc_untyped 4, .alloc_cslot] 4 (by decide) (by decide)

theorem to_ulong_nat (n : Nat) (h : n < WORD) : to_ulong (n : Int) = n := by
  unfold WORD at h
  unfold to_ulong WORD
  omega

/-- Counterexample to C4 as stated: with `root_cnode_offset = 5` the first
`alloc_slots(2)` on the fresh window starting at 10 returns 15, not 10, and the next
`alloc_slot` returns 17, not 12. -/
theorem alloc_cslots_first_counterexample :
    allocator_create 2 32 5 10 3 [] = .ok ex_offset ∧
    (allocator_alloc_cslots ex_offset 2).1 = 15 ∧
    (allocator_alloc_cslots ex_offset 2).1 ≠ ex_offset.cslots.first ∧
    (allocator_alloc_cslot (allocator_alloc_cslots ex_offset 2).2).1 = 17 ∧
    (allocator_alloc_cslot (allocator_alloc_cslots ex_offset 2).2).1 ≠
      ex_offset.cslots.first + 2 := by
  decide

/-- C4 (amended).  On an allocator with nothing consumed, `alloc_slots(n)` followed by
`alloc_slots(m)`, with `n + m` within the window count, return the caps
`first + root_cnode_offset` and `first + root_cnode_offset + n` (in word arithmetic),
the starts of two adjacent ranges, and leave `n + m` slots consumed.  On a window of
count 3, `alloc_slots(2)` returns `first + root_cnode_offset`, the next `alloc_slot`
returns that cap plus 2, and a further `alloc_slot` returns zero and changes nothing. -/
theorem alloc_cslots_adjacent (a : allocator) (n m : Nat)
    (h0 : a.num_slots_used = 0) (hc : a.cslots.count < WORD)
    (hnm : n + m ≤ a.cslots.count) :
    (allocator_alloc_cslots a n).1 = (a.cslots.first + a.root_cnode_offset) % WORD ∧
    (allocator_alloc_cslots (allocator_alloc_cslots a n).2 m).1 =
      (a.cslots.first + a.root_cnode_offset + n) % WORD ∧
    (allocator_alloc_cslots (allocator_alloc_cslots a n).2 m).2.num_slots_used = n + m ∧
    (a.cslots.count = 3 →
      (allocator_alloc_cslots a 2).1 = (a.cslots.first + a.root_cnode_offset) % WORD ∧
      (allocator_alloc_cslot (allocator_alloc_cslots a 2).2).1 =
        (a.cslots.first + a.root_cnode_offset + 2) % WORD ∧
      allocator_alloc_cslot (allocator_alloc_cslot (allocator_alloc_cslots a 2).2).2 =
        (0, (allocator_alloc_cslot (allocator_alloc_cslots a 2).2).2)) := by
  have hn : to_ulong (n : Int) = n := to_ulong_nat n (by omega)
  have hm : to_ulong (m : Int) = m := to_ulong_nat m (by omega)
  have e1 : ¬ usub a.cslots.count 0 < n := by unfold usub WORD; unfold WORD at hc; omega
  have e2 : uadd 0 n = n := by unfold uadd WORD; unfold WORD at hc; omega
  have e3 : ¬ usub a.cslots.count n < m := by unfold usub WORD; unfold WORD at hc; omega
  have e4 : uadd n m = n + m := by unfold uadd WORD; unfold WORD at hc; omega
  have e5 : uadd (uadd a.cslots.first 0) a.root_cnode_offset =
      (a.cslots.first + a.root_cnode_offset) % WORD := by unfold uadd WORD; omega
  have e6 : uadd (uadd a.cslots.first n) a.root_cnode_offset =
      (a.cslots.first + a.root_cnode_offset + n) % WORD := by unfold uadd WORD; omega
  refine ⟨?_, ?_, ?_, ?_⟩
  · simp [allocator_alloc_cslots, h0, hn, e1, e5]
  · simp [allocator_alloc_cslots, h0, hn, hm, e1, e2, e3, e6]
  · simp [allocator_alloc_cslots, h0, hn, hm, e1, e2, e3, e4]
  · intro h3
    have f1 : ¬ usub 3 0 < 2 := by decide
    have f2 : uadd 0 2 = 2 := by decide
    have f3 : usub 3 2 ≠ 0 := by decide
    have f4 : uadd 2 1 = 3 := by decide
    have f5 : usub 3 3 = 0 := by decide
    have f6 : uadd (uadd a.cslots.first 2) a.root_cnode_offset =
        (a.cslots.first + a.root_cnode_offset + 2) % WORD := by unfold uadd WORD; omega
    have ht : to_ulong 2 = 2 := by decide
    refine ⟨?_, ?_, ?_⟩
    · simp [allocator_alloc_cslots, h0, h3, ht, f1, e5]
    · simp [allocator_alloc_cslots, allocator_alloc_cslot, h0, h3, ht, f1, f2, f3, f6]
    · simp [allocator_alloc_cslots, allocator_alloc_cslot, h0, h3, ht, f1, f2, f3, f4, f5]

/-- Witness for C4 (amended): the window of three slots at 10 with offset 5. -/
theorem alloc_cslots_adjacent_witness :
    (allocator_alloc_cslots ex_offset ((2 : Nat) : Int)).1 = (10 + 5) % WORD ∧
    (allocator_alloc_cslots (allocator_alloc_cslots ex_offset ((2 : Nat) : Int)).2
      ((1 : Nat) : Int)).1 = (10 + 5 + 2) % WORD ∧
    (allocator_alloc_cslots (allocator_alloc_cslots ex_offset ((2 : Nat) : Int)).2
      ((1 : Nat) : Int)).2.num_slots_used = 2 + 1 ∧
    (ex_offset.cslots.count = 3 →
      (allocator_alloc_cslots ex_offset 2).1 = (10 + 5) % WORD ∧
      (allocator_alloc_cslot (allocator_alloc_cslots ex_offset 2).2).1 = (10 + 5 + 2) % WORD ∧
      allocator_alloc_cslot (allocator_alloc_cslot (allocator_alloc_cslots ex_offset 2).2).2 =
        (0, (allocator_alloc_cslot (allocator_alloc_cslots ex_offset 2).2).2)) :=
  alloc_cslots_adjacent ex_offset 2 1 (by decide) (by decide) (by decide)

/-- Counterexample to C5 as stated: on the fresh one-slot window at slot 0 (offset 0),
`alloc_slots(1)` does not exceed the remaining capacity, yet it returns the failure
value zero, and the state has changed (the slot is consumed). -/
theorem alloc_cslots_zero_counterexample :
    allocator_create 2 32 0 0 1 [] = .ok ex_slot_zero ∧
    ¬ (ex_slot_zero.cslots.count - ex_slot_zero.num_slots_used < 1) ∧
    (allocator_alloc_cslots ex_slot_zero 1).1 = 0 ∧
    (allocator_alloc_cslots ex_slot_zero 1).2 ≠ ex_slot_zero := by
  decide

/-- C5 (amended).  For every allocator state and every `n ≥ 0`: when `n` exceeds the
remaining capacity `count - consumed`, `alloc_slots(n)` returns zero and leaves the
state unchanged; otherwise it returns the cap `first + consumed + root_cnode_offset` of
the first of `n` unused slots and advances the counter by exactly `n`, changing nothing
else.  The returned value is zero exactly when `n` exceeds the remaining capacity or
that cap is itself zero. -/
theorem alloc_cslots_spec (a : allocator) (n : Nat) (hn : n ≤ INT_MAX) :
    (slots_remaining a < n → allocator_alloc_cslots a n = (0, a)) ∧
    (n ≤ slots_remaining a → allocator_alloc_cslots a n =
      (next_slot a, { a with num_slots_used := uadd a.num_slots_used n })) ∧
    ((allocator_alloc_cslots a n).1 = 0 ↔ slots_remaining a < n ∨ next_slot a = 0) ∧
    (slots_ok a → slots_remaining a = a.cslots.count - a.num_slots_used ∧
      (n ≤ a.cslots.count - a.num_slots_used →
        uadd a.num_slots_used n = a.num_slots_used + n ∧
        next_slot a = (a.cslots.first + a.num_slots_used + a.root_cnode_offset) % WORD)) := by
  have hu : to_ulong (n : Int) = n :=
    to_ulong_nat n (by unfold INT_MAX at hn; unfold WORD; omega)
  refine ⟨?_, ?_, ?_, ?_⟩
  · intro h
    unfold slots_remaining at h
    simp [allocator_alloc_cslots, hu, h]
  · intro h
    unfold slots_remaining at h
    have h' : ¬ usub a.cslots.count a.num_slots_used < n := by omega
    simp [allocator_alloc_cslots, hu, h', next_slot]
  · unfold slots_remaining
    by_cases h : usub a.cslots.count a.num_slots_used < n
    · simp [allocator_alloc_cslots, hu, h]
    · simp [allocator_alloc_cslots, hu, h, next_slot]
  · intro hs
    refine ⟨slots_remaining_eq a hs, ?_⟩
    intro hle
    unfold slots_ok INT_MAX WORD at hs
    unfold next_slot uadd WORD
    omega

/-- Witness for C5 (amended): one slot out of the three at 10 with offset 5. -/
theorem alloc_cslots_spec_witness :
    allocator_alloc_cslots ex_offset ((1 : Nat) : Int) =
      (next_slot ex_offset, { ex_offset with num_slots_used := uadd ex_offset.num_slots_used 1 }) :=
  (alloc_cslots_spec ex_offset 1 (by decide)).2.1 (by decide)

/-- Counterexample to C6 as stated: with `root_cnode_offset = 5`, `alloc_slot` on the
fresh window at 10 returns 15, not `first + consumed = 10`; and on the fresh one-slot
window at slot 0 it returns zero although `consumed = 0` differs from `count = 1`, and
the slot is consumed. -/
theorem alloc_cslot_counterexample :
    (allocator_alloc_cslot ex_offset).1 = 15 ∧
    (allocator_alloc_cslot ex_offset).1 ≠ ex_offset.cslots.first + ex_offset.num_slots_used ∧
    (allocator_alloc_cslot ex_slot_zero).1 = 0 ∧
    ex_slot_zero.num_slots_used ≠ ex_slot_zero.cslots.count ∧
    (allocator_alloc_cslot ex_slot_zero).2 ≠ ex_slot_zero := by
  decide

/-- C6 (amended).  For every allocator state (its fields being machine words):
`alloc_slot` returns the cap `first + consumed + root_cnode_offset` (in word arithmetic)
and increases the counter by exactly one when `consumed < count` (indeed whenever
`consumed ≠ count`); when `consumed = count` it returns zero and leaves the allocator
unchanged; the returned value is zero exactly when `consumed = count` or that cap is
itself zero. -/
theorem alloc_cslot_spec (a : allocator) (hc : a.cslots.count < WORD)
    (hu : a.num_slots_used < WORD) :
    (a.num_slots_used ≠ a.cslots.count → allocator_alloc_cslot a =
      (next_slot a, { a with num_slots_used := uadd a.num_slots_used 1 })) ∧
    (a.num_slots_used = a.cslots.count → allocator_alloc_cslot a = (0, a)) ∧
    ((allocator_alloc_cslot a).1 = 0 ↔
      a.num_slots_used = a.cslots.count ∨ next_slot a = 0) ∧
    next_slot a = (a.cslots.first + a.num_slots_used + a.root_cnode_offset) % WORD ∧
    (a.num_slots_used < a.cslots.count →
      uadd a.num_slots_used 1 = a.num_slots_used + 1) := by
  have hz : usub a.cslots.count a.num_slots_used = 0 ↔ a.num_slots_used = a.cslots.count := by
    unfold WORD at hc hu
    unfold usub WORD
    omega
  refine ⟨?_, ?_, ?_, ?_, ?_⟩
  · intro h
    have h' : ¬ usub a.cslots.count a.num_slots_used = 0 := fun hh => h (hz.mp hh)
    simp [allocator_alloc_cslot, h', next_slot]
  · intro h
    simp [allocator_alloc_cslot, hz.mpr h]
  · by_cases h : usub a.cslots.count a.num_slots_used = 0
    · have l1 : (allocator_alloc_cslot a).1 = 0 := by simp [allocator_alloc_cslot, h]
      exact ⟨fun _ => Or.inl (hz.mp h), fun _ => l1⟩
    · have h' : ¬ a.num_slots_used = a.cslots.count := fun hh => h (hz.mpr hh)
      simp [allocator_alloc_cslot, h, h', next_slot]
  · unfold next_slot uadd WORD
    omega
  · intro h
    unfold WORD at hc hu
    unfold uadd WORD
    omega

/-- Witness for C6 (amended): the fresh window of three slots at 10 with offset 5. -/
theorem alloc_cslot_spec_witness :
    allocator_alloc_cslot ex_offset =
      (next_slot ex_offset, { ex_offset with num_slots_used := uadd ex_offset.num_slots_used 1 }) :=
  (alloc_cslot_spec ex_offset (by decide) (by decide)).1 (by decide)

/-- Counterexample to C10 as stated: on the fresh window of `2 ^ 31` slots at 10,
`retype_untyped` for one object returns 0 with the empty range and no kernel call, although
`2 ^ 31` slots remain and `alloc_slots(1)` returns slot 10 in the same state. -/
theorem retype_untyped_counterexample :
    allocator_create 2 32 0 10 2147483648 [⟨100, 5⟩] = .ok ex_huge ∧
    ¬ (ex_huge.cslots.count - ex_huge.num_slots_used < 1) ∧
    allocator_retype_untyped_memory ex_huge 100 0 4 1 = .ok (0, ⟨0, 0⟩, ex_huge, []) ∧
    allocator_alloc_cslots ex_huge 1 = (10, { ex_huge with num_slots_used := 1 }) := by
  decide

/-- C10 (amended).  For every allocator state and every `count ≥ 1`, with `remaining` the
unsigned difference `cslots.count - num_slots_used` the code computes: if `remaining` is
below `count`, or above `INT_MAX` (the code reads it as an `int`, which is then negative),
`retype_untyped` returns 0 with the empty range `(0, 0)`, leaves the allocator unchanged
and issues no kernel call; otherwise it issues exactly one retype for `count` objects,
returns `count` with a range of `count` caps whose first cap is the one
`alloc_slots(count)` returns in the same state, and advances the slot counter by `count`
in word arithmetic, ending in the state `alloc_slots(count)` ends in.  When the counter
is within a window whose count is a machine word, `remaining` is the number of slots
left and a successful call advances the counter by exactly `count`. -/
theorem retype_untyped_spec (a : allocator) (u t s n : Nat) (h1 : 1 ≤ n) :
    (slots_remaining a < n ∨ INT_MAX < slots_remaining a →
      allocator_retype_untyped_memory a u t s n = .ok (0, ⟨0, 0⟩, a, [])) ∧
    (n ≤ slots_remaining a → slots_remaining a ≤ INT_MAX →
      allocator_retype_untyped_memory a u t s n =
        .ok (n, ⟨(allocator_alloc_cslots a n).1, n⟩,
          { a with num_slots_used := uadd a.num_slots_used n },
          [.Untyped_Retype u t s a.root_cnode a.root_cnode_depth
            (uadd a.cslots.first a.num_slots_used) n]) ∧
      (allocator_alloc_cslots a n).2 = { a with num_slots_used := uadd a.num_slots_used n }) ∧
    (a.num_slots_used ≤ a.cslots.count → a.cslots.count < WORD →
      slots_remaining a = a.cslots.count - a.num_slots_used ∧
      (n ≤ a.cslots.count - a.num_slots_used →
        uadd a.num_slots_used n = a.num_slots_used + n)) := by
  have hlt : slots_remaining a < WORD := by
    unfold slots_remaining usub
    exact Nat.mod_lt _ (by decide)
  refine ⟨?_, ?_, ?_⟩
  · intro h
    refine retype_fail a u t s n ?_
    unfold WORD at hlt
    unfold to_int INT_MAX WORD
    unfold INT_MAX at h
    split <;> omega
  · intro h hmax
    have hi : (n : Int) ≤ to_int (slots_remaining a) := by
      unfold WORD at hlt
      unfold to_int INT_MAX WORD
      unfold INT_MAX at hmax
      split <;> omega
    have hn : to_ulong (n : Int) = n :=
      to_ulong_nat n (by unfold INT_MAX at hmax; unfold WORD; omega)
    have hnl : ¬ usub a.cslots.count a.num_slots_used < n := by
      unfold slots_remaining at h
      omega
    constructor
    · rw [retype_ok a u t s n hi, hn]
      simp [allocator_alloc_cslots, hn, hnl, next_slot]
    · simp [allocator_alloc_cslots, hn, hnl]
  · intro hu hw
    unfold WORD at hw
    refine ⟨?_, ?_⟩
    · unfold slots_remaining usub WORD
      omega
    · intro hfit
      unfold uadd WORD
      omega

/-- Witness for C10 (amended): a retype of two objects on the fresh window of three slots,
and a retype of one object on the window of `2 ^ 31` slots. -/
theorem retype_untyped_spec_witness :
    (allocator_retype_untyped_memory ex_offset 100 0 4 ((2 : Nat) : Int) =
        .ok (((2 : Nat) : Int), ⟨(allocator_alloc_cslots ex_offset ((2 : Nat) : Int)).1, 2⟩,
          { ex_offset with num_slots_used := uadd ex_offset.num_slots_used 2 },
          [.Untyped_Retype 100 0 4 ex_offset.root_cnode ex_offset.root_cnode_depth
            (uadd ex_offset.cslots.first ex_offset.num_slots_used) ((2 : Nat) : Int)]) ∧
      (allocator_alloc_cslots ex_offset ((2 : Nat) : Int)).2 =
        { ex_offset with num_slots_used := uadd ex_offset.num_slots_used 2 }) ∧
    allocator_retype_untyped_memory ex_huge 100 0 4 ((1 : Nat) : Int) =
      .ok (0, ⟨0, 0⟩, ex_huge, []) :=
  ⟨(retype_untyped_spec ex_offset 100 0 4 2 (by decide)).2.1 (by decide) (by decide),
    (retype_untyped_spec ex_huge 100 0 4 1 (by decide)).1 (by decide)⟩

theorem step_pools_capacity (o : op) (a a' : allocator) (r : Nat)
    (h : step o a = .ok (r, a')) (hp : pools_ok a) :
    pools_ok a' ∧ capacity a' ≤ capacity a ∧
    (o = .alloc_untyped MIN_UNTYPED_SIZE → r ≠ 0 →
      capacity a' + 2 ^ MIN_UNTYPED_SIZE = capacity a) := by
  rcases step_shape o a a' r h with ⟨u, hu⟩ | ⟨k, cs, hk, ho⟩
  · subst hu
    refine ⟨hp, le_refl _, ?_⟩
    intro ho hr
    subst ho
    simp only [step] at h
    cases h1 : allocator_alloc_untyped a MIN_UNTYPED_SIZE with
    | error e => rw [h1] at h; cases h
    | ok v =>
      obtain ⟨r1, a1, cs⟩ := v
      rw [h1] at h
      simp only [Except.ok.injEq, Prod.mk.injEq] at h
      obtain ⟨e1, e2⟩ := h
      subst e1
      have := (alloc_capacity _ _ _ _ _ _ h1 hp).1 hr
      rw [e2] at this
      exact this
  · have hc := alloc_capacity _ _ _ _ _ _ hk hp
    refine ⟨alloc_pools_ok _ _ _ _ _ _ hk hp, hc.2, ?_⟩
    intro ho' hr
    rw [ho] at ho'
    cases ho'
    exact hc.1 hr

theorem run_ops_pools_ok (ops : List op) (a a' : allocator) (h : run_ops ops a = .ok a')
    (hp : pools_ok a) : pools_ok a' := by
  induction ops generalizing a with
  | nil =>
    simp only [run_ops, Except.ok.injEq] at h
    exact h ▸ hp
  | cons o rest ih =>
    unfold run_ops at h
    cases h1 : step o a with
    | error e => rw [h1] at h; cases h
    | ok v =>
      obtain ⟨r, a1⟩ := v
      rw [h1] at h
      exact ih a1 h (step_pools_capacity o a a1 r h1 hp).1

theorem min_successes_capacity (ops : List op) (a : allocator) (hp : pools_ok a) :
    min_successes ops a * 2 ^ MIN_UNTYPED_SIZE ≤ capacity a := by
  induction ops generalizing a with
  | nil => simp [min_successes]
  | cons o rest ih =>
    unfold min_successes
    cases h1 : step o a with
    | error e => simp
    | ok v =>
      obtain ⟨r, a1⟩ := v
      simp only
      obtain ⟨q1, q2, q3⟩ := step_pools_capacity o a a1 r h1 hp
      have := ih a1 q1
      by_cases hc : o = .alloc_untyped MIN_UNTYPED_SIZE ∧ r ≠ 0
      · have := q3 hc.1 hc.2
        simp only [hc, ne_eq, not_false_eq_true, and_self, if_true]
        rw [Nat.add_mul]
        omega
      · simp only [hc, if_false, Nat.zero_add]
        omega

theorem empty_pools_ok (a : allocator) (h : a.untyped_items = empty_pools) : pools_ok a := by
  unfold pools_ok
  rw [h]
  refine ⟨by simp [empty_pools], ?_⟩
  intro p hp
  rw [List.eq_of_mem_replicate hp]
  exact Or.inl rfl

/-- C7.  For an allocator created with a single root item of class `MAX_UNTYPED_SIZE`
(any window, any cap), every sequence of requests (slot, untyped of any class, retype;
no reset) contains at most `2 ^ (MAX_UNTYPED_SIZE - MIN_UNTYPED_SIZE)` requests
`alloc_untyped(MIN_UNTYPED_SIZE)` that return a handle.  The available capacity (sum of
`2 ^ class` over available root items and pooled items) starts at `2 ^ MAX_UNTYPED_SIZE`,
and in every state the sequence reaches an `alloc_untyped(k)` that returns a handle
lowers it by exactly `2 ^ k`, and none raises it. -/
theorem min_allocs_bounded (rc rd ro first n cap : Nat) (s0 : allocator) (ops : List op)
    (hc : allocator_create rc rd ro first n [⟨cap, MAX_UNTYPED_SIZE⟩] = .ok s0) :
    min_successes ops s0 ≤ 2 ^ (MAX_UNTYPED_SIZE - MIN_UNTYPED_SIZE) ∧
    capacity s0 = 2 ^ MAX_UNTYPED_SIZE ∧
    ∀ s, run_ops ops s0 = .ok s → ∀ k r s' cs,
      allocator_alloc_untyped s k = .ok (r, s', cs) →
        (r ≠ 0 → capacity s' + 2 ^ k = capacity s) ∧ capacity s' ≤ capacity s := by
  have hp : pools_ok s0 := empty_pools_ok s0 (create_fresh _ _ _ _ _ _ _ hc).2.1
  have hcap : capacity s0 = 2 ^ MAX_UNTYPED_SIZE := by
    rw [create_shape _ _ _ _ _ _ _ hc]
    have : pools_capacity MIN_UNTYPED_SIZE empty_pools = 0 := by decide
    simp [capacity, roots_capacity, this]
  refine ⟨?_, hcap, ?_⟩
  · have h := min_successes_capacity ops s0 hp
    rw [hcap] at h
    have e : (2 : Nat) ^ MAX_UNTYPED_SIZE =
        2 ^ (MAX_UNTYPED_SIZE - MIN_UNTYPED_SIZE) * 2 ^ MIN_UNTYPED_SIZE := by decide
    rw [e] at h
    exact Nat.le_of_mul_le_mul_right h (by decide)
  · intro s hs k r s' cs hk
    exact alloc_capacity _ _ _ _ _ _ hk (run_ops_pools_ok ops s0 s hs hp)

/-- Witness for C7: one root item of class 32 over a window of sixty slots.  Both
requests `alloc_untyped(4)` of the sequence return a handle, the first after 28 splits. -/
theorem min_allocs_bounded_witness :
    min_successes [.alloc_untyped 4, .alloc_cslot, .alloc_untyped 4] ex_wide = 2 ∧
    (min_successes [.alloc_untyped 4, .alloc_cslot, .alloc_untyped 4] ex_wide ≤
        2 ^ (MAX_UNTYPED_SIZE - MIN_UNTYPED_SIZE) ∧
      capacity ex_wide = 2 ^ MAX_UNTYPED_SIZE ∧
      ∀ s, run_ops [.alloc_untyped 4, .alloc_cslot, .alloc_untyped 4] ex_wide = .ok s →
        ∀ k r s' cs, allocator_alloc_untyped s k = .ok (r, s', cs) →
          (r ≠ 0 → capacity s' + 2 ^ k = capacity s) ∧ capacity s' ≤ capacity s) :=
  ⟨by decide,
    min_allocs_bounded 2 32 0 10 60 100 ex_wide
      [.alloc_untyped 4, .alloc_cslot, .alloc_untyped 4] (by decide)⟩

theorem scan_roots_none_of_not_avail (a : allocator) (k : Nat) (h : ¬ class_avail a k) :
    (pool_of a k).count = 0 ∧ scan_roots a.init_untyped_items k = none := by
  unfold class_avail at h
  constructor
  · by_contra hc
    exact h (Or.inl hc)
  · rw [scan_roots_none]
    intro hr
    exact h (Or.inr hr)

/-- With no available item in any class from `k` up, the call returns zero and changes
nothing. -/
theorem alloc_none_avail (fuel : Nat) (a : allocator) (k : Nat)
    (hf : MAX_UNTYPED_SIZE + 2 ≤ k + fuel) (hf1 : 1 ≤ fuel)
    (h : ∀ j, k ≤ j → j ≤ MAX_UNTYPED_SIZE → ¬ class_avail a j) :
    alloc_untyped_fuel fuel a k = .ok (0, a, []) := by
  induction fuel generalizing k with
  | zero => omega
  | succ fuel ih =>
    by_cases hr : k < MIN_UNTYPED_SIZE ∨ MAX_UNTYPED_SIZE < k
    · exact alloc_out_of_range fuel a k hr
    · have h1 : MIN_UNTYPED_SIZE ≤ k := by omega
      have h2 : k ≤ MAX_UNTYPED_SIZE := by omega
      obtain ⟨hp, hs⟩ := scan_roots_none_of_not_avail a k (h k (le_refl _) h2)
      rw [alloc_recurse fuel a k h1 h2 hp hs,
        ih (k + 1) (by omega) (by omega) (fun j hj hj2 => h j (by omega) hj2)]
      simp

/-- A call that returns zero although some class from `k` up holds an item was stopped
by a split that could not get its two slots. -/
theorem alloc_failed_split (fuel : Nat) (a : allocator) (k : Nat) (a' : allocator)
    (cs : List kernel_call) (h : alloc_untyped_fuel fuel a k = .ok (0, a', cs))
    (hp : pools_ok a) (hr : roots_ok a) (hk : MIN_UNTYPED_SIZE ≤ k)
    (hav : ∃ j, k ≤ j ∧ j ≤ MAX_UNTYPED_SIZE ∧ class_avail a j) :
    to_int (slots_remaining a') < 2 ∧ capacity a' < capacity a := by
  have key : ∀ fuel a k r a' cs, alloc_untyped_fuel fuel a k = .ok (r, a', cs) →
      pools_ok a → roots_ok a → MIN_UNTYPED_SIZE ≤ k →
      (∃ j, k ≤ j ∧ j ≤ MAX_UNTYPED_SIZE ∧ class_avail a j) → r = 0 →
      to_int (slots_remaining a') < 2 ∧ capacity a' < capacity a := by
    refine alloc_induct_rec (P := fun k a r a' _ => pools_ok a → roots_ok a →
      MIN_UNTYPED_SIZE ≤ k → (∃ j, k ≤ j ∧ j ≤ MAX_UNTYPED_SIZE ∧ class_avail a j) → r = 0 →
      to_int (slots_remaining a') < 2 ∧ capacity a' < capacity a) ?_ ?_ ?_ ?_ ?_
    · intro a k hout _ _ hk hav _
      obtain ⟨j, hj1, hj2, _⟩ := hav
      omega
    · intro a k res pool1 _ _ _ hres _ _ _ _ h0
      exact absurd h0 hres
    · intro a k pool1 c items1 _ _ _ hs _ hr _ _ h0
      obtain ⟨it, hit, hc, _, _⟩ := scan_roots_mem _ _ _ _ hs
      exact absurd (hc.trans h0) (hr.2 it hit).1
    · intro a k pool1 a2 calls h1 h2 hra hs _ ih hp hr _ hav _
      rcases range_alloc_cases _ _ _ (pool_of_ok a k hp) hra with ⟨hc0, _, h3⟩ | ⟨_, h0, hn, _⟩
      · rw [h3] at ih
        unfold pool_of at ih
        rw [set_pool_self] at ih
        refine ih hp hr (by omega) ?_ rfl
        obtain ⟨j, hj1, hj2, hj3⟩ := hav
        by_cases hjk : j = k
        · subst hjk
          rcases hj3 with hj3 | hj3
          · exact absurd hc0 hj3
          · exact absurd hj3 ((scan_roots_none _ _).mp hs)
        · exact ⟨j, by omega, hj2, hj3⟩
      · exact absurd h0.symm (h0 ▸ hn)
    · intro a k pool1 big a2 calls r a' cs h1 h2 hra hs hrec _ hb hsp hp hr _ _ h0
      rcases range_alloc_cases _ _ _ (pool_of_ok a k hp) hra with ⟨hc0, _, h3⟩ | ⟨_, h0', hn, _⟩
      · rw [h3] at hrec
        unfold pool_of at hrec
        rw [set_pool_self] at hrec
        obtain ⟨fuel, hrec⟩ := hrec
        have hp2 := alloc_pools_ok _ _ _ _ _ _ hrec hp
        have hcap := (alloc_capacity _ _ _ _ _ _ hrec hp).1 hb
        have hlen : k - MIN_UNTYPED_SIZE < a2.untyped_items.length := by
          rw [hp2.1]; unfold NUM_POOLS MAX_UNTYPED_SIZE MIN_UNTYPED_SIZE at *; omega
        rcases split_step_cases _ _ _ _ _ _ _ hsp with ⟨hlt, _, _, ha'⟩ | ⟨_, _, hr0, _, _, _⟩
        · have hc := capacity_set_pool a2 a' (k - MIN_UNTYPED_SIZE) ⟨0, 0⟩ hlen
            (by rw [ha']) (by rw [ha'])
          simp only [zero_mul, add_zero] at hc
          have hpos : 0 < 2 ^ (k + 1) := pow_pos (by decide) _
          refine ⟨by rw [ha']; exact hlt, ?_⟩
          generalize 2 ^ (k + 1) = x at hcap hpos
          generalize (a2.untyped_items.getD (k - MIN_UNTYPED_SIZE) ⟨0, 0⟩).count *
            2 ^ (MIN_UNTYPED_SIZE + (k - MIN_UNTYPED_SIZE)) = y at hc
          omega
        · exact absurd h0 hr0
      · exact absurd h0'.symm (h0' ▸ hn)
  exact key fuel a k 0 a' cs h hp hr hk hav rfl

/-- Counterexample to C2 as stated.  With an empty slot window, `alloc_untyped(4)` on a
fresh allocator holding one root item of class 5 returns zero and leaves that root item
unavailable.  With three slots and one root item of class 6, `alloc_untyped(4)` returns
zero after the root item was taken and split once: two slots are consumed, pool 5 holds
an item and a retype was issued. -/
theorem alloc_untyped_failure_counterexample :
    allocator_create 2 32 0 10 0 [⟨100, 5⟩] = .ok ex_no_slots ∧
    allocator_alloc_untyped ex_no_slots 4 =
      .ok (0, { ex_no_slots with init_untyped_items := [⟨100, 5, false⟩] }, []) ∧
    ({ ex_no_slots with init_untyped_items := [⟨100, 5, false⟩] } : allocator) ≠ ex_no_slots ∧
    allocator_create 2 32 0 10 3 [⟨100, 6⟩] = .ok ex_three_slots ∧
    allocator_alloc_untyped ex_three_slots 4 =
      .ok (0, { ex_three_slots with
                  num_slots_used := 2
                  init_untyped_items := [⟨100, 6, false⟩]
                  untyped_items := empty_pools.set 1 ⟨10, 1⟩ },
        [.Untyped_Retype 100 seL4_UntypedObject 5 2 32 10 2]) := by
  decide

theorem to_int_lt_two (v : Nat) (hv : v < WORD) (h : to_int v < 2) : v < 2 ∨ INT_MAX < v := by
  unfold WORD at hv
  unfold to_int INT_MAX WORD at h
  unfold INT_MAX
  split at h <;> omega

/-- C2 (amended).  For every allocator state and size class, if `alloc_untyped` returns
zero: the slot window, the CNode fields and the caps and size classes of the root table
are unchanged; if the class is out of range, or no class from `k` up to
`MAX_UNTYPED_SIZE` holds an available item, the whole state is unchanged and no kernel
call is issued; otherwise (well-formed pools and root table, a class from `k` up holds an
item) a split could not get its two slots: the unsigned difference `count - consumed`,
read as an `int` as the retype reads it, is below two, that is, fewer than two slots
remain or more than `INT_MAX` remain (fewer than two when the counter is within a window
of at most `INT_MAX` slots that does not wrap around); and the state has changed, the
available capacity being strictly lower (the item obtained, and any slots consumed by
splits higher up, are not given back). -/
theorem alloc_untyped_failure (a : allocator) (k : Nat) (a' : allocator)
    (cs : List kernel_call) (h : allocator_alloc_untyped a k = .ok (0, a', cs)) :
    same_frame a a' ∧
    ((k < MIN_UNTYPED_SIZE ∨ MAX_UNTYPED_SIZE < k) → a' = a ∧ cs = []) ∧
    ((∀ j, k ≤ j → j ≤ MAX_UNTYPED_SIZE → ¬ class_avail a j) → a' = a ∧ cs = []) ∧
    (pools_ok a → roots_ok a → MIN_UNTYPED_SIZE ≤ k →
      (∃ j, k ≤ j ∧ j ≤ MAX_UNTYPED_SIZE ∧ class_avail a j) →
      to_int (slots_remaining a') < 2 ∧
      (slots_remaining a' < 2 ∨ INT_MAX < slots_remaining a') ∧
      (slots_ok a → a'.cslots.count - a'.num_slots_used < 2) ∧
      capacity a' < capacity a ∧ a' ≠ a) := by
  unfold allocator_alloc_untyped at h
  have hout : (k < MIN_UNTYPED_SIZE ∨ MAX_UNTYPED_SIZE < k) → a' = a ∧ cs = [] := by
    intro hr
    unfold ALLOC_FUEL at h
    rw [alloc_out_of_range _ a k hr] at h
    simp only [Except.ok.injEq, Prod.mk.injEq, true_and] at h
    exact ⟨h.1.symm, h.2.symm⟩
  refine ⟨(alloc_same_frame _ _ _ _ _ _ h).1, hout, ?_, ?_⟩
  · intro hn
    by_cases hr : k < MIN_UNTYPED_SIZE ∨ MAX_UNTYPED_SIZE < k
    · exact hout hr
    · rw [alloc_none_avail ALLOC_FUEL a k
        (by unfold ALLOC_FUEL MAX_UNTYPED_SIZE MIN_UNTYPED_SIZE at *; omega)
        (by decide) hn] at h
      simp only [Except.ok.injEq, Prod.mk.injEq, true_and] at h
      exact ⟨h.1.symm, h.2.symm⟩
  · intro hp hr hk hav
    obtain ⟨q1, q2⟩ := alloc_failed_split _ _ _ _ _ h hp hr hk hav
    have hlt : slots_remaining a' < WORD := by
      unfold slots_remaining usub
      exact Nat.mod_lt _ (by decide)
    refine ⟨q1, to_int_lt_two _ hlt q1, ?_, q2, ?_⟩
    · intro hs
      have hs' := (alloc_slots_ok _ _ _ _ _ _ h hs).1
      rw [to_int_slots_remaining a' hs'] at q1
      omega
    · intro he
      rw [he] at q2
      exact Nat.lt_irrefl _ q2

/-- Witness for C2 (amended): the failed `alloc_untyped(4)` over an empty slot window. -/
theorem alloc_untyped_failure_witness :
    same_frame ex_no_slots { ex_no_slots with init_untyped_items := [⟨100, 5, false⟩] } ∧
    ((4 < MIN_UNTYPED_SIZE ∨ MAX_UNTYPED_SIZE < 4) →
      ({ ex_no_slots with init_untyped_items := [⟨100, 5, false⟩] } : allocator) = ex_no_slots ∧
        ([] : List kernel_call) = []) ∧
    ((∀ j, 4 ≤ j → j ≤ MAX_UNTYPED_SIZE → ¬ class_avail ex_no_slots j) →
      ({ ex_no_slots with init_untyped_items := [⟨100, 5, false⟩] } : allocator) = ex_no_slots ∧
        ([] : List kernel_call) = []) ∧
    (pools_ok ex_no_slots → roots_ok ex_no_slots → MIN_UNTYPED_SIZE ≤ 4 →
      (∃ j, 4 ≤ j ∧ j ≤ MAX_UNTYPED_SIZE ∧ class_avail ex_no_slots j) →
      to_int (slots_remaining
        { ex_no_slots with init_untyped_items := [⟨100, 5, false⟩] }) < 2 ∧
      (slots_remaining { ex_no_slots with init_untyped_items := [⟨100, 5, false⟩] } < 2 ∨
        INT_MAX < slots_remaining
          { ex_no_slots with init_untyped_items := [⟨100, 5, false⟩] }) ∧
      (slots_ok ex_no_slots →
        ({ ex_no_slots with init_untyped_items := [⟨100, 5, false⟩] } : allocator).cslots.count -
          ({ ex_no_slots with init_untyped_items := [⟨100, 5, false⟩] } :
            allocator).num_slots_used < 2) ∧
      capacity { ex_no_slots with init_untyped_items := [⟨100, 5, false⟩] } <
        capacity ex_no_slots ∧
      ({ ex_no_slots with init_untyped_items := [⟨100, 5, false⟩] } : allocator) ≠
        ex_no_slots) :=
  alloc_untyped_failure ex_no_slots 4 _ [] (by decide)

theorem pool_index_lt (a : allocator) (k : Nat) (hp : pools_ok a) (h2 : k ≤ MAX_UNTYPED_SIZE) :
    k - MIN_UNTYPED_SIZE < a.untyped_items.length := by
  rw [hp.1]
  unfold NUM_POOLS MAX_UNTYPED_SIZE MIN_UNTYPED_SIZE at *
  omega

/-- A class that holds an item gives it out directly: the pooled item first, else the
first available root item of that class; no slot is consumed and no kernel call made. -/
theorem alloc_direct (a : allocator) (k : Nat) (hp : pools_ok a) (hr : roots_ok a)
    (h1 : MIN_UNTYPED_SIZE ≤ k) (h2 : k ≤ MAX_UNTYPED_SIZE) (hav : class_avail a k) :
    ∃ big a2, (∀ fuel, alloc_untyped_fuel (fuel + 1) a k = .ok (big, a2, [])) ∧ big ≠ 0 ∧
      (((pool_of a k).count = 1 ∧ big = (pool_of a k).first ∧
          a2 = { a with untyped_items := a.untyped_items.set (k - MIN_UNTYPED_SIZE) ⟨big, 0⟩ }) ∨
       ((pool_of a k).count = 0 ∧ ∃ items1,
          scan_roots a.init_untyped_items k = some (big, items1) ∧
          a2 = { a with init_untyped_items := items1 })) := by
  rcases pool_of_ok a k hp with hc | ⟨hc, h0, hW⟩
  · rcases hav with hav | hav
    · exact absurd hc hav
    · cases hs : scan_roots a.init_untyped_items k with
      | none => exact absurd hav ((scan_roots_none _ _).mp hs)
      | some v =>
        obtain ⟨c, items1⟩ := v
        obtain ⟨it, hit, hcap, _, _⟩ := scan_roots_mem _ _ _ _ hs
        refine ⟨c, _, fun fuel => alloc_root_hit fuel a k c items1 h1 h2 hc hs, ?_,
          Or.inr ⟨hc, items1, rfl, rfl⟩⟩
        rw [← hcap]
        exact (hr.2 it hit).1
  · have hpo : pool_of a k = ⟨(pool_of a k).first, 1⟩ := by
      rw [← hc]
    exact ⟨(pool_of a k).first, _, fun fuel => alloc_pool_hit fuel a k _ h1 h2 hpo h0 hW,
      by omega, Or.inl ⟨hc, rfl, rfl⟩⟩

theorem alloc_direct_frame (a a2 : allocator) (k big : Nat)
    (h : ((pool_of a k).count = 1 ∧ big = (pool_of a k).first ∧
          a2 = { a with untyped_items := a.untyped_items.set (k - MIN_UNTYPED_SIZE) ⟨big, 0⟩ }) ∨
       ((pool_of a k).count = 0 ∧ ∃ items1,
          scan_roots a.init_untyped_items k = some (big, items1) ∧
          a2 = { a with init_untyped_items := items1 })) :
    a2.num_slots_used = a.num_slots_used ∧ a2.cslots = a.cslots ∧
    a2.root_cnode = a.root_cnode ∧ a2.root_cnode_depth = a.root_cnode_depth ∧
    a2.root_cnode_offset = a.root_cnode_offset ∧
    a2.untyped_items.length = a.untyped_items.length := by
  rcases h with ⟨_, _, h⟩ | ⟨_, items1, _, h⟩
  · subst h; simp
  · subst h; simp

theorem scan_roots_other (l l' : List init_untyped_item) (k c j : Nat)
    (h : scan_roots l k = some (c, l')) (hj : j ≠ k) :
    (∃ it ∈ l', it.is_free = true ∧ it.size_bits = j) ↔
      (∃ it ∈ l, it.is_free = true ∧ it.size_bits = j) := by
  induction l generalizing l' c with
  | nil => simp [scan_roots] at h
  | cons x rest ih =>
    unfold scan_roots at h
    by_cases hc : x.is_free = true ∧ x.size_bits = k
    · simp only [hc, and_self, if_true, Option.some.injEq, Prod.mk.injEq] at h
      obtain ⟨_, h2⟩ := h
      subst h2
      have hx : ¬ (x.is_free = true ∧ x.size_bits = j) := fun hh => hj (hh.2.symm.trans hc.2)
      simp only [List.mem_cons, exists_eq_or_imp, Bool.false_eq_true, false_and, false_or, hx]
    · simp only [hc, if_false] at h
      cases hs : scan_roots rest k with
      | none => rw [hs] at h; cases h
      | some v =>
        obtain ⟨c1, rest1⟩ := v
        rw [hs] at h
        simp only [Option.some.injEq, Prod.mk.injEq] at h
        obtain ⟨_, h2⟩ := h
        subst h2
        simp only [List.mem_cons, exists_eq_or_imp, ih rest1 c1 hs]

theorem scan_roots_filter (l l' : List init_untyped_item) (k c : Nat)
    (h : scan_roots l k = some (c, l')) :
    (l'.filter (fun it => it.is_free)).length + 1 = (l.filter (fun it => it.is_free)).length := by
  induction l generalizing l' c with
  | nil => simp [scan_roots] at h
  | cons x rest ih =>
    unfold scan_roots at h
    by_cases hc : x.is_free = true ∧ x.size_bits = k
    · simp only [hc, and_self, if_true, Option.some.injEq, Prod.mk.injEq] at h
      obtain ⟨_, h2⟩ := h
      subst h2
      simp [hc.1]
    · simp only [hc, if_false] at h
      cases hs : scan_roots rest k with
      | none => rw [hs] at h; cases h
      | some v =>
        obtain ⟨c1, rest1⟩ := v
        rw [hs] at h
        simp only [Option.some.injEq, Prod.mk.injEq] at h
        obtain ⟨_, h2⟩ := h
        subst h2
        have := ih rest1 c1 hs
        cases hx : x.is_free
        · simp [hx]; omega
        · simp [hx]; omega

theorem sum_counts_set (l : List cap_range) (i : Nat) (q : cap_range) (h : i < l.length) :
    ((l.set i q).map (fun p => p.count)).sum + (l.getD i ⟨0, 0⟩).count =
      (l.map (fun p => p.count)).sum + q.count := by
  induction l generalizing i with
  | nil => simp at h
  | cons p ps ih =>
    cases i with
    | zero => simp; omega
    | succ j =>
      have := ih j (by simpa using h)
      simp only [List.set_cons_succ, List.map_cons, List.sum_cons, List.getD_cons_succ]
      omega

theorem roots_ok_of_frame (a a' : allocator) (h : same_frame a a') (hr : roots_ok a) :
    roots_ok a' := by
  obtain ⟨_, _, _, _, hm, _⟩ := h
  have hlen : a'.init_untyped_items.length = a.init_untyped_items.length := by
    have := congrArg List.length hm
    simpa using this
  refine ⟨by rw [hlen]; exact hr.1, ?_⟩
  intro it hit
  have hmem : (it.cap, it.size_bits) ∈
      a'.init_untyped_items.map (fun it => (it.cap, it.size_bits)) :=
    List.mem_map.mpr ⟨it, hit, rfl⟩
  rw [hm] at hmem
  obtain ⟨x, hx, hxe⟩ := List.mem_map.mp hmem
  simp only [Prod.mk.injEq] at hxe
  have := hr.2 x hx
  rw [hxe.1, hxe.2] at this
  exact this

/-- What a direct allocation of class `k` changes: one item less, the other classes as
before. -/
theorem alloc_direct_effect (a a2 : allocator) (k big : Nat) (hp : pools_ok a)
    (h1 : MIN_UNTYPED_SIZE ≤ k) (h2 : k ≤ MAX_UNTYPED_SIZE)
    (h : ((pool_of a k).count = 1 ∧ big = (pool_of a k).first ∧
          a2 = { a with untyped_items := a.untyped_items.set (k - MIN_UNTYPED_SIZE) ⟨big, 0⟩ }) ∨
       ((pool_of a k).count = 0 ∧ ∃ items1,
          scan_roots a.init_untyped_items k = some (big, items1) ∧
          a2 = { a with init_untyped_items := items1 })) :
    avail_items a2 + 1 = avail_items a ∧
    ∀ j, MIN_UNTYPED_SIZE ≤ j → j ≠ k → (class_avail a2 j ↔ class_avail a j) := by
  rcases h with ⟨hc, _, ha2⟩ | ⟨_, items1, hs, ha2⟩
  · subst ha2
    constructor
    · have := sum_counts_set a.untyped_items (k - MIN_UNTYPED_SIZE) ⟨big, 0⟩
        (pool_index_lt a k hp h2)
      unfold pool_of at hc
      rw [hc] at this
      unfold avail_items
      simp only at this ⊢
      omega
    · intro j hj hjk
      unfold class_avail pool_of has_root
      simp only
      rw [getD_set_ne _ _ _ _ _ (by omega)]
  · subst ha2
    constructor
    · have := scan_roots_filter _ _ _ _ hs
      unfold avail_items
      simp only
      omega
    · intro j hj hjk
      unfold class_avail pool_of has_root
      simp only
      rw [scan_roots_other _ _ _ _ j hs hjk]

theorem add_root_ok (c : allocator) (cap size_bits : Nat) (h0 : cap ≠ 0)
    (h1 : MIN_UNTYPED_SIZE ≤ size_bits) (h2 : size_bits ≤ MAX_UNTYPED_SIZE)
    (h3 : c.init_untyped_items.length < MAX_UNTYPED_ITEMS) :
    allocator_add_root_untyped_item c cap size_bits =
      .ok { c with init_untyped_items := c.init_untyped_items ++ [⟨cap, size_bits, true⟩] } := by
  have h1' : ¬ size_bits < MIN_UNTYPED_SIZE := by omega
  have h2' : ¬ size_bits > MAX_UNTYPED_SIZE := by omega
  simp [allocator_add_root_untyped_item, h0, h1', h2', h3]

/-- The drain loop of one class, the classes above it being drained already: it moves
every available item of the class to the child, by direct allocations only. -/
theorem drain_class_spec (fuel : Nat) (p c : allocator) (i : Nat)
    (hp : pools_ok p) (hr : roots_ok p)
    (h1 : MIN_UNTYPED_SIZE ≤ i) (h2 : i ≤ MAX_UNTYPED_SIZE)
    (hD : ∀ j, i < j → j ≤ MAX_UNTYPED_SIZE → ¬ class_avail p j)
    (hfit : c.init_untyped_items.length + avail_items p ≤ MAX_UNTYPED_ITEMS)
    (hfuel : MAX_UNTYPED_ITEMS + 1 ≤ fuel + c.init_untyped_items.length) :
    ∃ p' extra,
      drain_class fuel p c i =
        .ok (p', { c with init_untyped_items := c.init_untyped_items ++ extra }, []) ∧
      pools_ok p' ∧ roots_ok p' ∧
      (∀ j, i ≤ j → j ≤ MAX_UNTYPED_SIZE → ¬ class_avail p' j) ∧
      (∀ j, MIN_UNTYPED_SIZE ≤ j → j < i → (class_avail p' j ↔ class_avail p j)) ∧
      extra.length + avail_items p' = avail_items p ∧
      (∀ it ∈ extra, it.is_free = true ∧ it.cap ≠ 0 ∧ it.size_bits = i) ∧
      (class_avail p i → extra ≠ []) := by
  induction fuel generalizing p c with
  | zero => omega
  | succ fuel ih =>
    have hfuel30 : ALLOC_FUEL = (MAX_UNTYPED_SIZE - MIN_UNTYPED_SIZE + 1) + 1 := rfl
    by_cases hav : class_avail p i
    · obtain ⟨big, p2, hbig, hb0, hshape⟩ := alloc_direct p i hp hr h1 h2 hav
      obtain ⟨e1, e2⟩ := alloc_direct_effect p p2 i big hp h1 h2 hshape
      have hp2 := alloc_pools_ok _ _ _ _ _ _ (hbig 0) hp
      have hr2 := roots_ok_of_frame p p2 (alloc_same_frame _ _ _ _ _ _ (hbig 0)).1 hr
      have hlen : c.init_untyped_items.length < MAX_UNTYPED_ITEMS := by omega
      obtain ⟨p', extra, q0, q1, q2, q3, q4, q5, q6, _⟩ :=
        ih p2 { c with init_untyped_items := c.init_untyped_items ++ [⟨big, i, true⟩] }
          hp2 hr2 (fun j hj hj2 => by rw [e2 j (by omega) (by omega)]; exact hD j hj hj2)
          (by simp only [List.length_append, List.length_singleton]; omega)
          (by simp only [List.length_append, List.length_singleton]; omega)
      refine ⟨p', ⟨big, i, true⟩ :: extra, ?_, q1, q2, q3, ?_, ?_, ?_, ?_⟩
      · unfold drain_class allocator_alloc_untyped
        rw [hfuel30, hbig]
        simp only [hb0, if_false]
        rw [add_root_ok c big i hb0 h1 h2 hlen]
        simp only
        rw [q0]
        simp
      · intro j hj hj2
        rw [q4 j hj hj2, e2 j hj (by omega)]
      · simp only [List.length_cons]
        omega
      · intro it hit
        rcases List.mem_cons.mp hit with rfl | hit
        · exact ⟨rfl, hb0, rfl⟩
        · exact q6 it hit
      · intro _
        simp
    · have hnone : ∀ j, i ≤ j → j ≤ MAX_UNTYPED_SIZE → ¬ class_avail p j := by
        intro j hj hj2
        by_cases hji : j = i
        · rw [hji]; exact hav
        · exact hD j (by omega) hj2
      refine ⟨p, [], ?_, hp, hr, hnone, fun _ _ _ => Iff.rfl, by simp, by simp,
        fun h => absurd h hav⟩
      unfold drain_class allocator_alloc_untyped
      rw [alloc_none_avail ALLOC_FUEL p i
        (by unfold ALLOC_FUEL MAX_UNTYPED_SIZE MIN_UNTYPED_SIZE at *; omega) (by decide) hnone]
      simp

/-- The whole drain: every class from `MIN_UNTYPED_SIZE + n - 1` down is moved to the
child. -/
theorem drain_down_spec (n : Nat) (p c : allocator) (hn : n ≤ NUM_POOLS)
    (hp : pools_ok p) (hr : roots_ok p)
    (hD : ∀ j, MIN_UNTYPED_SIZE + n ≤ j → j ≤ MAX_UNTYPED_SIZE → ¬ class_avail p j)
    (hfit : c.init_untyped_items.length + avail_items p ≤ MAX_UNTYPED_ITEMS) :
    ∃ p' extra,
      drain_down n p c =
        .ok (p', { c with init_untyped_items := c.init_untyped_items ++ extra }, []) ∧
      pools_ok p' ∧ roots_ok p' ∧
      (∀ j, MIN_UNTYPED_SIZE ≤ j → j ≤ MAX_UNTYPED_SIZE → ¬ class_avail p' j) ∧
      extra.length + avail_items p' = avail_items p ∧
      (∀ it ∈ extra, it.is_free = true ∧ it.cap ≠ 0 ∧
        MIN_UNTYPED_SIZE ≤ it.size_bits ∧ it.size_bits ≤ MAX_UNTYPED_SIZE) ∧
      (∀ k, MIN_UNTYPED_SIZE ≤ k → k < MIN_UNTYPED_SIZE + n → class_avail p k →
        ∃ it ∈ extra, it.size_bits = k) := by
  induction n generalizing p c with
  | zero =>
    refine ⟨p, [], by simp [drain_down], hp, hr, fun j hj hj2 => hD j (by omega) hj2,
      by simp, by simp, ?_⟩
    intro k hk hk2
    omega
  | succ n ih =>
    have hi2 : MIN_UNTYPED_SIZE + n ≤ MAX_UNTYPED_SIZE := by
      unfold NUM_POOLS MAX_UNTYPED_SIZE MIN_UNTYPED_SIZE at *
      omega
    obtain ⟨p1, extra1, a0, a1, a2, a3, a4, a5, a6, a7⟩ :=
      drain_class_spec DRAIN_FUEL p c (MIN_UNTYPED_SIZE + n) hp hr (by omega) hi2
        (fun j hj hj2 => hD j (by omega) hj2) hfit
        (by unfold DRAIN_FUEL; omega)
    obtain ⟨p', extra2, b0, b1, b2, b3, b4, b5, b6⟩ :=
      ih p1 { c with init_untyped_items := c.init_untyped_items ++ extra1 } (by omega) a1 a2 a3
        (by simp only [List.length_append]; omega)
    refine ⟨p', extra1 ++ extra2, ?_, b1, b2, b3, ?_, ?_, ?_⟩
    · unfold drain_down
      rw [a0]
      simp only
      rw [b0]
      simp
    · simp only [List.length_append]
      omega
    · intro it hit
      rcases List.mem_append.mp hit with hit | hit
      · obtain ⟨x1, x2, x3⟩ := a6 it hit
        exact ⟨x1, x2, by omega, by omega⟩
      · exact b5 it hit
    · intro k hk hk2 hav
      by_cases hkn : k = MIN_UNTYPED_SIZE + n
      · subst hkn
        have hne := a7 hav
        cases hx : extra1 with
        | nil => exact absurd hx hne
        | cons it rest =>
          have hit : it ∈ extra1 := by rw [hx]; exact List.mem_cons_self _ _
          refine ⟨it, ?_, (a6 it hit).2.2⟩
          rw [← hx]
          exact List.mem_append_left _ hit
      · obtain ⟨it, hit, hsz⟩ := b6 k hk (by omega) ((a4 k hk (by omega)).mpr hav)
        exact ⟨it, List.mem_append_right _ hit, hsz⟩

/-- C3.  Child drain exclusivity.  For every well-formed parent state whose available
items (available root items plus pooled items) fit the child's root table,
`create_child` returns; afterwards `alloc_untyped(parent, k)` returns zero, leaving the
parent as it is, for every class `k` in `[MIN_UNTYPED_SIZE, MAX_UNTYPED_SIZE]`, and for
every such class of which the parent held an available item before the drain,
`alloc_untyped(child, k)` returns a handle. -/
theorem child_drain_exclusive (parent : allocator) (rc rd ro first n : Nat)
    (hp : pools_ok parent) (hr : roots_ok parent)
    (hfit : avail_items parent ≤ MAX_UNTYPED_ITEMS) :
    ∃ parent' child calls,
      allocator_create_child parent rc rd ro first n = .ok (parent', child, calls) ∧
      (∀ k, MIN_UNTYPED_SIZE ≤ k → k ≤ MAX_UNTYPED_SIZE →
        allocator_alloc_untyped parent' k = .ok (0, parent', [])) ∧
      (∀ k, MIN_UNTYPED_SIZE ≤ k → k ≤ MAX_UNTYPED_SIZE → class_avail parent k →
        ∃ r child', r ≠ 0 ∧ allocator_alloc_untyped child k = .ok (r, child', [])) := by
  obtain ⟨child0, hc0, hc1, hc2⟩ : ∃ c0 : allocator,
      allocator_create rc rd ro first n [] = .ok c0 ∧ c0.init_untyped_items = [] ∧
      c0.untyped_items = empty_pools :=
    ⟨⟨rc, rd, ro, ⟨first, n⟩, 0, [], empty_pools⟩,
      by simp [allocator_create, add_items, MAX_UNTYPED_ITEMS], rfl, rfl⟩
  obtain ⟨p', extra, d0, d1, _, d3, d4, d5, d6⟩ :=
    drain_down_spec NUM_POOLS parent child0 (le_refl _)
      hp hr (fun j hj hj2 => by unfold NUM_POOLS MAX_UNTYPED_SIZE MIN_UNTYPED_SIZE at *; omega)
      (by rw [hc1]; simpa using hfit)
  refine ⟨p', { child0 with init_untyped_items := child0.init_untyped_items ++ extra }, [],
    ?_, ?_, ?_⟩
  · unfold allocator_create_child
    rw [hc0]
    exact d0
  · intro k hk hk2
    unfold allocator_alloc_untyped
    exact alloc_none_avail ALLOC_FUEL p' k
      (by unfold ALLOC_FUEL MAX_UNTYPED_SIZE MIN_UNTYPED_SIZE at *; omega) (by decide)
      (fun j hj hj2 => d3 j (by omega) hj2)
  · intro k hk hk2 hav
    obtain ⟨it, hit, hsz⟩ := d6 k hk
      (by unfold NUM_POOLS MAX_UNTYPED_SIZE MIN_UNTYPED_SIZE at *; omega) hav
    have hcp : pools_ok
        { child0 with init_untyped_items := child0.init_untyped_items ++ extra } :=
      empty_pools_ok _ hc2
    have hcr : roots_ok
        { child0 with init_untyped_items := child0.init_untyped_items ++ extra } := by
      refine ⟨by simp only [hc1, List.nil_append]; omega, ?_⟩
      intro x hx
      simp only [hc1, List.nil_append] at hx
      exact (d5 x hx).2
    obtain ⟨r, child', hr1, hr2, _⟩ := alloc_direct _ k hcp hcr hk hk2
      (Or.inr ⟨it, by simp only [hc1, List.nil_append]; exact hit, (d5 it hit).1, hsz⟩)
    exact ⟨r, child', hr2, hr1 _⟩

/-- Witness for C3: the parent `ex_used`, which holds one pooled item in each of the
classes 4 and 5 and whose root item is in use. -/
theorem child_drain_exclusive_witness :
    ∃ parent' child calls,
      allocator_create_child ex_used 3 32 0 20 4 = .ok (parent', child, calls) ∧
      (∀ k, MIN_UNTYPED_SIZE ≤ k → k ≤ MAX_UNTYPED_SIZE →
        allocator_alloc_untyped parent' k = .ok (0, parent', [])) ∧
      (∀ k, MIN_UNTYPED_SIZE ≤ k → k ≤ MAX_UNTYPED_SIZE → class_avail ex_used k →
        ∃ r child', r ≠ 0 ∧ allocator_alloc_untyped child k = .ok (r, child', [])) :=
  child_drain_exclusive ex_used 3 32 0 20 4 (by decide) (by decide) (by decide)

/-- More fuel than the recursion needs does not change the result. -/
theorem alloc_fuel_stable (fuel : Nat) (a : allocator) (k : Nat)
    (hf : MAX_UNTYPED_SIZE + 2 ≤ k + fuel) (hf1 : 1 ≤ fuel) :
    alloc_untyped_fuel (fuel + 1) a k = alloc_untyped_fuel fuel a k := by
  induction fuel generalizing a k with
  | zero => omega
  | succ f ih =>
    by_cases hr : k < MIN_UNTYPED_SIZE ∨ MAX_UNTYPED_SIZE < k
    · rw [alloc_out_of_range (f + 1) a k hr, alloc_out_of_range f a k hr]
    · have ih' : ∀ a', alloc_untyped_fuel (f + 1) a' (k + 1) = alloc_untyped_fuel f a' (k + 1) :=
        fun a' => ih a' (k + 1) (by omega) (by omega)
      conv_lhs => rw [alloc_untyped_fuel]
      conv_rhs => rw [alloc_untyped_fuel]
      simp only [ih']

/-- The fuel of `allocator_alloc_untyped` covers every request: any larger amount gives
the same result. -/
theorem alloc_fuel_enough (n : Nat) (a : allocator) (k : Nat) :
    alloc_untyped_fuel (ALLOC_FUEL + n) a k = allocator_alloc_untyped a k := by
  unfold allocator_alloc_untyped
  induction n with
  | zero => rfl
  | succ n ih =>
    by_cases hr : k < MIN_UNTYPED_SIZE ∨ MAX_UNTYPED_SIZE < k
    · have e : ALLOC_FUEL = (MAX_UNTYPED_SIZE - MIN_UNTYPED_SIZE + 1) + 1 := rfl
      rw [← Nat.add_assoc, alloc_out_of_range _ a k hr, e, alloc_out_of_range _ a k hr]
    · rw [← Nat.add_assoc, alloc_fuel_stable (ALLOC_FUEL + n) a k
        (by unfold ALLOC_FUEL MAX_UNTYPED_SIZE MIN_UNTYPED_SIZE at *; omega)
        (by unfold ALLOC_FUEL MAX_UNTYPED_SIZE MIN_UNTYPED_SIZE; omega)]
      exact ih

theorem alloc_fuel_suffices (fuel : Nat) (a : allocator) (k : Nat)
    (hf : MAX_UNTYPED_SIZE + 2 ≤ k + fuel) (hf1 : 1 ≤ fuel) :
    alloc_untyped_fuel fuel a k ≠ .error .out_of_fuel := by
  induction fuel generalizing a k with
  | zero => omega
  | succ f ih =>
    by_cases hr : k < MIN_UNTYPED_SIZE ∨ MAX_UNTYPED_SIZE < k
    · rw [alloc_out_of_range f a k hr]
      simp
    · have h1' : ¬ k < MIN_UNTYPED_SIZE := by omega
      have h2' : ¬ k > MAX_UNTYPED_SIZE := by omega
      intro h
      unfold alloc_untyped_fuel at h
      simp only [h1', h2', if_false] at h
      cases hra : range_alloc (a.untyped_items.getD (k - MIN_UNTYPED_SIZE) ⟨0, 0⟩) 1 with
      | error e1 =>
        rw [hra] at h
        simp only [Except.error.injEq] at h
        have := range_alloc_fault _ _ hra
        rw [h] at this
        cases this
      | ok v =>
        obtain ⟨res, pool1⟩ := v
        rw [hra] at h
        simp only at h
        by_cases hres : res = 0
        · subst hres
          simp only [ne_eq, not_true_eq_false, if_false] at h
          cases hs : scan_roots a.init_untyped_items k with
          | some v =>
            rw [hs] at h
            cases h
          | none =>
            rw [hs] at h
            simp only at h
            cases hrec : alloc_untyped_fuel f
                { a with untyped_items := a.untyped_items.set (k - MIN_UNTYPED_SIZE) pool1 }
                (k + 1) with
            | error e1 =>
              rw [hrec] at h
              simp only [Except.error.injEq] at h
              rw [h] at hrec
              exact ih _ (k + 1) (by omega) (by omega) hrec
            | ok v =>
              obtain ⟨big, a2, calls⟩ := v
              rw [hrec] at h
              simp only at h
              by_cases hb : big = 0
              · simp [hb] at h
              · simp only [hb, if_false] at h
                have hsp : split_step a2 big k calls = .error .out_of_fuel := by
                  unfold split_step; exact h
                rcases split_step_fault _ _ _ _ _ hsp with h3 | h3 <;> cases h3
        · simp [hres] at h

/-- The model of `allocator_alloc_untyped` never runs out of fuel: the function
returns or stops at an assertion. -/
theorem alloc_untyped_total (a : allocator) (k : Nat) :
    allocator_alloc_untyped a k ≠ .error .out_of_fuel := by
  unfold allocator_alloc_untyped
  by_cases hr : k < MIN_UNTYPED_SIZE ∨ MAX_UNTYPED_SIZE < k
  · have e : ALLOC_FUEL = (MAX_UNTYPED_SIZE - MIN_UNTYPED_SIZE + 1) + 1 := rfl
    rw [e, alloc_out_of_range _ a k hr]
    simp
  · exact alloc_fuel_suffices ALLOC_FUEL a k
      (by unfold ALLOC_FUEL MAX_UNTYPED_SIZE MIN_UNTYPED_SIZE at *; omega) (by decide)

/-- The drain loop never runs out of fuel when started on a child whose root table is
within its capacity. -/
theorem drain_class_total (fuel : Nat) (p c : allocator) (i : Nat)
    (hlen : c.init_untyped_items.length ≤ MAX_UNTYPED_ITEMS)
    (hfuel : MAX_UNTYPED_ITEMS + 1 ≤ fuel + c.init_untyped_items.length) :
    drain_class fuel p c i ≠ .error .out_of_fuel ∧
    ∀ p' c' cs, drain_class fuel p c i = .ok (p', c', cs) →
      c'.init_untyped_items.length ≤ MAX_UNTYPED_ITEMS := by
  induction fuel generalizing p c with
  | zero => omega
  | succ fuel ih =>
    unfold drain_class
    cases ha : allocator_alloc_untyped p i with
    | error e =>
      refine ⟨?_, fun _ _ _ h => by cases h⟩
      simp only [ne_eq, Except.error.injEq]
      intro he
      rw [he] at ha
      exact alloc_untyped_total p i ha
    | ok v =>
      obtain ⟨r, p1, calls⟩ := v
      simp only
      by_cases hr : r = 0
      · simp only [hr, if_true]
        refine ⟨by simp, ?_⟩
        intro p' c' cs h
        simp only [Except.ok.injEq, Prod.mk.injEq] at h
        rw [← h.2.1]
        exact hlen
      · simp only [hr, if_false]
        cases hadd : allocator_add_root_untyped_item c r i with
        | error e =>
          refine ⟨?_, fun _ _ _ h => by cases h⟩
          simp only [ne_eq, Except.error.injEq]
          intro he
          rw [he] at hadd
          unfold allocator_add_root_untyped_item at hadd
          split at hadd
          · cases hadd
          · split at hadd
            · cases hadd
            · split at hadd
              · cases hadd
              · split at hadd <;> cases hadd
        | ok c1 =>
          obtain ⟨hc1, _, _, _, hlt⟩ := add_root_shape _ _ _ _ hadd
          have hl1 : c1.init_untyped_items.length = c.init_untyped_items.length + 1 := by
            rw [hc1]; simp
          obtain ⟨i1, i2⟩ := ih p1 c1 (by omega) (by omega)
          simp only
          cases hd : drain_class fuel p1 c1 i with
          | error e =>
            refine ⟨?_, fun _ _ _ h => by cases h⟩
            simp only [ne_eq, Except.error.injEq]
            intro he
            rw [he] at hd
            exact i1 hd
          | ok v =>
            obtain ⟨p2, c2, calls2⟩ := v
            refine ⟨by simp, ?_⟩
            intro p' c' cs h
            simp only [Except.ok.injEq, Prod.mk.injEq] at h
            rw [← h.2.1]
            exact i2 p2 c2 calls2 hd

theorem drain_down_total (n : Nat) (p c : allocator)
    (hlen : c.init_untyped_items.length ≤ MAX_UNTYPED_ITEMS) :
    drain_down n p c ≠ .error .out_of_fuel := by
  induction n generalizing p c with
  | zero => simp [drain_down]
  | succ n ih =>
    unfold drain_down
    obtain ⟨d1, d2⟩ := drain_class_total DRAIN_FUEL p c (MIN_UNTYPED_SIZE + n) hlen
      (by unfold DRAIN_FUEL; omega)
    cases hd : drain_class DRAIN_FUEL p c (MIN_UNTYPED_SIZE + n) with
    | error e =>
      simp only [ne_eq, Except.error.injEq]
      intro he
      rw [he] at hd
      exact d1 hd
    | ok v =>
      obtain ⟨p1, c1, calls⟩ := v
      simp only
      have := ih p1 c1 (d2 p1 c1 calls hd)
      cases hd2 : drain_down n p1 c1 with
      | error e =>
        simp only [ne_eq, Except.error.injEq]
        intro he
        rw [he] at hd2
        exact this hd2
      | ok v => simp

/-- The model of `allocator_create_child` never runs out of fuel. -/
theorem create_child_total (parent : allocator) (rc rd ro first n : Nat) :
    allocator_create_child parent rc rd ro first n ≠ .error .out_of_fuel := by
  unfold allocator_create_child
  have hcreate : allocator_create rc rd ro first n [] =
      .ok ⟨rc, rd, ro, ⟨first, n⟩, 0, [], empty_pools⟩ := by
    simp [allocator_create, add_items, MAX_UNTYPED_ITEMS]
  rw [hcreate]
  exact drain_down_total NUM_POOLS parent _ (by simp)

theorem add_root_roots_ok (a a' : allocator) (cap size_bits : Nat)
    (h : allocator_add_root_untyped_item a cap size_bits = .ok a') (hr : roots_ok a) :
    roots_ok a' := by
  obtain ⟨ha', h0, h1, h2, h3⟩ := add_root_shape _ _ _ _ h
  subst ha'
  refine ⟨by simp only [List.length_append, List.length_singleton]; omega, ?_⟩
  intro it hit
  rcases List.mem_append.mp hit with hit | hit
  · exact hr.2 it hit
  · rw [List.mem_singleton.mp hit]
    exact ⟨h0, h1, h2⟩

theorem add_items_roots_ok (a a' : allocator) (items : List untyped_item)
    (h : add_items a items = .ok a') (hr : roots_ok a) : roots_ok a' := by
  induction items generalizing a with
  | nil =>
    simp only [add_items, Except.ok.injEq] at h
    exact h ▸ hr
  | cons it rest ih =>
    unfold add_items at h
    cases h1 : allocator_add_root_untyped_item a it.cap it.size_bits with
    | error e => rw [h1] at h; cases h
    | ok a1 =>
      rw [h1] at h
      exact ih a1 h (add_root_roots_ok _ _ _ _ h1 hr)

theorem create_roots_ok (rc rd ro first n : Nat) (items : List untyped_item) (a : allocator)
    (h : allocator_create rc rd ro first n items = .ok a) : roots_ok a := by
  unfold allocator_create at h
  by_cases h1 : items.length < MAX_UNTYPED_ITEMS
  · simp only [h1, not_true_eq_false, if_false] at h
    exact add_items_roots_ok _ _ _ h ⟨by simp, by simp⟩
  · simp [h1] at h

/-- Every state an allocator goes through has well-formed pools and a well-formed root
table. -/
theorem reachable_wf (a : allocator) (h : reachable a) : pools_ok a ∧ roots_ok a := by
  induction h with
  | create rc rd ro first n items a hc =>
    exact ⟨empty_pools_ok a (create_fresh _ _ _ _ _ _ _ hc).2.1, create_roots_ok _ _ _ _ _ _ _ hc⟩
  | add_root a a' cap size_bits _ hadd ih =>
    refine ⟨?_, add_root_roots_ok _ _ _ _ hadd ih.2⟩
    rw [(add_root_shape _ _ _ _ hadd).1]
    exact ih.1
  | step a a' o r _ hs ih =>
    exact ⟨(step_pools_capacity o a a' r hs ih.1).1,
      roots_ok_of_frame a a' (step_same_frame o a a' r hs) ih.2⟩
  | reset a a' cs _ hr ih =>
    rw [reset_eq] at hr
    simp only [Except.ok.injEq, Prod.mk.injEq] at hr
    rw [← hr.1]
    refine ⟨empty_pools_ok _ rfl, ?_⟩
    refine ⟨by simpa using ih.2.1, ?_⟩
    intro it hit
    simp only [List.mem_map] at hit
    obtain ⟨x, hx, hxe⟩ := hit
    rw [← hxe]
    exact ih.2.2 x hx

/-- C15.  For every allocator state and every size class below `MIN_UNTYPED_SIZE` or
above `MAX_UNTYPED_SIZE`, `alloc_untyped` returns zero, issues no kernel call and leaves
the allocator state unchanged. -/
theorem alloc_untyped_out_of_range (a : allocator) (k : Nat)
    (h : k < MIN_UNTYPED_SIZE ∨ MAX_UNTYPED_SIZE < k) :
    allocator_alloc_untyped a k = .ok (0, a, []) := by
  unfold allocator_alloc_untyped
  have e : ALLOC_FUEL = (MAX_UNTYPED_SIZE - MIN_UNTYPED_SIZE + 1) + 1 := rfl
  rw [e]
  exact alloc_out_of_range _ a k h

/-- Witness for C15: class 3 and class 33 on an allocator that holds items. -/
theorem alloc_untyped_out_of_range_witness :
    allocator_alloc_untyped ex_used 3 = .ok (0, ex_used, []) ∧
    allocator_alloc_untyped ex_used 33 = .ok (0, ex_used, []) :=
  ⟨alloc_untyped_out_of_range ex_used 3 (by decide),
    alloc_untyped_out_of_range ex_used 33 (by decide)⟩

theorem range_alloc_top (f c : Nat) (hc1 : 1 ≤ c) (hc : c < WORD) (hf : f ≠ 0)
    (hW : f + (c - 1) < WORD) :
    range_alloc ⟨f, c⟩ 1 = .ok (f + (c - 1), ⟨f, c - 1⟩) := by
  have hu : usub c 1 = c - 1 := by
    unfold WORD at hc
    unfold usub WORD
    omega
  have ha : uadd f (c - 1) = f + (c - 1) := by
    unfold WORD at hW
    unfold uadd WORD
    omega
  have hlt : ¬ c < 1 := by omega
  simp [range_alloc, to_ulong_one, hlt, hf, hu, ha]

theorem scan_roots_split (pre post : List init_untyped_item) (it : init_untyped_item) (k : Nat)
    (hpre : ∀ x ∈ pre, ¬ (x.is_free = true ∧ x.size_bits = k))
    (hfree : it.is_free = true) (hsize : it.size_bits = k) :
    scan_roots (pre ++ it :: post) k =
      some (it.cap, pre ++ { it with is_free := false } :: post) := by
  induction pre with
  | nil => simp [scan_roots, hfree, hsize]
  | cons x rest ih =>
    have hx := hpre x (List.mem_cons_self _ _)
    have := ih (fun y hy => hpre y (List.mem_cons_of_mem _ hy))
    rw [List.cons_append, scan_roots]
    simp only [hx, if_false]
    rw [this]
    rfl

/-- C17.  Priority order without splitting, for every in-range class `k`.  If pool `k`
is non-empty, `alloc_untyped(k)` returns the pool's top item `first + count - 1`, takes
only that item out of the pool and changes nothing else (root table and slot counter
unchanged, no kernel call), whatever the root table holds.  If pool `k` is empty and
some available root item has size class exactly `k`, it returns the cap of the
lowest-indexed such item, marks only that item unavailable, consumes no slot and issues
no kernel call, whatever the larger classes hold. -/
theorem alloc_untyped_priority (a : allocator) (k : Nat)
    (h1 : MIN_UNTYPED_SIZE ≤ k) (h2 : k ≤ MAX_UNTYPED_SIZE) :
    (∀ f c, pool_of a k = ⟨f, c⟩ → 1 ≤ c → c < WORD → f ≠ 0 → f + (c - 1) < WORD →
      allocator_alloc_untyped a k =
        .ok (f + (c - 1),
          { a with untyped_items := a.untyped_items.set (k - MIN_UNTYPED_SIZE) ⟨f, c - 1⟩ },
          [])) ∧
    (∀ pre it post, (pool_of a k).count = 0 → a.init_untyped_items = pre ++ it :: post →
      (∀ x ∈ pre, ¬ (x.is_free = true ∧ x.size_bits = k)) →
      it.is_free = true → it.size_bits = k →
      allocator_alloc_untyped a k =
        .ok (it.cap,
          { a with init_untyped_items := pre ++ { it with is_free := false } :: post }, [])) := by
  have e : ALLOC_FUEL = (MAX_UNTYPED_SIZE - MIN_UNTYPED_SIZE + 1) + 1 := rfl
  have h1' : ¬ k < MIN_UNTYPED_SIZE := by omega
  have h2' : ¬ k > MAX_UNTYPED_SIZE := by omega
  constructor
  · intro f c hp hc1 hc hf hW
    unfold pool_of at hp
    unfold allocator_alloc_untyped
    rw [e]
    unfold alloc_untyped_fuel
    simp only [h1', h2', if_false]
    rw [hp, range_alloc_top f c hc1 hc hf hW]
    have hne : f + (c - 1) ≠ 0 := by omega
    simp only [ne_eq, hne, not_false_eq_true, if_true]
  · intro pre it post hp hroots hpre hfree hsize
    unfold allocator_alloc_untyped
    rw [e]
    exact alloc_root_hit _ a k it.cap _ h1 h2 hp
      (by rw [hroots]; exact scan_roots_split pre post it k hpre hfree hsize)

/-- Witness for C17: pool 4 of `ex_used` holds the item 12; the root item of `ex_small`
has class 4. -/
theorem alloc_untyped_priority_witness :
    allocator_alloc_untyped ex_used 4 =
        .ok (12 + (1 - 1),
          { ex_used with
            untyped_items := (ex_used.untyped_items.set (4 - MIN_UNTYPED_SIZE) ⟨12, 1 - 1⟩) },
          []) ∧
    allocator_alloc_untyped ex_small 4 =
        .ok ((⟨100, 4, true⟩ : init_untyped_item).cap,
          { ex_small with init_untyped_items :=
              [] ++ { (⟨100, 4, true⟩ : init_untyped_item) with is_free := false } :: [] },
          []) :=
  ⟨(alloc_untyped_priority ex_used 4 (by decide) (by decide)).1 12 1 (by decide) (by decide)
      (by decide) (by decide) (by decide),
    (alloc_untyped_priority ex_small 4 (by decide) (by decide)).2 [] ⟨100, 4, true⟩ []
      (by decide) (by decide) (by decide) (by decide) (by decide)⟩

/-- C13.  For every allocator whose root table is not full, `add_root_item(cap, size)` with
a non-null cap and `MIN_UNTYPED_SIZE ≤ size ≤ MAX_UNTYPED_SIZE` returns the allocator with
exactly one root item `(cap, size, available)` appended at the end of the root table and
nothing else changed; after any later sequence of requests that returns, followed by
reset, the root table is the old one, all available, followed by that item, available.
The call stops at an assertion when the size class is out of range or the root table is
full (and when the cap is null). -/
theorem add_root_item_spec (a : allocator) (cap size_bits : Nat) :
    (cap ≠ 0 → MIN_UNTYPED_SIZE ≤ size_bits → size_bits ≤ MAX_UNTYPED_SIZE →
      a.init_untyped_items.length < MAX_UNTYPED_ITEMS →
      allocator_add_root_untyped_item a cap size_bits =
        .ok { a with init_untyped_items := a.init_untyped_items ++ [⟨cap, size_bits, true⟩] } ∧
      ∀ ops s s' cs,
        run_ops ops { a with
          init_untyped_items := a.init_untyped_items ++ [⟨cap, size_bits, true⟩] } = .ok s →
        allocator_reset s = .ok (s', cs) →
        s'.init_untyped_items =
          a.init_untyped_items.map mark_free ++ [⟨cap, size_bits, true⟩]) ∧
    (size_bits < MIN_UNTYPED_SIZE ∨ MAX_UNTYPED_SIZE < size_bits ∨
        ¬ a.init_untyped_items.length < MAX_UNTYPED_ITEMS ∨ cap = 0 →
      ∃ e, allocator_add_root_untyped_item a cap size_bits = .error e) := by
  constructor
  · intro h0 h1 h2 h3
    refine ⟨add_root_ok a cap size_bits h0 h1 h2 h3, ?_⟩
    intro ops s s' cs hrun hreset
    obtain ⟨_, _, _, _, hm, _⟩ := run_ops_same_frame ops _ s hrun
    rw [reset_eq] at hreset
    simp only [Except.ok.injEq, Prod.mk.injEq] at hreset
    rw [← hreset.1]
    simp only
    rw [map_mark_free_of_map _ _ hm]
    simp [mark_free]
  · intro h
    cases hr : allocator_add_root_untyped_item a cap size_bits with
    | error e => exact ⟨e, rfl⟩
    | ok a' =>
      obtain ⟨_, q0, q1, q2, q3⟩ := add_root_shape _ _ _ _ hr
      omega

/-- Witness for C13: a second root item, of class 5, added to `ex_created`. -/
theorem add_root_item_spec_witness :
    allocator_add_root_untyped_item ex_created 200 5 =
        .ok { ex_created with
          init_untyped_items := ex_created.init_untyped_items ++ [⟨200, 5, true⟩] } ∧
      ∀ ops s s' cs,
        run_ops ops { ex_created with
          init_untyped_items := ex_created.init_untyped_items ++ [⟨200, 5, true⟩] } = .ok s →
        allocator_reset s = .ok (s', cs) →
        s'.init_untyped_items =
          ex_created.init_untyped_items.map mark_free ++ [⟨200, 5, true⟩] :=
  (add_root_item_spec ex_created 200 5).1 (by decide) (by decide) (by decide) (by decide)

theorem add_items_ok (a : allocator) (items : List untyped_item)
    (hv : ∀ it ∈ items, it.cap ≠ 0 ∧ MIN_UNTYPED_SIZE ≤ it.size_bits ∧
      it.size_bits ≤ MAX_UNTYPED_SIZE)
    (hlen : a.init_untyped_items.length + items.length ≤ MAX_UNTYPED_ITEMS) :
    add_items a items = .ok { a with init_untyped_items :=
      a.init_untyped_items ++ items.map (fun it => ⟨it.cap, it.size_bits, true⟩) } := by
  induction items generalizing a with
  | nil => simp [add_items]
  | cons it rest ih =>
    obtain ⟨v0, v1, v2⟩ := hv it (List.mem_cons_self _ _)
    simp only [List.length_cons] at hlen
    unfold add_items
    rw [add_root_ok a it.cap it.size_bits v0 v1 v2 (by omega)]
    simp only
    rw [ih _ (fun x hx => hv x (List.mem_cons_of_mem _ hx))
      (by simp only [List.length_append, List.length_singleton]; omega)]
    simp

/-- What `allocator_create` builds from a valid seed list of fewer than
`MAX_UNTYPED_ITEMS` items: empty pools, nothing consumed, the given window and CNode
fields, and the seed items in their order, all available. -/
theorem create_ok (rc rd ro first n : Nat) (items : List untyped_item)
    (hv : ∀ it ∈ items, it.cap ≠ 0 ∧ MIN_UNTYPED_SIZE ≤ it.size_bits ∧
      it.size_bits ≤ MAX_UNTYPED_SIZE)
    (hlen : items.length < MAX_UNTYPED_ITEMS) :
    allocator_create rc rd ro first n items =
      .ok ⟨rc, rd, ro, ⟨first, n⟩, 0,
        items.map (fun it => ⟨it.cap, it.size_bits, true⟩), empty_pools⟩ := by
  unfold allocator_create
  simp only [hlen, not_true_eq_false, if_false]
  rw [add_items_ok _ items hv (by simp only [List.length_nil]; omega)]
  simp

/-- C12 (code bug).  A seed list of exactly `MAX_UNTYPED_ITEMS` valid items does not
exceed the capacity of the root table, yet `allocator_create` stops at its assertion
`num_items < MAX_UNTYPED_ITEMS`; the copy loop it would run accepts the same list and
fills the table to `ex_full`. -/
theorem create_rejects_full_seed_list :
    (List.replicate MAX_UNTYPED_ITEMS (⟨1, 4⟩ : untyped_item)).length ≤ MAX_UNTYPED_ITEMS ∧
    allocator_create 2 32 0 10 5 (List.replicate MAX_UNTYPED_ITEMS ⟨1, 4⟩) =
      .error .assert_num_items ∧
    add_items ⟨2, 32, 0, ⟨10, 5⟩, 0, [], empty_pools⟩
      (List.replicate MAX_UNTYPED_ITEMS ⟨1, 4⟩) = .ok ex_full := by
  refine ⟨by simp, by simp [allocator_create], ?_⟩
  rw [add_items_ok _ _ (by
    intro it hit
    rw [List.eq_of_mem_replicate hit]
    decide) (by simp)]
  simp [ex_full]

theorem retype_one_results (a : allocator) (u t s : Nat) :
    ∃ result range a2 cs, allocator_retype_untyped_memory a u t s 1 =
      .ok (result, range, a2, cs) ∧ (result = 0 ∨ result = 1) := by
  rcases retype_cases a u t s 1 with h | h
  · exact ⟨_, _, _, _, h, Or.inl rfl⟩
  · exact ⟨_, _, _, _, h, Or.inr rfl⟩

theorem scan_roots_class_filter (l l' : List init_untyped_item) (k c : Nat)
    (h : scan_roots l k = some (c, l')) :
    free_roots_of l k = ⟨c, k, true⟩ :: free_roots_of l' k := by
  unfold free_roots_of
  induction l generalizing l' c with
  | nil => simp [scan_roots] at h
  | cons x rest ih =>
    unfold scan_roots at h
    by_cases hc : x.is_free = true ∧ x.size_bits = k
    · simp only [hc, and_self, if_true, Option.some.injEq, Prod.mk.injEq] at h
      obtain ⟨h1, h2⟩ := h
      subst h2
      simp [hc.1, hc.2, h1]
    · simp only [hc, if_false] at h
      cases hs : scan_roots rest k with
      | none => rw [hs] at h; cases h
      | some v =>
        obtain ⟨c1, rest1⟩ := v
        rw [hs] at h
        simp only [Option.some.injEq, Prod.mk.injEq] at h
        obtain ⟨h1, h2⟩ := h
        subst h2
        have := ih rest1 c1 hs
        have hx : (x.is_free && x.size_bits == k) = false := by
          cases hf : x.is_free
          · simp
          · simp only [Bool.true_and, beq_eq_false_iff_ne, ne_eq]
            exact fun hh => hc ⟨hf, hh⟩
        simp only [List.filter_cons, hx, Bool.false_eq_true, if_false]
        rw [this, h1]

theorem scan_roots_filter_other (l l' : List init_untyped_item) (k c j : Nat)
    (h : scan_roots l k = some (c, l')) (hj : j ≠ k) :
    free_roots_of l' j = free_roots_of l j := by
  unfold free_roots_of
  induction l generalizing l' c with
  | nil => simp [scan_roots] at h
  | cons x rest ih =>
    unfold scan_roots at h
    by_cases hc : x.is_free = true ∧ x.size_bits = k
    · simp only [hc, and_self, if_true, Option.some.injEq, Prod.mk.injEq] at h
      obtain ⟨_, h2⟩ := h
      subst h2
      have hx : (x.is_free && x.size_bits == j) = false := by
        simp only [hc.1, hc.2, Bool.true_and, beq_eq_false_iff_ne, ne_eq]
        exact fun hh => hj hh.symm
      simp [List.filter_cons, hx]
    · simp only [hc, if_false] at h
      cases hs : scan_roots rest k with
      | none => rw [hs] at h; cases h
      | some v =>
        obtain ⟨c1, rest1⟩ := v
        rw [hs] at h
        simp only [Option.some.injEq, Prod.mk.injEq] at h
        obtain ⟨_, h2⟩ := h
        subst h2
        simp only [List.filter_cons, List.map_cons]
        split
        · simp only [List.map_cons, ih rest1 c1 hs]
        · exact ih rest1 c1 hs

/-- What a direct allocation of class `k` changes in the lists of available items: the
item handed out leaves the head of its class. -/
theorem alloc_direct_items (a a2 : allocator) (k big : Nat) (hp : pools_ok a)
    (h1 : MIN_UNTYPED_SIZE ≤ k) (h2 : k ≤ MAX_UNTYPED_SIZE)
    (h : ((pool_of a k).count = 1 ∧ big = (pool_of a k).first ∧
          a2 = { a with untyped_items := a.untyped_items.set (k - MIN_UNTYPED_SIZE) ⟨big, 0⟩ }) ∨
       ((pool_of a k).count = 0 ∧ ∃ items1,
          scan_roots a.init_untyped_items k = some (big, items1) ∧
          a2 = { a with init_untyped_items := items1 })) :
    class_items a k = ⟨big, k, true⟩ :: class_items a2 k ∧
    ∀ j, MIN_UNTYPED_SIZE ≤ j → j ≠ k → class_items a2 j = class_items a j := by
  have hlen := pool_index_lt a k hp h2
  rcases h with ⟨hc, hb, ha2⟩ | ⟨hc, items1, hs, ha2⟩
  · subst ha2
    constructor
    · unfold class_items pool_of pooled_items
      simp only
      rw [getD_set_eq _ _ _ _ hlen]
      unfold pool_of at hc hb
      rw [hc, hb]
      simp [List.range_succ]
    · intro j hj hjk
      unfold class_items pool_of
      simp only
      rw [getD_set_ne _ _ _ _ _ (by omega)]
  · subst ha2
    constructor
    · unfold class_items pool_of pooled_items
      simp only
      unfold pool_of at hc
      rw [hc, scan_roots_class_filter _ _ _ _ hs]
      simp
    · intro j hj hjk
      unfold class_items pool_of
      simp only
      rw [scan_roots_filter_other _ _ _ _ j hs hjk]

theorem class_items_nil (a : allocator) (k : Nat) (h : ¬ class_avail a k) :
    class_items a k = [] := by
  obtain ⟨hc, hs⟩ := scan_roots_none_of_not_avail a k h
  unfold class_items pooled_items free_roots_of
  rw [hc]
  have : a.init_untyped_items.filter (fun it => it.is_free && it.size_bits == k) = [] := by
    rw [List.filter_eq_nil_iff]
    intro it hit hcond
    simp only [Bool.and_eq_true, beq_iff_eq] at hcond
    exact ((scan_roots_none _ _).mp hs) ⟨it, hit, hcond⟩
  rw [this]
  simp

/-- The drain loop of one class hands the child exactly the available items of that
class, in order, and leaves the slot counter and the other classes alone. -/
theorem drain_class_items (fuel : Nat) (p c : allocator) (i : Nat)
    (hp : pools_ok p) (hr : roots_ok p)
    (h1 : MIN_UNTYPED_SIZE ≤ i) (h2 : i ≤ MAX_UNTYPED_SIZE)
    (hD : ∀ j, i < j → j ≤ MAX_UNTYPED_SIZE → ¬ class_avail p j)
    (hfit : c.init_untyped_items.length + avail_items p ≤ MAX_UNTYPED_ITEMS)
    (hfuel : MAX_UNTYPED_ITEMS + 1 ≤ fuel + c.init_untyped_items.length) :
    ∃ p',
      drain_class fuel p c i =
        .ok (p', { c with init_untyped_items := c.init_untyped_items ++ class_items p i }, []) ∧
      (∀ j, MIN_UNTYPED_SIZE ≤ j → j ≠ i → class_items p' j = class_items p j) ∧
      p'.num_slots_used = p.num_slots_used ∧ same_frame p p' := by
  induction fuel generalizing p c with
  | zero => omega
  | succ fuel ih =>
    have hfuel30 : ALLOC_FUEL = (MAX_UNTYPED_SIZE - MIN_UNTYPED_SIZE + 1) + 1 := rfl
    by_cases hav : class_avail p i
    · obtain ⟨big, p2, hbig, hb0, hshape⟩ := alloc_direct p i hp hr h1 h2 hav
      obtain ⟨e1, e2⟩ := alloc_direct_effect p p2 i big hp h1 h2 hshape
      obtain ⟨ci1, ci2⟩ := alloc_direct_items p p2 i big hp h1 h2 hshape
      obtain ⟨f1, _⟩ := alloc_direct_frame p p2 i big hshape
      have hfr := (alloc_same_frame _ _ _ _ _ _ (hbig 0)).1
      have hp2 := alloc_pools_ok _ _ _ _ _ _ (hbig 0) hp
      have hr2 := roots_ok_of_frame p p2 hfr hr
      have hlen : c.init_untyped_items.length < MAX_UNTYPED_ITEMS := by omega
      obtain ⟨p', q0, q1, q2, q3⟩ :=
        ih p2 { c with init_untyped_items := c.init_untyped_items ++ [⟨big, i, true⟩] }
          hp2 hr2 (fun j hj hj2 => by rw [e2 j (by omega) (by omega)]; exact hD j hj hj2)
          (by simp only [List.length_append, List.length_singleton]; omega)
          (by simp only [List.length_append, List.length_singleton]; omega)
      refine ⟨p', ?_, ?_, by rw [q2, f1], same_frame_trans hfr q3⟩
      · unfold drain_class allocator_alloc_untyped
        rw [hfuel30, hbig]
        simp only [hb0, if_false]
        rw [add_root_ok c big i hb0 h1 h2 hlen]
        simp only
        rw [q0, ci1]
        simp
      · intro j hj hji
        rw [q1 j hj hji, ci2 j hj hji]
    · have hnone : ∀ j, i ≤ j → j ≤ MAX_UNTYPED_SIZE → ¬ class_avail p j := by
        intro j hj hj2
        by_cases hji : j = i
        · rw [hji]; exact hav
        · exact hD j (by omega) hj2
      refine ⟨p, ?_, fun _ _ _ => rfl, rfl, same_frame_refl p⟩
      unfold drain_class allocator_alloc_untyped
      rw [alloc_none_avail ALLOC_FUEL p i
        (by unfold ALLOC_FUEL MAX_UNTYPED_SIZE MIN_UNTYPED_SIZE at *; omega) (by decide) hnone,
        class_items_nil p i hav]
      simp

theorem avail_from_top_congr (n : Nat) (a b : allocator)
    (h : ∀ j, MIN_UNTYPED_SIZE ≤ j → j < MIN_UNTYPED_SIZE + n → class_items b j = class_items a j) :
    avail_from_top n b = avail_from_top n a := by
  induction n with
  | zero => rfl
  | succ n ih =>
    unfold avail_from_top
    rw [h (MIN_UNTYPED_SIZE + n) (by omega) (by omega),
      ih (fun j hj hj2 => h j hj (by omega))]

/-- The whole drain hands the child exactly the available items of the parent, largest
class first, without touching the parent's slot counter. -/
theorem drain_down_items (n : Nat) (p c : allocator) (hn : n ≤ NUM_POOLS)
    (hp : pools_ok p) (hr : roots_ok p)
    (hD : ∀ j, MIN_UNTYPED_SIZE + n ≤ j → j ≤ MAX_UNTYPED_SIZE → ¬ class_avail p j)
    (hfit : c.init_untyped_items.length + avail_items p ≤ MAX_UNTYPED_ITEMS) :
    ∃ p',
      drain_down n p c =
        .ok (p', { c with init_untyped_items := c.init_untyped_items ++ avail_from_top n p },
          []) ∧
      p'.num_slots_used = p.num_slots_used ∧ same_frame p p' := by
  induction n generalizing p c with
  | zero => exact ⟨p, by simp [drain_down, avail_from_top], rfl, same_frame_refl p⟩
  | succ n ih =>
    have hi2 : MIN_UNTYPED_SIZE + n ≤ MAX_UNTYPED_SIZE := by
      unfold NUM_POOLS MAX_UNTYPED_SIZE MIN_UNTYPED_SIZE at *
      omega
    obtain ⟨p1, extra1, a0, a1, a2, a3, _, a5, _, _⟩ :=
      drain_class_spec DRAIN_FUEL p c (MIN_UNTYPED_SIZE + n) hp hr (by omega) hi2
        (fun j hj hj2 => hD j (by omega) hj2) hfit
        (by unfold DRAIN_FUEL; omega)
    obtain ⟨p1', b0, b1, b2, b3⟩ :=
      drain_class_items DRAIN_FUEL p c (MIN_UNTYPED_SIZE + n) hp hr (by omega) hi2
        (fun j hj hj2 => hD j (by omega) hj2) hfit
        (by unfold DRAIN_FUEL; omega)
    have hsame : p1' = p1 ∧ class_items p (MIN_UNTYPED_SIZE + n) = extra1 := by
      rw [a0] at b0
      simp only [Except.ok.injEq, Prod.mk.injEq, allocator.mk.injEq, true_and, and_true,
        List.append_cancel_left_eq] at b0
      exact ⟨b0.1.symm, b0.2.symm⟩
    obtain ⟨hp1, hex⟩ := hsame
    subst hp1
    obtain ⟨p', c0, c1, c2⟩ :=
      ih p1' { c with init_untyped_items :=
          c.init_untyped_items ++ class_items p (MIN_UNTYPED_SIZE + n) } (by omega) a1 a2 a3
        (by simp only [List.length_append, hex]; omega)
    refine ⟨p', ?_, by rw [c1, b2], same_frame_trans b3 c2⟩
    unfold drain_down
    rw [b0]
    simp only
    rw [c0, avail_from_top_congr n p p1' (fun j hj hj2 => b1 j hj (by omega))]
    simp [avail_from_top]

theorem mem_class_items (a : allocator) (k : Nat) (it : init_untyped_item)
    (h : it ∈ class_items a k) : it.size_bits = k ∧ it.is_free = true := by
  unfold class_items pooled_items free_roots_of at h
  rcases List.mem_append.mp h with h | h
  · obtain ⟨j, _, hj⟩ := List.mem_map.mp h
    rw [← hj]
    exact ⟨rfl, rfl⟩
  · obtain ⟨x, _, hx⟩ := List.mem_map.mp h
    rw [← hx]
    exact ⟨rfl, rfl⟩

theorem mem_avail_from_top (n : Nat) (a : allocator) (it : init_untyped_item)
    (h : it ∈ avail_from_top n a) :
    MIN_UNTYPED_SIZE ≤ it.size_bits ∧ it.size_bits < MIN_UNTYPED_SIZE + n ∧
      it.is_free = true := by
  induction n with
  | zero => simp [avail_from_top] at h
  | succ n ih =>
    unfold avail_from_top at h
    rcases List.mem_append.mp h with h | h
    · obtain ⟨h1, h2⟩ := mem_class_items a _ it h
      exact ⟨by omega, by omega, h2⟩
    · obtain ⟨h1, h2, h3⟩ := ih h
      exact ⟨h1, by omega, h3⟩

theorem avail_from_top_sorted (n : Nat) (a : allocator) :
    List.Pairwise (fun x y => y.size_bits ≤ x.size_bits) (avail_from_top n a) := by
  induction n with
  | zero => simp [avail_from_top]
  | succ n ih =>
    unfold avail_from_top
    rw [List.pairwise_append]
    refine ⟨?_, ih, ?_⟩
    · rw [List.pairwise_iff_forall_sublist]
      intro x y hxy
      have hx := (mem_class_items a _ x (hxy.subset (List.mem_cons_self _ _))).1
      have hy := (mem_class_items a _ y
        (hxy.subset (List.mem_cons_of_mem _ (List.mem_cons_self _ _)))).1
      omega
    · intro x hx y hy
      have h1 := (mem_class_items a _ x hx).1
      have h2 := (mem_avail_from_top n a y hy).2.1
      omega

theorem count_roots_split (l : List init_untyped_item) (n : Nat) (x : Nat × Nat) :
    List.count x ((l.filter (fun it => it.is_free && (decide (MIN_UNTYPED_SIZE ≤ it.size_bits) &&
        decide (it.size_bits < MIN_UNTYPED_SIZE + (n + 1))))).map
          (fun it => (it.cap, it.size_bits))) =
      List.count x ((free_roots_of l (MIN_UNTYPED_SIZE + n)).map
          (fun it => (it.cap, it.size_bits))) +
      List.count x ((l.filter (fun it => it.is_free && (decide (MIN_UNTYPED_SIZE ≤ it.size_bits) &&
        decide (it.size_bits < MIN_UNTYPED_SIZE + n)))).map
          (fun it => (it.cap, it.size_bits))) := by
  unfold free_roots_of
  induction l with
  | nil => simp
  | cons it rest ih =>
    simp only [List.filter_cons]
    by_cases hf : it.is_free = true
    · by_cases hk : it.size_bits = MIN_UNTYPED_SIZE + n
      · have e1 : (it.is_free && (decide (MIN_UNTYPED_SIZE ≤ it.size_bits) &&
            decide (it.size_bits < MIN_UNTYPED_SIZE + (n + 1)))) = true := by
          simp only [hf, Bool.true_and, Bool.and_eq_true, decide_eq_true_eq]
          omega
        have e2 : (it.is_free && it.size_bits == MIN_UNTYPED_SIZE + n) = true := by
          simp only [hf, Bool.true_and, beq_iff_eq]
          exact hk
        have e3 : (it.is_free && (decide (MIN_UNTYPED_SIZE ≤ it.size_bits) &&
            decide (it.size_bits < MIN_UNTYPED_SIZE + n))) = false := by
          simp only [hf, Bool.true_and, Bool.and_eq_false_imp, decide_eq_true_eq,
            decide_eq_false_iff_not]
          intro _
          omega
        simp only [e1, e2, e3, ↓reduceIte, Bool.false_eq_true, List.map_cons, List.count_cons]
        rw [ih, hk]
        omega
      · by_cases hr : MIN_UNTYPED_SIZE ≤ it.size_bits ∧ it.size_bits < MIN_UNTYPED_SIZE + n
        · have e1 : (it.is_free && (decide (MIN_UNTYPED_SIZE ≤ it.size_bits) &&
              decide (it.size_bits < MIN_UNTYPED_SIZE + (n + 1)))) = true := by
            simp only [hf, Bool.true_and, Bool.and_eq_true, decide_eq_true_eq]
            omega
          have e2 : (it.is_free && it.size_bits == MIN_UNTYPED_SIZE + n) = false := by
            simp only [hf, Bool.true_and, beq_eq_false_iff_ne, ne_eq]
            exact hk
          have e3 : (it.is_free && (decide (MIN_UNTYPED_SIZE ≤ it.size_bits) &&
              decide (it.size_bits < MIN_UNTYPED_SIZE + n))) = true := by
            simp only [hf, Bool.true_and, Bool.and_eq_true, decide_eq_true_eq]
            exact hr
          simp only [e1, e2, e3, ↓reduceIte, Bool.false_eq_true, List.map_cons, List.count_cons]
          rw [ih]
          omega
        · have e1 : (it.is_free && (decide (MIN_UNTYPED_SIZE ≤ it.size_bits) &&
              decide (it.size_bits < MIN_UNTYPED_SIZE + (n + 1)))) = false := by
            simp only [hf, Bool.true_and, Bool.and_eq_false_imp, decide_eq_true_eq,
              decide_eq_false_iff_not]
            intro _
            omega
          have e2 : (it.is_free && it.size_bits == MIN_UNTYPED_SIZE + n) = false := by
            simp only [hf, Bool.true_and, beq_eq_false_iff_ne, ne_eq]
            exact hk
          have e3 : (it.is_free && (decide (MIN_UNTYPED_SIZE ≤ it.size_bits) &&
              decide (it.size_bits < MIN_UNTYPED_SIZE + n))) = false := by
            simp only [hf, Bool.true_and, Bool.and_eq_false_imp, decide_eq_true_eq,
              decide_eq_false_iff_not]
            intro _
            omega
          simp only [e1, e2, e3, ↓reduceIte, Bool.false_eq_true]
          exact ih
    · have hf' : it.is_free = false := by simpa using hf
      simp only [hf', Bool.false_and, Bool.false_eq_true, ↓reduceIte]
      exact ih

theorem pooled_from_take_succ (ps : List cap_range) (k n : Nat) (h : n < ps.length)
    (x : Nat × Nat) :
    List.count x (pooled_from k (ps.take (n + 1))) =
      List.count x (pooled_from k (ps.take n)) +
      List.count x ((pooled_items (ps.getD n ⟨0, 0⟩) (k + n)).map
        (fun it => (it.cap, it.size_bits))) := by
  induction ps generalizing k n with
  | nil => simp at h
  | cons p ps ih =>
    cases n with
    | zero =>
      simp [pooled_from]
    | succ m =>
      have hm : m < ps.length := by simpa using h
      have := ih (k + 1) m hm
      have he : k + 1 + m = k + (m + 1) := by omega
      rw [he] at this
      simp only [List.take_succ_cons, pooled_from, List.count_append, List.getD_cons_succ]
      omega

/-- The items of the `n` lowest classes are, up to order, the available root items of
those classes and the items of the first `n` pools. -/
theorem avail_from_top_count (n : Nat) (a : allocator) (hn : n ≤ a.untyped_items.length)
    (x : Nat × Nat) :
    List.count x ((avail_from_top n a).map (fun it => (it.cap, it.size_bits))) =
      List.count x ((a.init_untyped_items.filter (fun it => it.is_free &&
        (decide (MIN_UNTYPED_SIZE ≤ it.size_bits) &&
          decide (it.size_bits < MIN_UNTYPED_SIZE + n)))).map
            (fun it => (it.cap, it.size_bits))) +
      List.count x (pooled_from MIN_UNTYPED_SIZE (a.untyped_items.take n)) := by
  induction n with
  | zero =>
    have hnil : a.init_untyped_items.filter (fun it => it.is_free &&
        (decide (MIN_UNTYPED_SIZE ≤ it.size_bits) &&
          decide (it.size_bits < MIN_UNTYPED_SIZE + 0))) = [] := by
      rw [List.filter_eq_nil_iff]
      intro it _ hc
      simp only [Nat.add_zero, Bool.and_eq_true, decide_eq_true_eq] at hc
      omega
    rw [hnil]
    simp [avail_from_top, pooled_from]
  | succ n ih =>
    have h1 := ih (by omega)
    have h2 := count_roots_split a.init_untyped_items n x
    have h3 := pooled_from_take_succ a.untyped_items MIN_UNTYPED_SIZE n (by omega) x
    unfold avail_from_top class_items pool_of
    have hidx : MIN_UNTYPED_SIZE + n - MIN_UNTYPED_SIZE = n := by omega
    simp only [List.map_append, List.count_append, hidx]
    omega

theorem pooled_from_length (ps : List cap_range) (k : Nat) :
    (pooled_from k ps).length = (ps.map (fun p => p.count)).sum := by
  induction ps generalizing k with
  | nil => rfl
  | cons p ps ih =>
    simp [pooled_from, pooled_items, ih (k + 1)]

/-- A state with no available class has no available root item and only empty pools. -/
theorem nothing_available (a : allocator) (hp : pools_ok a) (hr : roots_ok a)
    (h : ∀ j, MIN_UNTYPED_SIZE ≤ j → j ≤ MAX_UNTYPED_SIZE → ¬ class_avail a j) :
    (∀ it ∈ a.init_untyped_items, it.is_free = false) ∧
    (∀ q ∈ a.untyped_items, q.count = 0) := by
  constructor
  · intro it hit
    obtain ⟨_, h1, h2⟩ := hr.2 it hit
    cases hf : it.is_free
    · rfl
    · exact absurd (Or.inr ⟨it, hit, hf, rfl⟩) (h it.size_bits h1 h2)
  · intro q hq
    obtain ⟨idx, hidx, hq'⟩ := List.getElem_of_mem hq
    have hlen : idx < NUM_POOLS := by rw [← hp.1]; exact hidx
    have hpo : pool_of a (MIN_UNTYPED_SIZE + idx) = q := by
      unfold pool_of
      have : MIN_UNTYPED_SIZE + idx - MIN_UNTYPED_SIZE = idx := by omega
      rw [this, List.getD_eq_getElem _ _ hidx, hq']
    by_contra hc
    refine h (MIN_UNTYPED_SIZE + idx) (by omega)
      (by unfold NUM_POOLS MAX_UNTYPED_SIZE MIN_UNTYPED_SIZE at *; omega) (Or.inl ?_)
    rw [hpo]
    exact hc

theorem count_pairs_inst (l : List (Nat × Nat)) (x : Nat × Nat) :
    @List.count (Nat × Nat) instBEqOfDecidableEq x l = List.count x l := by
  induction l with
  | nil => rfl
  | cons y ys ih =>
    simp only [List.count_cons, ih]
    have : (@BEq.beq (Nat × Nat) instBEqOfDecidableEq y x) = (y == x) := by
      obtain ⟨a, b⟩ := y
      obtain ⟨c, d⟩ := x
      show decide ((a, b) = (c, d)) = (a == c && b == d)
      rw [Bool.eq_iff_iff]
      simp
    rw [this]

theorem available_items_perm (a : allocator) (hp : pools_ok a) (hr : roots_ok a) :
    List.Perm ((available_items a).map (fun it => (it.cap, it.size_bits))) (held_items a) := by
  rw [List.perm_iff_count]
  intro x
  rw [count_pairs_inst, count_pairs_inst]
  unfold available_items held_items
  rw [avail_from_top_count NUM_POOLS a (by rw [hp.1]) x, List.count_append]
  have h1 : a.untyped_items.take NUM_POOLS = a.untyped_items := by
    rw [← hp.1]
    exact List.take_length _
  have h2 : a.init_untyped_items.filter (fun it => it.is_free &&
      (decide (MIN_UNTYPED_SIZE ≤ it.size_bits) &&
        decide (it.size_bits < MIN_UNTYPED_SIZE + NUM_POOLS))) =
      a.init_untyped_items.filter (fun it => it.is_free) := by
    apply List.filter_congr
    intro it hit
    obtain ⟨_, q1, q2⟩ := hr.2 it hit
    have q3 : it.size_bits < MIN_UNTYPED_SIZE + NUM_POOLS := by
      unfold NUM_POOLS MAX_UNTYPED_SIZE MIN_UNTYPED_SIZE at *
      omega
    simp [q1, q3]
  rw [h1, h2]

/-- C14 (amended).  For every parent with well-formed pools and root table that holds at
most `MAX_UNTYPED_ITEMS` available items (available root items plus pooled items),
`create_child(parent, slot_window)` returns a child whose root table is the list
`available_items parent`: up to order, exactly the items the parent held as available
before the drain (every available root item and every pooled item, each with its own
size class, none lost and none duplicated), all marked available and ordered by size
class from `MAX_UNTYPED_SIZE` down to `MIN_UNTYPED_SIZE`; the child's pools are empty, its
slot counter is zero and its window and CNode fields are the given ones. -/
theorem child_root_table (parent : allocator) (rc rd ro first n : Nat)
    (hp : pools_ok parent) (hr : roots_ok parent)
    (hfit : avail_items parent ≤ MAX_UNTYPED_ITEMS) :
    ∃ parent' calls,
      allocator_create_child parent rc rd ro first n =
        .ok (parent', ⟨rc, rd, ro, ⟨first, n⟩, 0, available_items parent, empty_pools⟩, calls) ∧
      (∀ it ∈ available_items parent, it.is_free = true) ∧
      List.Pairwise (fun x y => y.size_bits ≤ x.size_bits) (available_items parent) ∧
      List.Perm ((available_items parent).map (fun it => (it.cap, it.size_bits)))
        (held_items parent) ∧
      (available_items parent).length = avail_items parent := by
  have hcreate : allocator_create rc rd ro first n [] =
      .ok ⟨rc, rd, ro, ⟨first, n⟩, 0, [], empty_pools⟩ := by
    simp [allocator_create, add_items, MAX_UNTYPED_ITEMS]
  obtain ⟨p', d0, _, _⟩ :=
    drain_down_items NUM_POOLS parent ⟨rc, rd, ro, ⟨first, n⟩, 0, [], empty_pools⟩ (le_refl _)
      hp hr (fun j hj hj2 => by unfold NUM_POOLS MAX_UNTYPED_SIZE MIN_UNTYPED_SIZE at *; omega)
      (by simpa using hfit)
  have hperm := available_items_perm parent hp hr
  refine ⟨p', [], ?_, ?_, avail_from_top_sorted NUM_POOLS parent, hperm, ?_⟩
  · unfold allocator_create_child
    rw [hcreate]
    simp only
    rw [d0]
    simp [available_items]
  · intro it hit
    exact (mem_avail_from_top NUM_POOLS parent it hit).2.2
  · have := hperm.length_eq
    simp only [List.length_map] at this
    rw [this]
    unfold held_items avail_items
    simp [pooled_from_length]

/-- Witness for C14: the parent `ex_used`, which holds the pooled items 10 (class 5) and
12 (class 4). -/
theorem child_root_table_witness :
    ∃ parent' calls,
      allocator_create_child ex_used 3 32 0 20 4 =
        .ok (parent', ⟨3, 32, 0, ⟨20, 4⟩, 0, available_items ex_used, empty_pools⟩, calls) ∧
      (∀ it ∈ available_items ex_used, it.is_free = true) ∧
      List.Pairwise (fun x y => y.size_bits ≤ x.size_bits) (available_items ex_used) ∧
      List.Perm ((available_items ex_used).map (fun it => (it.cap, it.size_bits)))
        (held_items ex_used) ∧
      (available_items ex_used).length = avail_items ex_used :=
  child_root_table ex_used 3 32 0 20 4 (by decide) (by decide) (by decide)

/-- C20.  The drain of `create_child` never splits.  For every well-formed parent holding
`N` available items (available root items plus pooled items), `N` within the child's
root table: `create_child` returns, having issued no kernel call; the child's root table
has exactly `N` entries, one per allocation of the drain that returned a handle; the
parent's slot counter and slot window are unchanged; and afterwards every parent root
item is unavailable and every parent pool is empty. -/
theorem drain_never_splits (parent : allocator) (rc rd ro first n : Nat)
    (hp : pools_ok parent) (hr : roots_ok parent)
    (hfit : avail_items parent ≤ MAX_UNTYPED_ITEMS) :
    ∃ parent' child,
      allocator_create_child parent rc rd ro first n = .ok (parent', child, []) ∧
      child.init_untyped_items.length = avail_items parent ∧
      parent'.num_slots_used = parent.num_slots_used ∧ parent'.cslots = parent.cslots ∧
      same_frame parent parent' ∧
      (∀ it ∈ parent'.init_untyped_items, it.is_free = false) ∧
      (∀ q ∈ parent'.untyped_items, q.count = 0) := by
  obtain ⟨child0, hc0, hc1⟩ : ∃ c0 : allocator,
      allocator_create rc rd ro first n [] = .ok c0 ∧ c0.init_untyped_items = [] :=
    ⟨⟨rc, rd, ro, ⟨first, n⟩, 0, [], empty_pools⟩,
      by simp [allocator_create, add_items, MAX_UNTYPED_ITEMS], rfl⟩
  have hD : ∀ j, MIN_UNTYPED_SIZE + NUM_POOLS ≤ j → j ≤ MAX_UNTYPED_SIZE →
      ¬ class_avail parent j := by
    intro j hj hj2
    unfold NUM_POOLS MAX_UNTYPED_SIZE MIN_UNTYPED_SIZE at *
    omega
  obtain ⟨p1, extra, d0, d1, d2, d3, d4, _, _⟩ :=
    drain_down_spec NUM_POOLS parent child0 (le_refl _)
      hp hr hD (by rw [hc1]; simpa using hfit)
  obtain ⟨p', e0, e1, e2⟩ :=
    drain_down_items NUM_POOLS parent child0 (le_refl _)
      hp hr hD (by rw [hc1]; simpa using hfit)
  have hsame : p' = p1 := by
    rw [d0] at e0
    simp only [Except.ok.injEq, Prod.mk.injEq] at e0
    exact e0.1.symm
  subst hsame
  obtain ⟨n1, n2⟩ := nothing_available p' d1 d2 d3
  have hzero : avail_items p' = 0 := by
    unfold avail_items
    have z1 : p'.init_untyped_items.filter (fun it => it.is_free) = [] := by
      rw [List.filter_eq_nil_iff]
      intro it hit
      simp [n1 it hit]
    have z2 : (p'.untyped_items.map (fun q => q.count)).sum = 0 := by
      apply List.sum_eq_zero
      intro c hc
      obtain ⟨q, hq, hqc⟩ := List.mem_map.mp hc
      rw [← hqc]
      exact n2 q hq
    rw [z1, z2]
    rfl
  refine ⟨p', { child0 with init_untyped_items := child0.init_untyped_items ++ extra },
    ?_, ?_, e1, e2.2.2.2.1, e2, n1, n2⟩
  · unfold allocator_create_child
    rw [hc0]
    exact d0
  · simp only [hc1, List.nil_append]
    omega

/-- Witness for C20: the parent `ex_used`, which holds two pooled items. -/
theorem drain_never_splits_witness :
    ∃ parent' child,
      allocator_create_child ex_used 3 32 0 20 4 = .ok (parent', child, []) ∧
      child.init_untyped_items.length = avail_items ex_used ∧
      parent'.num_slots_used = ex_used.num_slots_used ∧ parent'.cslots = ex_used.cslots ∧
      same_frame ex_used parent' ∧
      (∀ it ∈ parent'.init_untyped_items, it.is_free = false) ∧
      (∀ q ∈ parent'.untyped_items, q.count = 0) :=
  drain_never_splits ex_used 3 32 0 20 4 (by decide) (by decide) (by decide)

theorem alloc_direct_below (a a2 : allocator) (k big : Nat)
    (h : ((pool_of a k).count = 1 ∧ big = (pool_of a k).first ∧
          a2 = { a with untyped_items := a.untyped_items.set (k - MIN_UNTYPED_SIZE) ⟨big, 0⟩ }) ∨
       ((pool_of a k).count = 0 ∧ ∃ items1,
          scan_roots a.init_untyped_items k = some (big, items1) ∧
          a2 = { a with init_untyped_items := items1 })) :
    ∀ c, MIN_UNTYPED_SIZE ≤ c → c < k → pool_of a2 c = pool_of a c := by
  intro c hc hck
  rcases h with ⟨_, _, h⟩ | ⟨_, items1, _, h⟩
  · subst h
    unfold pool_of
    exact getD_set_ne _ _ _ _ _ (by omega)
  · subst h
    rfl

/-- The chain of splits from the smallest available class `j = k + d` down to `k`. -/
theorem alloc_split_chain (d : Nat) :
    ∀ (fuel : Nat) (a : allocator) (k : Nat), d < fuel →
      pools_ok a → roots_ok a → slots_ok a → a.cslots.first ≠ 0 →
      MIN_UNTYPED_SIZE ≤ k → k + d ≤ MAX_UNTYPED_SIZE → class_avail a (k + d) →
      (∀ c, c < k + d → k ≤ c → ¬ class_avail a c) →
      ∃ big a2, (∀ f, alloc_untyped_fuel (f + 1) a (k + d) = .ok (big, a2, [])) ∧ big ≠ 0 ∧
        (class_items a (k + d) = ⟨big, k + d, true⟩ :: class_items a2 (k + d) ∧
          (∀ c, MIN_UNTYPED_SIZE ≤ c → c ≠ k + d → class_items a2 c = class_items a c) ∧
          ∀ c, MIN_UNTYPED_SIZE ≤ c → c < k + d → pool_of a2 c = pool_of a c) ∧
        (a.num_slots_used + 2 * d ≤ a.cslots.count →
          ∃ r a' cs, alloc_untyped_fuel fuel a k = .ok (r, a', cs) ∧ r ≠ 0 ∧
            split_effect a a2 a' k (k + d) cs) ∧
        (a.cslots.count < a.num_slots_used + 2 * d →
          ∃ a' cs, alloc_untyped_fuel fuel a k = .ok (0, a', cs)) := by
  induction d with
  | zero =>
    intro fuel a k hfuel hp hr hs hfirst hk1 hk2 hav _
    obtain ⟨big, a2, hbig, hb0, hshape⟩ := alloc_direct a k hp hr hk1 hk2 hav
    obtain ⟨f1, _⟩ := alloc_direct_frame a a2 k big hshape
    refine ⟨big, a2, hbig, hb0,
      ⟨(alloc_direct_items a a2 k big hp hk1 hk2 hshape).1,
        (alloc_direct_items a a2 k big hp hk1 hk2 hshape).2,
        alloc_direct_below a a2 k big hshape⟩, ?_, ?_⟩
    · intro _
      obtain ⟨f, hf⟩ : ∃ f, fuel = f + 1 := ⟨fuel - 1, by omega⟩
      refine ⟨big, a2, [], by rw [hf]; exact hbig f, hb0, ?_⟩
      exact ⟨by rw [f1]; simp, by simp, rfl, fun _ _ => rfl,
        fun c h1 h2 => by omega, alloc_direct_below a a2 k big hshape⟩
    · intro hlt
      unfold slots_ok at hs
      omega
  | succ d ih =>
    intro fuel a k hfuel hp hr hs hfirst hk1 hk2 hav hnone
    obtain ⟨f, hf⟩ : ∃ f, fuel = f + 1 := ⟨fuel - 1, by omega⟩
    have hkd : k + (d + 1) = (k + 1) + d := by omega
    obtain ⟨hpc, hsc⟩ := scan_roots_none_of_not_avail a k (hnone k (by omega) (le_refl _))
    obtain ⟨big, a2, hbig, hb0, hitems, hsucc, hfail⟩ :=
      ih f a (k + 1) (by omega) hp hr hs hfirst (by omega) (by omega) (by rw [← hkd]; exact hav)
        (fun c hc hc2 => hnone c (by omega) (by omega))
    have hrec := alloc_recurse f a k hk1 (by omega) hpc hsc
    refine ⟨big, a2, by rw [hkd]; exact hbig, hb0, by rw [hkd]; exact hitems, ?_, ?_⟩
    · intro hslots
      obtain ⟨r1, a1, cs1, h1, hr1, e1, e2, e3, e4, e5, e6⟩ := hsucc (by omega)
      obtain ⟨fr1, fr2, fr3, fr4, fr5, fr6⟩ := (alloc_same_frame _ _ _ _ _ _ h1).1
      have hs1 := (alloc_slots_ok _ _ _ _ _ _ h1 hs).1
      have hp1 := alloc_pools_ok _ _ _ _ _ _ h1 hp
      have hint : (2 : Int) ≤ to_int (slots_remaining a1) := by
        rw [to_int_slots_remaining a1 hs1, fr4, e1]
        omega
      have hnext : next_slot a1 =
          a1.cslots.first + a1.num_slots_used + a1.root_cnode_offset := by
        unfold slots_ok INT_MAX WORD at hs1
        rw [fr4, e1] at hs1
        rw [fr4, e1]
        unfold next_slot uadd WORD
        rw [fr4, e1]
        omega
      have hnext0 : next_slot a1 ≠ 0 := by
        rw [hnext, fr4]
        have h0 : 0 < a.cslots.first := Nat.pos_of_ne_zero hfirst
        exact Nat.ne_of_gt (Nat.add_pos_left (Nat.add_pos_left h0 _) _)
      have hnext1 : uadd (next_slot a1) 1 ≠ 0 := by
        rw [hnext]
        unfold slots_ok INT_MAX WORD at hs1
        rw [fr4, e1] at hs1
        rw [fr4, e1]
        unfold uadd WORD
        omega
      have hused : uadd a1.num_slots_used 2 = a.num_slots_used + 2 * ((k + 1 + d) - k) := by
        unfold slots_ok INT_MAX WORD at hs1
        rw [fr4, e1] at hs1
        rw [e1]
        unfold uadd WORD
        omega
      have hlen : k - MIN_UNTYPED_SIZE < a1.untyped_items.length :=
        pool_index_lt a1 k hp1 (by omega)
      refine ⟨uadd (next_slot a1) 1,
        { a1 with
          num_slots_used := uadd a1.num_slots_used 2
          untyped_items := a1.untyped_items.set (k - MIN_UNTYPED_SIZE) ⟨next_slot a1, 1⟩ },
        cs1 ++ [.Untyped_Retype r1 seL4_UntypedObject k a1.root_cnode a1.root_cnode_depth
          (uadd a1.cslots.first a1.num_slots_used) 2], ?_, hnext1, ?_⟩
      · rw [hf, hrec, h1]
        simp only [hr1, if_false]
        exact split_step_ok a1 r1 k cs1 hint hnext0 hnext1
      · rw [hkd]
        refine ⟨hused, by simp only [List.length_append, List.length_singleton]; omega, e3, ?_, ?_, ?_⟩
        · intro c hc
          rw [← e4 c hc]
          unfold pool_of
          exact getD_set_ne _ _ _ _ _ (by omega)
        · intro c hc1 hc2
          by_cases hck : c = k
          · subst hck
            unfold pool_of
            simp only
            rw [getD_set_eq _ _ _ _ hlen]
          · have := e5 c (by omega) hc2
            rw [← this]
            unfold pool_of
            simp only
            rw [getD_set_ne _ _ _ _ _ (by omega)]
        · intro c hc1 hc2
          rw [← e6 c hc1 (by omega)]
          unfold pool_of
          exact getD_set_ne _ _ _ _ _ (by omega)
    · intro hslots
      by_cases henough : a.num_slots_used + 2 * d ≤ a.cslots.count
      · obtain ⟨r1, a1, cs1, h1, hr1, e1, _⟩ := hsucc henough
        obtain ⟨fr1, fr2, fr3, fr4, fr5, fr6⟩ := (alloc_same_frame _ _ _ _ _ _ h1).1
        have hs1 := (alloc_slots_ok _ _ _ _ _ _ h1 hs).1
        have hint : to_int (slots_remaining a1) < 2 := by
          rw [to_int_slots_remaining a1 hs1, fr4, e1]
          omega
        refine ⟨{ a1 with untyped_items := a1.untyped_items.set (k - MIN_UNTYPED_SIZE) ⟨0, 0⟩ },
          cs1, ?_⟩
        rw [hf, hrec, h1]
        simp only [hr1, if_false]
        exact split_step_fail a1 r1 k cs1 hint
      · obtain ⟨a1, cs1, h1⟩ := hfail (by omega)
        refine ⟨a1, cs1, ?_⟩
        rw [hf, hrec, h1]
        simp


theorem least_avail_unique (a : allocator) (k i j : Nat) (hi : least_avail a k i)
    (hj : least_avail a k j) : i = j := by
  obtain ⟨i1, _, i3, i4⟩ := hi
  obtain ⟨j1, _, j3, j4⟩ := hj
  by_contra hne
  rcases Nat.lt_or_gt_of_ne hne with h | h
  · exact j4 i h i1 i3
  · exact i4 j h j1 j3

theorem least_avail_exists (a : allocator) (k : Nat)
    (h : ∃ j, k ≤ j ∧ j ≤ MAX_UNTYPED_SIZE ∧ class_avail a j) : ∃ j, least_avail a k j := by
  classical
  refine ⟨Nat.find h, (Nat.find_spec h).1, (Nat.find_spec h).2.1, (Nat.find_spec h).2.2, ?_⟩
  intro c hc hkc hav
  have hle : c ≤ MAX_UNTYPED_SIZE := by
    have := (Nat.find_spec h).2.1
    omega
  exact Nat.find_min h hc ⟨hkc, hle, hav⟩

theorem class_items_congr (a b : allocator) (c : Nat)
    (hr : a.init_untyped_items = b.init_untyped_items) (hq : pool_of a c = pool_of b c) :
    class_items a c = class_items b c := by
  unfold class_items
  rw [hr, hq]

theorem alloc_cslot_cond (a : allocator) :
    (usub a.cslots.count a.num_slots_used = 0 ∧ allocator_alloc_cslot a = (0, a)) ∨
    (usub a.cslots.count a.num_slots_used ≠ 0 ∧
      allocator_alloc_cslot a =
        (next_slot a, { a with num_slots_used := uadd a.num_slots_used 1 })) := by
  unfold allocator_alloc_cslot next_slot
  by_cases h : usub a.cslots.count a.num_slots_used = 0
  · simp [h]
  · simp [h]

theorem alloc_cslots_cond (a : allocator) (n : Int) :
    (usub a.cslots.count a.num_slots_used < to_ulong n ∧ allocator_alloc_cslots a n = (0, a)) ∨
    (to_ulong n ≤ usub a.cslots.count a.num_slots_used ∧
      allocator_alloc_cslots a n =
        (next_slot a, { a with num_slots_used := uadd a.num_slots_used (to_ulong n) })) := by
  unfold allocator_alloc_cslots next_slot
  by_cases h : usub a.cslots.count a.num_slots_used < to_ulong n
  · simp [h]
  · exact Or.inr ⟨by omega, by simp [h]⟩

theorem retype_cond (a : allocator) (u t s : Nat) (n : Int) :
    (to_int (slots_remaining a) < n ∧
      allocator_retype_untyped_memory a u t s n = .ok (0, ⟨0, 0⟩, a, [])) ∨
    (n ≤ to_int (slots_remaining a) ∧
      allocator_retype_untyped_memory a u t s n =
        .ok (n, ⟨next_slot a, to_ulong n⟩,
          { a with num_slots_used := uadd a.num_slots_used (to_ulong n) },
          [.Untyped_Retype u t s a.root_cnode a.root_cnode_depth
            (uadd a.cslots.first a.num_slots_used) n])) := by
  by_cases h : to_int (slots_remaining a) < n
  · exact Or.inl ⟨h, retype_fail a u t s n h⟩
  · exact Or.inr ⟨by omega, retype_ok a u t s n (by omega)⟩

theorem to_ulong_lt (n : Int) : to_ulong n < WORD := by
  unfold to_ulong WORD
  omega

/-- With the counter within the window, a non-negative count that fits the `int`
reading of the remaining slots fits the remaining slots. -/
theorem retype_fits (a : allocator) (n : Int) (hc : counter_ok a) (h0 : 0 ≤ n)
    (h : n ≤ to_int (slots_remaining a)) :
    a.num_slots_used + to_ulong n ≤ a.cslots.count ∧ to_ulong n = n.toNat := by
  unfold counter_ok WORD at hc
  unfold slots_remaining usub to_int INT_MAX WORD at h
  unfold to_ulong WORD
  split at h <;> omega

theorem counter_ok_add (a : allocator) (m : Nat) (hc : counter_ok a)
    (h : a.num_slots_used + m ≤ a.cslots.count) :
    uadd a.num_slots_used m = a.num_slots_used + m := by
  unfold counter_ok WORD at hc
  unfold uadd WORD
  omega

/-- Slot accounting of `alloc_untyped`: the window stays, the counter stays within
it and does not decrease. -/
theorem alloc_counter (fuel : Nat) (a : allocator) (k r : Nat) (a' : allocator)
    (cs : List kernel_call) (h : alloc_untyped_fuel fuel a k = .ok (r, a', cs))
    (hc : counter_ok a) :
    counter_ok a' ∧ a'.cslots = a.cslots ∧ a.num_slots_used ≤ a'.num_slots_used := by
  revert h hc
  refine alloc_induct
    (P := fun _ a _ a' _ => counter_ok a →
      counter_ok a' ∧ a'.cslots = a.cslots ∧ a.num_slots_used ≤ a'.num_slots_used)
    ?_ ?_ ?_ ?_ ?_ fuel a k r a' cs
  · intro a k _ h; exact ⟨h, rfl, le_refl _⟩
  · intro a k res pool1 _ _ _ _ hs
    exact ⟨hs, rfl, le_refl _⟩
  · intro a k pool1 c items1 _ _ _ _ hs
    exact ⟨hs, rfl, le_refl _⟩
  · intro a k pool1 a2 calls _ _ _ _ ih hs
    exact ih hs
  · intro a k pool1 big a2 calls r a' cs _ _ _ _ ih _ hsp hs
    obtain ⟨h2, hw, hle⟩ := ih hs
    simp only at hle hw
    rcases split_step_cases _ _ _ _ _ _ _ hsp with ⟨_, _, _, ha'⟩ | ⟨hr, _, _, _, _, ha'⟩
    · subst ha'
      exact ⟨h2, hw, hle⟩
    · subst ha'
      have hfit := retype_fits a2 2 h2 (by decide) hr
      have h22 : to_ulong 2 = 2 := by decide
      rw [h22] at hfit
      have hadd := counter_ok_add a2 2 h2 hfit.1
      refine ⟨?_, hw, ?_⟩
      · unfold counter_ok at h2 ⊢
        simp only [hadd]
        exact ⟨hfit.1, h2.2⟩
      · simp only [hadd]
        omega

/-- The ways `alloc_kobject` returns: no untyped item, no slot, or one object created in
the next slot. -/
theorem alloc_kobject_cases (f : Nat → Nat → Nat) (a : allocator) (t s r : Nat)
    (a' : allocator) (cs : List kernel_call)
    (h : allocator_alloc_kobject f a t s = .ok (r, a', cs)) :
    ∃ u a1 cs1, allocator_alloc_untyped a (f t s) = .ok (u, a1, cs1) ∧
      ((u = 0 ∧ r = 0 ∧ a' = a1) ∨
       (u ≠ 0 ∧ to_int (slots_remaining a1) < 1 ∧ r = 0 ∧ a' = a1) ∨
       (u ≠ 0 ∧ 1 ≤ to_int (slots_remaining a1) ∧ r = next_slot a1 ∧
         a' = { a1 with num_slots_used := uadd a1.num_slots_used 1 })) := by
  unfold allocator_alloc_kobject at h
  simp only at h
  cases hu : allocator_alloc_untyped a (f t s) with
  | error e => rw [hu] at h; simp at h
  | ok v =>
    obtain ⟨u, a1, cs1⟩ := v
    rw [hu] at h
    simp only at h
    refine ⟨u, a1, cs1, rfl, ?_⟩
    by_cases hu0 : u = 0
    · simp only [hu0, if_true, Except.ok.injEq, Prod.mk.injEq] at h
      exact Or.inl ⟨hu0, h.1.symm, h.2.1.symm⟩
    · simp only [hu0, if_false] at h
      have h11 : to_ulong 1 = 1 := by decide
      rcases retype_cond a1 u t s 1 with ⟨hlt, he⟩ | ⟨hge, he⟩
      · rw [he] at h
        simp only [true_or, not_true_eq_false, if_false, Except.ok.injEq, Prod.mk.injEq] at h
        exact Or.inr (Or.inl ⟨hu0, hlt, h.1.symm, h.2.1.symm⟩)
      · rw [he] at h
        simp only [one_ne_zero, or_true, not_true_eq_false, if_false, Except.ok.injEq,
          Prod.mk.injEq, h11] at h
        exact Or.inr (Or.inr ⟨hu0, hge, h.1.symm, h.2.1.symm⟩)


theorem serve_alloc_cslot (f : Nat → Nat → Nat) (a : allocator) :
    serve f (.alloc .alloc_cslot) a =
      .ok (if (allocator_alloc_cslot a).1 = 0 then [] else [(allocator_alloc_cslot a).1],
        (allocator_alloc_cslot a).2) := rfl

theorem serve_alloc_cslots (f : Nat → Nat → Nat) (a : allocator) (n : Int) :
    serve f (.alloc (.alloc_cslots n)) a =
      .ok (if (allocator_alloc_cslots a n).1 = 0 then []
        else List.range' (allocator_alloc_cslots a n).1 (to_ulong n),
        (allocator_alloc_cslots a n).2) := rfl

theorem serve_alloc_untyped (f : Nat → Nat → Nat) (a : allocator) (k : Nat) :
    serve f (.alloc (.alloc_untyped k)) a =
      match allocator_alloc_untyped a k with
      | .error e => .error e
      | .ok (r, a1, _) => .ok (if r = 0 then [] else [r], a1) := rfl

theorem serve_retype (f : Nat → Nat → Nat) (a : allocator) (u t s : Nat) (n : Int) :
    serve f (.alloc (.retype_untyped_memory u t s n)) a =
      match allocator_retype_untyped_memory a u t s n with
      | .error e => .error e
      | .ok (_, range, a1, _) => .ok (List.range' range.first range.count, a1) := rfl

theorem serve_alloc_kobject (f : Nat → Nat → Nat) (a : allocator) (t s : Nat) :
    serve f (.alloc_kobject t s) a =
      match allocator_alloc_kobject f a t s with
      | .error e => .error e
      | .ok (r, a1, _) => .ok (if r = 0 then [] else [r], a1) := rfl

theorem serve_add_root (f : Nat → Nat → Nat) (a : allocator) (cap k : Nat) :
    serve f (.add_root_untyped_item cap k) a =
      match allocator_add_root_untyped_item a cap k with
      | .error e => .error e
      | .ok a1 => .ok ([], a1) := rfl

theorem serve_reset (f : Nat → Nat → Nat) (a : allocator) :
    serve f .reset a =
      match allocator_reset a with
      | .error e => .error e
      | .ok (a1, _) => .ok ([], a1) := rfl

theorem serve_all_cons (f : Nat → Nat → Nat) (q : request) (rest : List request)
    (a : allocator) :
    serve_all f (q :: rest) a =
      match serve f q a with
      | .error e => .error e
      | .ok (hs, a1) =>
        match serve_all f rest a1 with
        | .error e => .error e
        | .ok (hs2, a2) => .ok (hs ++ hs2, a2) := rfl

/-- Slot accounting of one call. -/
theorem serve_counter (f : Nat → Nat → Nat) (q : request) (a a' : allocator) (hs : List Nat)
    (hv : valid_request q) (hc : counter_ok a) (h : serve f q a = .ok (hs, a')) :
    counter_ok a' ∧ a'.cslots = a.cslots ∧ (q = .reset → a'.num_slots_used = 0) ∧
      (q ≠ .reset → a.num_slots_used ≤ a'.num_slots_used) := by
  have hcc := hc
  unfold counter_ok at hcc
  cases q with
  | alloc o =>
    cases o with
    | alloc_cslot =>
      rw [serve_alloc_cslot] at h
      simp only [Except.ok.injEq, Prod.mk.injEq] at h
      rcases alloc_cslot_cond a with ⟨_, he⟩ | ⟨hne, he⟩
      · rw [he] at h
        rw [← h.2]
        exact ⟨hc, rfl, by simp, fun _ => le_refl _⟩
      · rw [he] at h
        rw [← h.2]
        have hfit : a.num_slots_used + 1 ≤ a.cslots.count := by
          unfold usub WORD at hne
          unfold WORD at hcc
          omega
        have hadd := counter_ok_add a 1 hc hfit
        refine ⟨?_, rfl, by simp, fun _ => ?_⟩
        · unfold counter_ok
          simp only [hadd]
          exact ⟨hfit, hcc.2⟩
        · simp only [hadd]
          omega
    | alloc_cslots n =>
      rw [serve_alloc_cslots] at h
      simp only [Except.ok.injEq, Prod.mk.injEq] at h
      rcases alloc_cslots_cond a n with ⟨_, he⟩ | ⟨hle, he⟩
      · rw [he] at h
        rw [← h.2]
        exact ⟨hc, rfl, by simp, fun _ => le_refl _⟩
      · rw [he] at h
        rw [← h.2]
        have hfit : a.num_slots_used + to_ulong n ≤ a.cslots.count := by
          unfold usub WORD at hle
          unfold WORD at hcc
          omega
        have hadd := counter_ok_add a (to_ulong n) hc hfit
        refine ⟨?_, rfl, by simp, fun _ => ?_⟩
        · unfold counter_ok
          simp only [hadd]
          exact ⟨hfit, hcc.2⟩
        · simp only [hadd]
          omega
    | alloc_untyped k =>
      rw [serve_alloc_untyped] at h
      cases hu : allocator_alloc_untyped a k with
      | error e => rw [hu] at h; simp at h
      | ok v =>
        obtain ⟨r, a1, cs⟩ := v
        rw [hu] at h
        simp only [Except.ok.injEq, Prod.mk.injEq] at h
        rw [← h.2]
        obtain ⟨c1, c2, c3⟩ := alloc_counter _ a k r a1 cs hu hc
        exact ⟨c1, c2, by simp, fun _ => c3⟩
    | retype_untyped_memory u t s n =>
      rw [serve_retype] at h
      have hn : 0 ≤ n := hv
      rcases retype_cond a u t s n with ⟨_, he⟩ | ⟨hle, he⟩
      · rw [he] at h
        simp only [Except.ok.injEq, Prod.mk.injEq] at h
        rw [← h.2]
        exact ⟨hc, rfl, by simp, fun _ => le_refl _⟩
      · rw [he] at h
        simp only [Except.ok.injEq, Prod.mk.injEq] at h
        rw [← h.2]
        have hfit := (retype_fits a n hc hn hle).1
        have hadd := counter_ok_add a (to_ulong n) hc hfit
        refine ⟨?_, rfl, by simp, fun _ => ?_⟩
        · unfold counter_ok
          simp only [hadd]
          exact ⟨hfit, hcc.2⟩
        · simp only [hadd]
          omega
  | alloc_kobject t s =>
    rw [serve_alloc_kobject] at h
    cases hk : allocator_alloc_kobject f a t s with
    | error e => rw [hk] at h; simp at h
    | ok v =>
      obtain ⟨r, a2, cs⟩ := v
      rw [hk] at h
      simp only [Except.ok.injEq, Prod.mk.injEq] at h
      rw [← h.2]
      obtain ⟨u, a1, cs1, hu, hcase⟩ := alloc_kobject_cases f a t s r a2 cs hk
      obtain ⟨c1, c2, c3⟩ := alloc_counter _ a (f t s) u a1 cs1 hu hc
      rcases hcase with ⟨_, _, e⟩ | ⟨_, _, _, e⟩ | ⟨_, hge, _, e⟩
      · rw [e]; exact ⟨c1, c2, by simp, fun _ => c3⟩
      · rw [e]; exact ⟨c1, c2, by simp, fun _ => c3⟩
      · rw [e]
        have hfit := (retype_fits a1 1 c1 (by decide) hge).1
        have h11 : to_ulong 1 = 1 := by decide
        rw [h11] at hfit
        have hadd := counter_ok_add a1 1 c1 hfit
        refine ⟨?_, c2, by simp, fun _ => ?_⟩
        · unfold counter_ok at c1 ⊢
          simp only [hadd]
          exact ⟨hfit, c1.2⟩
        · simp only [hadd]
          omega
  | add_root_untyped_item cap k =>
    rw [serve_add_root] at h
    cases hk : allocator_add_root_untyped_item a cap k with
    | error e => rw [hk] at h; simp at h
    | ok a1 =>
      rw [hk] at h
      simp only [Except.ok.injEq, Prod.mk.injEq] at h
      rw [← h.2, (add_root_shape a a1 cap k hk).1]
      exact ⟨hc, rfl, by simp, fun _ => le_refl _⟩
  | reset =>
    rw [serve_reset, reset_eq] at h
    simp only [Except.ok.injEq, Prod.mk.injEq] at h
    rw [← h.2]
    refine ⟨?_, rfl, fun _ => rfl, fun hne => absurd rfl hne⟩
    unfold counter_ok
    exact ⟨Nat.zero_le _, hcc.2⟩

/-- The window and the bound on the counter hold along a sequence of calls. -/
theorem serve_all_counter (f : Nat → Nat → Nat) (qs : List request) :
    ∀ (a a' : allocator) (hs : List Nat), (∀ q ∈ qs, valid_request q) → counter_ok a →
      serve_all f qs a = .ok (hs, a') → counter_ok a' ∧ a'.cslots = a.cslots := by
  induction qs with
  | nil =>
    intro a a' hs _ hc h
    unfold serve_all at h
    simp only [Except.ok.injEq, Prod.mk.injEq] at h
    rw [← h.2]
    exact ⟨hc, rfl⟩
  | cons q rest ih =>
    intro a a' hs hv hc h
    rw [serve_all_cons] at h
    cases h1 : serve f q a with
    | error e => rw [h1] at h; simp at h
    | ok v =>
      obtain ⟨hs1, a1⟩ := v
      rw [h1] at h
      simp only at h
      cases h2 : serve_all f rest a1 with
      | error e => rw [h2] at h; simp at h
      | ok w =>
        obtain ⟨hs2, a2⟩ := w
        rw [h2] at h
        simp only [Except.ok.injEq, Prod.mk.injEq] at h
        obtain ⟨c1, c2, _⟩ := serve_counter f q a a1 hs1 (hv q (List.mem_cons_self _ _)) hc h1
        obtain ⟨d1, d2⟩ := ih a1 a2 hs2 (fun x hx => hv x (List.mem_cons_of_mem _ hx)) c1 h2
        rw [← h.2]
        exact ⟨d1, by rw [d2, c2]⟩

/-- C19: slot-accounting invariant.  In every state reached from `allocator_create` (over
a window whose count is a machine word) by a sequence of `alloc_cslot`, `alloc_cslots`,
`retype_untyped_memory` with a non-negative count, `alloc_untyped`, `alloc_kobject`,
`add_root_untyped_item` and `reset` calls, the slot counter does not exceed the window
count, so the unsigned subtraction `count - consumed` is the true difference, and the
window is the created one; each further call keeps the window and the bound, `reset`
sets the counter to zero, and any other call does not decrease it. -/
theorem slot_accounting (f : Nat → Nat → Nat) (rc rd ro first n : Nat)
    (items : List untyped_item) (a0 a : allocator) (qs : List request) (hs : List Nat)
    (hn : n < WORD) (hcreate : allocator_create rc rd ro first n items = .ok a0)
    (hv : ∀ q ∈ qs, valid_request q) (hrun : serve_all f qs a0 = .ok (hs, a)) :
    a.num_slots_used ≤ a.cslots.count ∧
    slots_remaining a + a.num_slots_used = a.cslots.count ∧
    a.cslots = ⟨first, n⟩ ∧
    ∀ q hs' a', valid_request q → serve f q a = .ok (hs', a') →
      a'.num_slots_used ≤ a'.cslots.count ∧ a'.cslots = a.cslots ∧
      (q = .reset → a'.num_slots_used = 0) ∧
      (q ≠ .reset → a.num_slots_used ≤ a'.num_slots_used) := by
  have hsh := create_shape rc rd ro first n items a0 hcreate
  have hc0 : counter_ok a0 := by
    rw [hsh]
    unfold counter_ok
    exact ⟨Nat.zero_le _, hn⟩
  obtain ⟨hc, hwin⟩ := serve_all_counter f qs a0 a hs hv hc0 hrun
  refine ⟨hc.1, ?_, by rw [hwin, hsh], ?_⟩
  · unfold counter_ok WORD at hc
    unfold slots_remaining usub WORD
    omega
  · intro q hs' a' hq hserve
    obtain ⟨c1, c2, c3, c4⟩ := serve_counter f q a a' hs' hq hc hserve
    exact ⟨c1.1, c2, c3, c4⟩

theorem slot_accounting_witness :
    ex_accounted.num_slots_used ≤ ex_accounted.cslots.count ∧
    slots_remaining ex_accounted + ex_accounted.num_slots_used = ex_accounted.cslots.count ∧
    ex_accounted.cslots = ⟨10, 5⟩ ∧
    ∀ q hs' a', valid_request q → serve (fun _ _ => 4) q ex_accounted = .ok (hs', a') →
      a'.num_slots_used ≤ a'.cslots.count ∧ a'.cslots = ex_accounted.cslots ∧
      (q = .reset → a'.num_slots_used = 0) ∧
      (q ≠ .reset → ex_accounted.num_slots_used ≤ a'.num_slots_used) :=
  slot_accounting (fun _ _ => 4) 2 32 0 10 5 [⟨100, 6⟩]
    ⟨2, 32, 0, ⟨10, 5⟩, 0, [⟨100, 6, true⟩], empty_pools⟩ ex_accounted
    [.alloc .alloc_cslot, .alloc (.retype_untyped_memory 100 1 0 1), .reset,
      .alloc (.alloc_cslots 2)]
    [10, 11, 10, 11] (by decide) (by decide) (by decide) (by decide)

theorem pool_at_set (a : allocator) (i j : Nat) (p : cap_range) :
    pool_at { a with untyped_items := a.untyped_items.set i p } j =
      if j = i ∧ i < a.untyped_items.length then p else pool_at a j := by
  unfold pool_at
  simp only
  by_cases hji : j = i
  · subst hji
    by_cases hl : j < a.untyped_items.length
    · simp only [hl, and_self, if_true]
      exact getD_set_eq _ _ _ _ hl
    · simp only [hl, and_false, if_false]
      rw [List.getD_eq_default _ _ (by simp only [List.length_set]; omega),
        List.getD_eq_default _ _ (by omega)]
  · simp only [hji, false_and, if_false]
    exact getD_set_ne _ _ _ _ _ (fun h => hji h.symm)

/-- After a pool is set to an empty range, every non-empty pool is an old one at another
index. -/
theorem pool_at_cleared (a : allocator) (i j : Nat) (p : cap_range) (hp0 : p.count = 0)
    (h : (pool_at { a with untyped_items := a.untyped_items.set i p } j).count ≠ 0) :
    pool_at { a with untyped_items := a.untyped_items.set i p } j = pool_at a j ∧
      (i < a.untyped_items.length → j ≠ i) := by
  rw [pool_at_set] at h ⊢
  by_cases hc : j = i ∧ i < a.untyped_items.length
  · simp only [hc, and_self, if_true] at h
    exact absurd hp0 h
  · simp only [hc, if_false]
    exact ⟨trivial, fun hl hji => hc ⟨hji, hl⟩⟩

theorem handed_weaken (a : allocator) (H X : List Nat) (h : handed_inv a (H ++ X)) :
    handed_inv a H :=
  ⟨h.counter, h.word, h.no_wrap, h.pools, h.nodup.of_append_left,
    fun x hx => h.origin x (List.mem_append_left _ hx), h.roots_nodup, h.roots_outside,
    fun i hi => ⟨(h.pooled_in i hi).1, (h.pooled_in i hi).2.1,
      fun hm => (h.pooled_in i hi).2.2 (List.mem_append_left _ hm)⟩,
    h.pooled_distinct,
    fun it hit hf hm => h.free_fresh it hit hf (List.mem_append_left _ hm)⟩

/-- Consuming `m` further slots and handing out caps from among them. -/
theorem handed_bump (a : allocator) (H X : List Nat) (m : Nat) (hinv : handed_inv a H)
    (hfit : a.num_slots_used + m ≤ a.cslots.count) (hX : X.Nodup)
    (hXin : ∀ x ∈ X, window_base a + a.num_slots_used ≤ x ∧
      x < window_base a + a.num_slots_used + m) :
    handed_inv { a with num_slots_used := a.num_slots_used + m } (H ++ X) := by
  have hnw := hinv.no_wrap
  have hdisj : ∀ x ∈ X, x ∉ H := by
    intro x hx hxH
    have hxin := hXin x hx
    rcases hinv.origin x hxH with ⟨_, h2⟩ | ⟨it, hit, _, hcap⟩
    · omega
    · have := hinv.roots_outside it hit
      rw [hcap] at this
      omega
  refine ⟨hfit, hinv.word, hinv.no_wrap, hinv.pools, ?_, ?_, hinv.roots_nodup,
    hinv.roots_outside, ?_, hinv.pooled_distinct, ?_⟩
  · exact List.Nodup.append hinv.nodup hX (fun x hxH hxX => hdisj x hxX hxH)
  · intro h hh
    show (window_base a ≤ h ∧ h < window_base a + (a.num_slots_used + m)) ∨
      ∃ it ∈ a.init_untyped_items, it.is_free = false ∧ it.cap = h
    rcases List.mem_append.1 hh with h1 | h2
    · rcases hinv.origin h h1 with ⟨o1, o2⟩ | o
      · exact Or.inl ⟨o1, by omega⟩
      · exact Or.inr o
    · have := hXin h h2
      exact Or.inl ⟨by omega, by omega⟩
  · intro i hi
    obtain ⟨p1, p2, p3⟩ := hinv.pooled_in i hi
    refine ⟨p1, ?_, ?_⟩
    · show (pool_at a i).first < window_base a + (a.num_slots_used + m)
      omega
    · intro hm
      rcases List.mem_append.1 hm with h1 | h2
      · exact p3 h1
      · have h2' : (pool_at a i).first ∈ X := h2
        have := hXin _ h2'
        omega
  · intro it hit hf hm
    rcases List.mem_append.1 hm with h1 | h2
    · exact hinv.free_fresh it hit hf h1
    · have := hXin _ h2
      have := hinv.roots_outside it hit
      omega

/-- Setting a pool to an empty range. -/
theorem handed_clear (a : allocator) (H : List Nat) (i : Nat) (p : cap_range)
    (hinv : handed_inv a H) (hp0 : p.count = 0) :
    handed_inv { a with untyped_items := a.untyped_items.set i p } H := by
  refine ⟨hinv.counter, hinv.word, hinv.no_wrap, pools_ok_set a i p hinv.pools (Or.inl hp0),
    hinv.nodup, hinv.origin, hinv.roots_nodup, hinv.roots_outside, ?_, ?_, hinv.free_fresh⟩
  · intro j hj
    have e := (pool_at_cleared a i j p hp0 hj).1
    rw [e] at hj ⊢
    exact hinv.pooled_in j hj
  · intro j1 j2 hne h1 h2
    have e1 := (pool_at_cleared a i j1 p hp0 h1).1
    have e2 := (pool_at_cleared a i j2 p hp0 h2).1
    rw [e1] at h1 ⊢
    rw [e2] at h2 ⊢
    exact hinv.pooled_distinct j1 j2 hne h1 h2

/-- Handing out a consumed slot that no pool holds. -/
theorem handed_add (a : allocator) (H : List Nat) (x : Nat) (hinv : handed_inv a H)
    (hx : x ∉ H) (hw : window_base a ≤ x ∧ x < window_base a + a.num_slots_used)
    (hpool : ∀ j, (pool_at a j).count ≠ 0 → (pool_at a j).first ≠ x) :
    handed_inv a (H ++ [x]) := by
  have hc := hinv.counter
  refine ⟨hinv.counter, hinv.word, hinv.no_wrap, hinv.pools, ?_, ?_, hinv.roots_nodup,
    hinv.roots_outside, ?_, hinv.pooled_distinct, ?_⟩
  · refine List.Nodup.append hinv.nodup (List.nodup_singleton x) ?_
    intro y hyH hyX
    rw [List.mem_singleton] at hyX
    exact hx (hyX ▸ hyH)
  · intro h hh
    rcases List.mem_append.1 hh with h1 | h2
    · exact hinv.origin h h1
    · rw [List.mem_singleton] at h2
      rw [h2]
      exact Or.inl hw
  · intro i hi
    obtain ⟨p1, p2, p3⟩ := hinv.pooled_in i hi
    refine ⟨p1, p2, ?_⟩
    intro hm
    rcases List.mem_append.1 hm with h1 | h2
    · exact p3 h1
    · rw [List.mem_singleton] at h2
      exact hpool i hi h2
  · intro it hit hf hm
    rcases List.mem_append.1 hm with h1 | h2
    · exact hinv.free_fresh it hit hf h1
    · rw [List.mem_singleton] at h2
      have := hinv.roots_outside it hit
      omega

/-- Putting a consumed slot that was not handed out into a pool. -/
theorem handed_put (a : allocator) (H : List Nat) (i : Nat) (p : cap_range)
    (hinv : handed_inv a H) (hc : p.count = 1) (h0 : 0 < p.first) (hW : p.first < WORD)
    (hw : window_base a ≤ p.first ∧ p.first < window_base a + a.num_slots_used)
    (hx : p.first ∉ H)
    (hpool : ∀ j, (pool_at a j).count ≠ 0 → (pool_at a j).first ≠ p.first) :
    handed_inv { a with untyped_items := a.untyped_items.set i p } H := by
  refine ⟨hinv.counter, hinv.word, hinv.no_wrap,
    pools_ok_set a i p hinv.pools (Or.inr ⟨hc, h0, hW⟩),
    hinv.nodup, hinv.origin, hinv.roots_nodup, hinv.roots_outside, ?_, ?_, hinv.free_fresh⟩
  · intro j hj
    rw [pool_at_set] at hj ⊢
    by_cases hcase : j = i ∧ i < a.untyped_items.length
    · rw [if_pos hcase]
      exact ⟨hw.1, hw.2, hx⟩
    · rw [if_neg hcase] at hj ⊢
      exact hinv.pooled_in j hj
  · intro j1 j2 hne h1 h2
    rw [pool_at_set] at h1 h2 ⊢
    rw [pool_at_set]
    by_cases c1 : j1 = i ∧ i < a.untyped_items.length
    · by_cases c2 : j2 = i ∧ i < a.untyped_items.length
      · exact absurd (c1.1.trans c2.1.symm) hne
      · rw [if_neg c2] at h2 ⊢
        rw [if_pos c1]
        exact fun e => hpool j2 h2 e.symm
    · by_cases c2 : j2 = i ∧ i < a.untyped_items.length
      · rw [if_neg c1] at h1 ⊢
        rw [if_pos c2]
        exact hpool j1 h1
      · rw [if_neg c1] at h1 ⊢
        rw [if_neg c2] at h2 ⊢
        exact hinv.pooled_distinct j1 j2 hne h1 h2

theorem scan_roots_decomp (l l' : List init_untyped_item) (k c : Nat)
    (h : scan_roots l k = some (c, l')) :
    ∃ pre it post, l = pre ++ it :: post ∧
      l' = pre ++ { it with is_free := false } :: post ∧ it.cap = c ∧ it.is_free = true := by
  induction l generalizing l' c with
  | nil => simp [scan_roots] at h
  | cons x rest ih =>
    unfold scan_roots at h
    by_cases hc : x.is_free = true ∧ x.size_bits = k
    · rw [if_pos hc] at h
      simp only [Option.some.injEq, Prod.mk.injEq] at h
      exact ⟨[], x, rest, rfl, h.2.symm, h.1, hc.1⟩
    · rw [if_neg hc] at h
      cases hs : scan_roots rest k with
      | none => rw [hs] at h; cases h
      | some v =>
        obtain ⟨c1, rest1⟩ := v
        rw [hs] at h
        simp only [Option.some.injEq, Prod.mk.injEq] at h
        obtain ⟨pre, it, post, e1, e2, e3, e4⟩ := ih rest1 c1 hs
        refine ⟨x :: pre, it, post, by rw [e1]; rfl, ?_, by rw [e3]; exact h.1, e4⟩
        rw [← h.2, e2]
        rfl

/-- Taking an available root item. -/
theorem handed_root (a : allocator) (H : List Nat) (k c : Nat) (l' : List init_untyped_item)
    (hinv : handed_inv a H) (h : scan_roots a.init_untyped_items k = some (c, l')) :
    handed_inv { a with init_untyped_items := l' } (if c = 0 then H else H ++ [c]) := by
  obtain ⟨pre, it, post, e1, e2, e3, e4⟩ := scan_roots_decomp _ _ _ _ h
  have hit : it ∈ a.init_untyped_items := by rw [e1]; simp
  have hcH : c ∉ H := by rw [← e3]; exact hinv.free_fresh it hit e4
  have hout := hinv.roots_outside it hit
  rw [e3] at hout
  have hnd := hinv.roots_nodup
  rw [e1, List.map_append, List.map_cons] at hnd
  have hmap : l'.map (fun x => x.cap) = a.init_untyped_items.map (fun x => x.cap) := by
    rw [e1, e2]
    simp
  have hmem : ∀ x ∈ l', x ∈ a.init_untyped_items ∨ x = { it with is_free := false } := by
    intro x hx
    rw [e2] at hx
    rw [e1]
    simp only [List.mem_append, List.mem_cons] at hx ⊢
    rcases hx with hx | hx | hx
    · exact Or.inl (Or.inl hx)
    · exact Or.inr hx
    · exact Or.inl (Or.inr (Or.inr hx))
  have hfree : ∀ x ∈ l', x.is_free = true → x ∈ a.init_untyped_items ∧ x.cap ≠ c := by
    intro x hx hf
    rw [e2] at hx
    simp only [List.mem_append, List.mem_cons] at hx
    rw [List.nodup_append] at hnd
    obtain ⟨_, n2, n3⟩ := hnd
    rw [List.nodup_cons] at n2
    rcases hx with hx | hx | hx
    · refine ⟨by rw [e1]; simp [hx], ?_⟩
      intro hcap
      exact n3 (List.mem_map.2 ⟨x, hx, rfl⟩) (by rw [hcap, ← e3]; simp)
    · rw [hx] at hf
      simp at hf
    · refine ⟨by rw [e1]; simp [hx], ?_⟩
      intro hcap
      exact n2.1 (by rw [e3, ← hcap]; exact List.mem_map.2 ⟨x, hx, rfl⟩)
  have hH : ∀ y, y ∈ (if c = 0 then H else H ++ [c]) → y ∈ H ∨ y = c := by
    intro y hy
    by_cases hc0 : c = 0
    · rw [if_pos hc0] at hy
      exact Or.inl hy
    · rw [if_neg hc0] at hy
      rcases List.mem_append.1 hy with h1 | h2
      · exact Or.inl h1
      · exact Or.inr (List.mem_singleton.1 h2)
  refine ⟨hinv.counter, hinv.word, hinv.no_wrap, hinv.pools, ?_, ?_, ?_, ?_, ?_,
    hinv.pooled_distinct, ?_⟩
  · by_cases hc0 : c = 0
    · rw [if_pos hc0]
      exact hinv.nodup
    · rw [if_neg hc0]
      refine List.Nodup.append hinv.nodup (List.nodup_singleton c) ?_
      intro y hyH hyX
      rw [List.mem_singleton] at hyX
      exact hcH (hyX ▸ hyH)
  · intro y hy
    show (window_base a ≤ y ∧ y < window_base a + a.num_slots_used) ∨
      ∃ x ∈ l', x.is_free = false ∧ x.cap = y
    rcases hH y hy with h1 | h2
    · rcases hinv.origin y h1 with o | ⟨x, hx, hxf, hxc⟩
      · exact Or.inl o
      · refine Or.inr ⟨x, ?_, hxf, hxc⟩
        rw [e1] at hx
        rw [e2]
        simp only [List.mem_append, List.mem_cons] at hx ⊢
        rcases hx with hx | hx | hx
        · exact Or.inl hx
        · rw [hx, e4] at hxf
          cases hxf
        · exact Or.inr (Or.inr hx)
    · refine Or.inr ⟨{ it with is_free := false }, by rw [e2]; simp, rfl, ?_⟩
      rw [h2]
      exact e3
  · show (l'.map (fun x => x.cap)).Nodup
    rw [hmap]
    exact hinv.roots_nodup
  · intro x hx
    show x.cap < window_base a ∨ window_base a + a.cslots.count ≤ x.cap
    rcases hmem x hx with h1 | h2
    · exact hinv.roots_outside x h1
    · rw [h2]
      show it.cap < window_base a ∨ window_base a + a.cslots.count ≤ it.cap
      rw [e3]
      exact hout
  · intro i hi
    obtain ⟨p1, p2, p3⟩ := hinv.pooled_in i hi
    refine ⟨p1, p2, ?_⟩
    intro hm
    rcases hH _ hm with h1 | h2
    · exact p3 h1
    · have p1' : window_base a ≤ (pool_at a i).first := p1
      have p2' : (pool_at a i).first < window_base a + a.num_slots_used := p2
      have h2' : (pool_at a i).first = c := h2
      have := hinv.counter
      omega
  · intro x hx hf hm
    obtain ⟨hxa, hxc⟩ := hfree x hx hf
    rcases hH _ hm with h1 | h2
    · exact hinv.free_fresh x hxa hf h1
    · exact hxc h2

theorem next_slot_eq (a : allocator) (hnw : window_base a + a.cslots.count ≤ WORD)
    (hlt : a.num_slots_used < a.cslots.count) :
    next_slot a = window_base a + a.num_slots_used := by
  unfold window_base WORD at *
  unfold next_slot uadd WORD
  omega

theorem range_alloc_rest (p pool1 : cap_range) (res : Nat) (hp : pool_ok p)
    (h : range_alloc p 1 = .ok (res, pool1)) : pool1.count = 0 := by
  rcases range_alloc_cases _ _ _ hp h with ⟨h1, _, h3⟩ | ⟨_, _, _, h3⟩
  · rw [h3]; exact h1
  · rw [h3]

/-- The invariant of the handed caps through `alloc_untyped`: the returned cap, if any,
is a new one; the items taken for the splits are not handed out. -/
theorem alloc_handed (fuel : Nat) (a : allocator) (k r : Nat) (a' : allocator)
    (cs : List kernel_call) (h : alloc_untyped_fuel fuel a k = .ok (r, a', cs)) :
    ∀ H, handed_inv a H → handed_inv a' (if r = 0 then H else H ++ [r]) := by
  revert h
  refine alloc_induct
    (P := fun k a r a' _ => ∀ H, handed_inv a H →
      handed_inv a' (if r = 0 then H else H ++ [r]))
    ?_ ?_ ?_ ?_ ?_ fuel a k r a' cs
  · intro a k _ H hinv
    rw [if_pos rfl]
    exact hinv
  · intro a k res pool1 h1 h2 hra hres H hinv
    rw [if_neg hres]
    have hp0 := range_alloc_rest _ _ _ (pool_of_ok a k hinv.pools) hra
    rcases range_alloc_cases _ _ _ (pool_of_ok a k hinv.pools) hra with
      ⟨_, h0, _⟩ | ⟨hc, hr, _, _⟩
    · exact absurd h0 hres
    · have hcl := handed_clear a H (k - MIN_UNTYPED_SIZE) pool1 hinv hp0
      have hcnt : (pool_at a (k - MIN_UNTYPED_SIZE)).count ≠ 0 := by
        show (pool_of a k).count ≠ 0
        omega
      obtain ⟨p1, p2, p3⟩ := hinv.pooled_in _ hcnt
      have hlen := pool_index_lt a k hinv.pools h2
      have hr' : res = (pool_at a (k - MIN_UNTYPED_SIZE)).first := hr
      refine handed_add _ H res hcl ?_ ?_ ?_
      · rw [hr']; exact p3
      · rw [hr']; exact ⟨p1, p2⟩
      · intro j hj
        obtain ⟨e, hne⟩ := pool_at_cleared a _ j pool1 hp0 hj
        rw [e] at hj ⊢
        rw [hr']
        exact hinv.pooled_distinct j _ (hne hlen) hj hcnt
  · intro a k pool1 c items1 h1 h2 hra hsc H hinv
    have hp0 := range_alloc_rest _ _ _ (pool_of_ok a k hinv.pools) hra
    have hcl := handed_clear a H (k - MIN_UNTYPED_SIZE) pool1 hinv hp0
    exact handed_root _ H k c items1 hcl hsc
  · intro a k pool1 a2 calls h1 h2 hra hsc ih H hinv
    have hp0 := range_alloc_rest _ _ _ (pool_of_ok a k hinv.pools) hra
    have := ih H (handed_clear a H _ pool1 hinv hp0)
    rw [if_pos rfl] at this ⊢
    exact this
  · intro a k pool1 big a2 calls r a' cs h1 h2 hra hsc ih hbig hsp H hinv
    have hp0 := range_alloc_rest _ _ _ (pool_of_ok a k hinv.pools) hra
    have hi2 := ih H (handed_clear a H _ pool1 hinv hp0)
    rw [if_neg hbig] at hi2
    have hinv2 := handed_weaken a2 H [big] hi2
    rcases split_step_cases _ _ _ _ _ _ _ hsp with
      ⟨_, hr0, _, ha'⟩ | ⟨hge, hn0, hrne, hreq, _, ha'⟩
    · subst ha'
      rw [hr0, if_pos rfl]
      exact handed_clear a2 H _ ⟨0, 0⟩ hinv2 rfl
    · rw [if_neg hrne]
      have hco : counter_ok a2 := ⟨hinv2.counter, hinv2.word⟩
      have hfit := (retype_fits a2 2 hco (by decide) hge).1
      have h22 : to_ulong 2 = 2 := by decide
      rw [h22] at hfit
      have hadd := counter_ok_add a2 2 hco hfit
      have hnext := next_slot_eq a2 hinv2.no_wrap (by omega)
      have hnw := hinv2.no_wrap
      have hreq' : r = window_base a2 + a2.num_slots_used + 1 := by
        rw [hreq, hnext]
        unfold WORD at hnw
        unfold uadd WORD
        omega
      have hb := handed_bump a2 H [r] 2 hinv2 hfit (List.nodup_singleton r)
        (by intro x hx; rw [List.mem_singleton] at hx; omega)
      subst ha'
      rw [hadd, hnext]
      refine handed_put { a2 with num_slots_used := a2.num_slots_used + 2 } (H ++ [r])
        (k - MIN_UNTYPED_SIZE) ⟨window_base a2 + a2.num_slots_used, 1⟩ hb rfl ?_ ?_ ?_ ?_ ?_
      · rw [← hnext]
        exact Nat.pos_of_ne_zero hn0
      · rw [← hnext]
        exact next_slot_lt a2
      · show window_base a2 ≤ window_base a2 + a2.num_slots_used ∧
          window_base a2 + a2.num_slots_used < window_base a2 + (a2.num_slots_used + 2)
        omega
      · show window_base a2 + a2.num_slots_used ∉ H ++ [r]
        intro hm
        rcases List.mem_append.1 hm with hm1 | hm2
        · rcases hinv2.origin _ hm1 with ⟨_, o2⟩ | ⟨it, hit, _, hcap⟩
          · omega
          · have := hinv2.roots_outside it hit
            omega
        · rw [List.mem_singleton] at hm2
          omega
      · intro j hj
        have hj' : (pool_at a2 j).count ≠ 0 := hj
        obtain ⟨_, p2, _⟩ := hinv2.pooled_in j hj'
        show (pool_at a2 j).first ≠ window_base a2 + a2.num_slots_used
        omega

theorem opt_nodup (r : Nat) : (if r = 0 then [] else [r] : List Nat).Nodup := by
  split
  · exact List.nodup_nil
  · exact List.nodup_singleton r

theorem opt_mem (r x : Nat) (h : x ∈ (if r = 0 then [] else [r] : List Nat)) : x = r := by
  split at h
  · cases h
  · exact List.mem_singleton.1 h

theorem opt_range_nodup (r m : Nat) :
    (if r = 0 then [] else List.range' r m : List Nat).Nodup := by
  split
  · exact List.nodup_nil
  · exact List.nodup_range' r m

theorem opt_range_mem (r m x : Nat) (h : x ∈ (if r = 0 then [] else List.range' r m : List Nat)) :
    r ≤ x ∧ x < r + m := by
  split at h
  · cases h
  · exact List.mem_range'_1.1 h

theorem handed_opt (a : allocator) (H : List Nat) (r : Nat)
    (h : handed_inv a (if r = 0 then H else H ++ [r])) : handed_inv a H := by
  by_cases hr : r = 0
  · rw [if_pos hr] at h
    exact h
  · rw [if_neg hr] at h
    exact handed_weaken a H [r] h

/-- Consuming the next slot for one object or one slot request. -/
theorem handed_next (a : allocator) (H : List Nat) (hinv : handed_inv a H)
    (hfit : a.num_slots_used + 1 ≤ a.cslots.count) :
    handed_inv { a with num_slots_used := uadd a.num_slots_used 1 }
      (H ++ if next_slot a = 0 then [] else [next_slot a]) := by
  have hco : counter_ok a := ⟨hinv.counter, hinv.word⟩
  rw [counter_ok_add a 1 hco hfit]
  have hnext := next_slot_eq a hinv.no_wrap (by omega)
  refine handed_bump a H _ 1 hinv hfit (opt_nodup _) ?_
  intro x hx
  have := opt_mem _ _ hx
  omega

/-- Consuming the next `m` slots for a range. -/
theorem handed_range (a : allocator) (H : List Nat) (m : Nat) (hinv : handed_inv a H)
    (hfit : a.num_slots_used + m ≤ a.cslots.count) :
    handed_inv { a with num_slots_used := uadd a.num_slots_used m }
      (H ++ List.range' (next_slot a) m) := by
  have hco : counter_ok a := ⟨hinv.counter, hinv.word⟩
  rw [counter_ok_add a m hco hfit]
  refine handed_bump a H _ m hinv hfit (List.nodup_range' _ _) ?_
  intro x hx
  have hx' := List.mem_range'_1.1 hx
  have hnext := next_slot_eq a hinv.no_wrap (by omega)
  omega

/-- The invariant of the handed caps through one call of an epoch. -/
theorem serve_handed (f : Nat → Nat → Nat) (q : request) (a a' : allocator)
    (H hs : List Nat) (hq : epoch_request q) (hinv : handed_inv a H)
    (h : serve f q a = .ok (hs, a')) : handed_inv a' (H ++ hs) := by
  have hco : counter_ok a := ⟨hinv.counter, hinv.word⟩
  have hcc := hco
  unfold counter_ok at hcc
  cases q with
  | alloc o =>
    cases o with
    | alloc_cslot =>
      rw [serve_alloc_cslot] at h
      simp only [Except.ok.injEq, Prod.mk.injEq] at h
      rcases alloc_cslot_cond a with ⟨_, he⟩ | ⟨hne, he⟩
      · rw [he] at h
        rw [← h.2, ← h.1]
        simpa using hinv
      · rw [he] at h
        rw [← h.2, ← h.1]
        have hfit : a.num_slots_used + 1 ≤ a.cslots.count := by
          unfold usub WORD at hne
          unfold WORD at hcc
          omega
        exact handed_next a H hinv hfit
    | alloc_cslots n =>
      rw [serve_alloc_cslots] at h
      simp only [Except.ok.injEq, Prod.mk.injEq] at h
      rcases alloc_cslots_cond a n with ⟨_, he⟩ | ⟨hle, he⟩
      · rw [he] at h
        rw [← h.2, ← h.1]
        simpa using hinv
      · rw [he] at h
        rw [← h.2, ← h.1]
        have hfit : a.num_slots_used + to_ulong n ≤ a.cslots.count := by
          unfold usub WORD at hle
          unfold WORD at hcc
          omega
        have hr := handed_range a H (to_ulong n) hinv hfit
        by_cases h0 : next_slot a = 0
        · simp only [h0, if_true, List.append_nil]
          exact handed_weaken _ H _ hr
        · simp only [h0, if_false]
          exact hr
    | alloc_untyped k =>
      rw [serve_alloc_untyped] at h
      cases hu : allocator_alloc_untyped a k with
      | error e => rw [hu] at h; simp at h
      | ok v =>
        obtain ⟨r, a1, cs⟩ := v
        rw [hu] at h
        simp only [Except.ok.injEq, Prod.mk.injEq] at h
        rw [← h.2, ← h.1]
        have := alloc_handed _ a k r a1 cs hu H hinv
        by_cases h0 : r = 0
        · simpa [h0] using this
        · simpa [h0] using this
    | retype_untyped_memory u t s n =>
      rw [serve_retype] at h
      have hn : 0 ≤ n := hq
      rcases retype_cond a u t s n with ⟨_, he⟩ | ⟨hle, he⟩
      · rw [he] at h
        simp only [Except.ok.injEq, Prod.mk.injEq] at h
        rw [← h.2, ← h.1]
        simpa using hinv
      · rw [he] at h
        simp only [Except.ok.injEq, Prod.mk.injEq] at h
        rw [← h.2, ← h.1]
        exact handed_range a H (to_ulong n) hinv (retype_fits a n hco hn hle).1
  | alloc_kobject t s =>
    rw [serve_alloc_kobject] at h
    cases hk : allocator_alloc_kobject f a t s with
    | error e => rw [hk] at h; simp at h
    | ok v =>
      obtain ⟨r, a2, cs⟩ := v
      rw [hk] at h
      simp only [Except.ok.injEq, Prod.mk.injEq] at h
      rw [← h.2, ← h.1]
      obtain ⟨u, a1, cs1, hu, hcase⟩ := alloc_kobject_cases f a t s r a2 cs hk
      have hinv1 := handed_opt a1 H u (alloc_handed _ a (f t s) u a1 cs1 hu H hinv)
      rcases hcase with ⟨_, hr, e⟩ | ⟨_, _, hr, e⟩ | ⟨_, hge, hr, e⟩
      · rw [e, hr]
        simpa using hinv1
      · rw [e, hr]
        simpa using hinv1
      · rw [e, hr]
        have hfit := (retype_fits a1 1 ⟨hinv1.counter, hinv1.word⟩ (by decide) hge).1
        have h11 : to_ulong 1 = 1 := by decide
        rw [h11] at hfit
        exact handed_next a1 H hinv1 hfit
  | add_root_untyped_item cap k => exact False.elim hq
  | reset => exact False.elim hq

/-- The invariant of the handed caps along the calls of an epoch. -/
theorem serve_all_handed (f : Nat → Nat → Nat) (qs : List request) :
    ∀ (a a' : allocator) (H hs : List Nat), (∀ q ∈ qs, epoch_request q) → handed_inv a H →
      serve_all f qs a = .ok (hs, a') → handed_inv a' (H ++ hs) := by
  induction qs with
  | nil =>
    intro a a' H hs _ hinv h
    unfold serve_all at h
    simp only [Except.ok.injEq, Prod.mk.injEq] at h
    rw [← h.2, ← h.1, List.append_nil]
    exact hinv
  | cons q rest ih =>
    intro a a' H hs hv hinv h
    rw [serve_all_cons] at h
    cases h1 : serve f q a with
    | error e => rw [h1] at h; simp at h
    | ok v =>
      obtain ⟨hs1, a1⟩ := v
      rw [h1] at h
      simp only at h
      cases h2 : serve_all f rest a1 with
      | error e => rw [h2] at h; simp at h
      | ok w =>
        obtain ⟨hs2, a2⟩ := w
        rw [h2] at h
        simp only [Except.ok.injEq, Prod.mk.injEq] at h
        have c1 := serve_handed f q a a1 H hs1 (hv q (List.mem_cons_self _ _)) hinv h1
        have c2 := ih a1 a2 (H ++ hs1) hs2 (fun x hx => hv x (List.mem_cons_of_mem _ hx)) c1 h2
        rw [← h.2, ← h.1, ← List.append_assoc]
        exact c2

theorem empty_pool_at (i : Nat) : (empty_pools.getD i ⟨0, 0⟩).count = 0 := by
  by_cases h : i < empty_pools.length
  · rw [List.getD_eq_getElem _ _ h]
    have : empty_pools[i] ∈ empty_pools := List.getElem_mem _
    rw [List.eq_of_mem_replicate this]
  · rw [List.getD_eq_default _ _ (by omega)]

/-- A created allocator whose root caps are pairwise distinct and outside its window,
with nothing handed out yet. -/
theorem create_handed (rc rd ro first n : Nat) (items : List untyped_item) (a0 : allocator)
    (hdist : (items.map (fun it => it.cap)).Nodup)
    (hout : ∀ it ∈ items, it.cap < first + ro ∨ first + ro + n ≤ it.cap)
    (hn : n < WORD) (hwrap : first + ro + n ≤ WORD)
    (hcreate : allocator_create rc rd ro first n items = .ok a0) : handed_inv a0 [] := by
  rw [create_shape rc rd ro first n items a0 hcreate]
  refine ⟨Nat.zero_le _, hn, hwrap, empty_pools_ok _ rfl, List.nodup_nil, ?_, ?_, ?_, ?_, ?_, ?_⟩
  · intro h hh
    cases hh
  · show ((items.map (fun it => (⟨it.cap, it.size_bits, true⟩ : init_untyped_item))).map
      (fun it => it.cap)).Nodup
    rw [List.map_map]
    exact hdist
  · intro it hit
    simp only [List.mem_map] at hit
    obtain ⟨x, hx, hxe⟩ := hit
    rw [← hxe]
    exact hout x hx
  · intro i hi
    exact absurd (empty_pool_at i) hi
  · intro i j _ hi
    exact absurd (empty_pool_at i) hi
  · intro it _ _ hm
    cases hm

/-- C18: no cap is handed out twice within an epoch.  For an allocator created with
pairwise distinct root caps (non-null, or `allocator_create` stops) none of which lies in
the cap range of its slot window, over a window that does not wrap around, in every
sequence of `alloc_cslot`, `alloc_cslots`, `alloc_untyped`, `alloc_kobject` and
`retype_untyped_memory` calls (object counts non-negative) with no reset in between, the
slots and untyped caps handed to the caller, call after call, are pairwise distinct: no
slot and no untyped cap is returned by two calls, nor twice by one. -/
theorem handles_never_repeat (f : Nat → Nat → Nat) (rc rd ro first n : Nat)
    (items : List untyped_item) (a0 a : allocator) (qs : List request) (hs : List Nat)
    (hdist : (items.map (fun it => it.cap)).Nodup)
    (hout : ∀ it ∈ items, it.cap < first + ro ∨ first + ro + n ≤ it.cap)
    (hn : n < WORD) (hwrap : first + ro + n ≤ WORD)
    (hcreate : allocator_create rc rd ro first n items = .ok a0)
    (hq : ∀ q ∈ qs, epoch_request q)
    (hrun : serve_all f qs a0 = .ok (hs, a)) : hs.Nodup := by
  have h0 := create_handed rc rd ro first n items a0 hdist hout hn hwrap hcreate
  have h1 := serve_all_handed f qs a0 a [] hs hq h0 hrun
  rw [List.nil_append] at h1
  exact h1.nodup

theorem handles_never_repeat_witness :
    serve_all (fun _ _ => 4)
        [.alloc .alloc_cslot, .alloc (.alloc_untyped 5),
          .alloc (.retype_untyped_memory 13 1 0 1), .alloc (.alloc_cslots 1),
          .alloc_kobject 1 0]
        ⟨2, 32, 0, ⟨10, 8⟩, 0, [⟨100, 6, true⟩, ⟨101, 4, true⟩], empty_pools⟩ =
      .ok ([10, 12, 13, 14, 15], ex_epoch) ∧
    ([10, 12, 13, 14, 15] : List Nat).Nodup :=
  ⟨by decide,
    handles_never_repeat (fun _ _ => 4) 2 32 0 10 8 [⟨100, 6⟩, ⟨101, 4⟩]
      ⟨2, 32, 0, ⟨10, 8⟩, 0, [⟨100, 6, true⟩, ⟨101, 4, true⟩], empty_pools⟩ ex_epoch
      [.alloc .alloc_cslot, .alloc (.alloc_untyped 5),
        .alloc (.retype_untyped_memory 13 1 0 1), .alloc (.alloc_cslots 1),
        .alloc_kobject 1 0]
      [10, 12, 13, 14, 15] (by decide) (by decide) (by decide) (by decide) (by decide)
      (by decide) (by decide)⟩

theorem alloc_fuel_add (n fuel : Nat) (a : allocator) (k : Nat)
    (hf : MAX_UNTYPED_SIZE + 2 ≤ k + fuel) (hf1 : 1 ≤ fuel) :
    alloc_untyped_fuel (fuel + n) a k = alloc_untyped_fuel fuel a k := by
  induction n with
  | zero => rfl
  | succ n ih =>
    rw [← Nat.add_assoc, alloc_fuel_stable (fuel + n) a k (by omega) (by omega)]
    exact ih

/-- The splits of one call: at most `MAX_UNTYPED_SIZE - k` retypes, each of one item of a
class above `k` into two items of the class below it. -/
theorem alloc_splits_bound (fuel : Nat) (a : allocator) (k r : Nat) (a' : allocator)
    (cs : List kernel_call) (h : alloc_untyped_fuel fuel a k = .ok (r, a', cs)) :
    cs.length ≤ MAX_UNTYPED_SIZE - k ∧ (r ≠ 0 → k ≤ MAX_UNTYPED_SIZE) ∧
    ∀ c ∈ cs, ∃ big j rc rd off,
      c = .Untyped_Retype big seL4_UntypedObject j rc rd off 2 ∧ k ≤ j ∧
        j < MAX_UNTYPED_SIZE := by
  revert h
  refine alloc_induct
    (P := fun k _ r _ cs => cs.length ≤ MAX_UNTYPED_SIZE - k ∧ (r ≠ 0 → k ≤ MAX_UNTYPED_SIZE) ∧
      ∀ c ∈ cs, ∃ big j rc rd off,
        c = .Untyped_Retype big seL4_UntypedObject j rc rd off 2 ∧ k ≤ j ∧
          j < MAX_UNTYPED_SIZE)
    ?_ ?_ ?_ ?_ ?_ fuel a k r a' cs
  · intro a k _
    exact ⟨Nat.zero_le _, fun h => absurd rfl h, fun c hc => by cases hc⟩
  · intro a k res pool1 _ h2 _ _
    exact ⟨Nat.zero_le _, fun _ => h2, fun c hc => by cases hc⟩
  · intro a k pool1 c items1 _ h2 _ _
    exact ⟨Nat.zero_le _, fun _ => h2, fun c hc => by cases hc⟩
  · intro a k pool1 a2 calls _ h2 _ _ ih
    obtain ⟨i1, _, i3⟩ := ih
    refine ⟨by omega, fun _ => h2, ?_⟩
    intro c hc
    obtain ⟨big, j, rc, rd, off, e, e1, e2⟩ := i3 c hc
    exact ⟨big, j, rc, rd, off, e, by omega, e2⟩
  · intro a k pool1 big a2 calls r a' cs _ h2 _ _ ih hbig hsp
    obtain ⟨i1, i2, i3⟩ := ih
    have hk := i2 hbig
    have hold : ∀ c ∈ calls, ∃ big j rc rd off,
        c = .Untyped_Retype big seL4_UntypedObject j rc rd off 2 ∧ k ≤ j ∧
          j < MAX_UNTYPED_SIZE := by
      intro c hc
      obtain ⟨big, j, rc, rd, off, e, e1, e2⟩ := i3 c hc
      exact ⟨big, j, rc, rd, off, e, by omega, e2⟩
    rcases split_step_cases _ _ _ _ _ _ _ hsp with ⟨_, _, hcs, _⟩ | ⟨_, _, _, _, hcs, _⟩
    · rw [hcs]
      exact ⟨by omega, fun _ => h2, hold⟩
    · rw [hcs]
      refine ⟨by simp only [List.length_append, List.length_singleton]; omega, fun _ => h2, ?_⟩
      intro c hc
      rcases List.mem_append.1 hc with h1 | h1
      · exact hold c h1
      · rw [List.mem_singleton] at h1
        exact ⟨big, k, _, _, _, h1, le_refl _, by omega⟩

/-- With nothing available from class `k` up, the calls nest down to the rejected class
`MAX_UNTYPED_SIZE + 1`: one call less than that is not enough. -/
theorem alloc_depth_reached (d : Nat) :
    ∀ (a : allocator) (k : Nat), MIN_UNTYPED_SIZE ≤ k → k + d = MAX_UNTYPED_SIZE + 1 →
      (∀ j, k ≤ j → j ≤ MAX_UNTYPED_SIZE → ¬ class_avail a j) →
      alloc_untyped_fuel d a k = .error .out_of_fuel := by
  induction d with
  | zero =>
    intro a k _ _ _
    rfl
  | succ d ih =>
    intro a k h1 hd hna
    obtain ⟨hpc, hsc⟩ := scan_roots_none_of_not_avail a k (hna k (le_refl _) (by omega))
    rw [alloc_recurse d a k h1 (by omega) hpc hsc,
      ih a (k + 1) (by omega) (by omega) (fun j hj1 hj2 => hna j (by omega) hj2)]

/-- C22: `alloc_untyped` terminates for every allocator state and every size class.  The
model recurses on the number of calls still allowed, one per call, each recursive call
being made with the class plus one: it never exhausts the allowance; an out-of-range
request returns in the first call; an in-range request of class `k` needs the first call
and at most `MAX_UNTYPED_SIZE - k + 1` nested ones, a bound that is reached when nothing
is available; and a returning call performs at most `MAX_UNTYPED_SIZE - k`, hence at most
`MAX_UNTYPED_SIZE - MIN_UNTYPED_SIZE`, splits. -/
theorem alloc_untyped_terminates (a : allocator) (k : Nat) :
    allocator_alloc_untyped a k ≠ .error .out_of_fuel ∧
    (k < MIN_UNTYPED_SIZE ∨ MAX_UNTYPED_SIZE < k →
      ∀ n, alloc_untyped_fuel (1 + n) a k = .ok (0, a, [])) ∧
    (MIN_UNTYPED_SIZE ≤ k → k ≤ MAX_UNTYPED_SIZE →
      (∀ n, alloc_untyped_fuel (1 + (MAX_UNTYPED_SIZE - k + 1) + n) a k =
        allocator_alloc_untyped a k) ∧
      ((∀ j, k ≤ j → j ≤ MAX_UNTYPED_SIZE → ¬ class_avail a j) →
        alloc_untyped_fuel (MAX_UNTYPED_SIZE - k + 1) a k = .error .out_of_fuel) ∧
      ∀ r a' cs, allocator_alloc_untyped a k = .ok (r, a', cs) →
        cs.length ≤ MAX_UNTYPED_SIZE - k ∧
        cs.length ≤ MAX_UNTYPED_SIZE - MIN_UNTYPED_SIZE ∧
        ∀ c ∈ cs, ∃ big j rc rd off,
          c = .Untyped_Retype big seL4_UntypedObject j rc rd off 2 ∧ k ≤ j ∧
            j < MAX_UNTYPED_SIZE) := by
  refine ⟨alloc_untyped_total a k, ?_, ?_⟩
  · intro hr n
    rw [Nat.add_comm]
    exact alloc_out_of_range n a k hr
  · intro h1 h2
    refine ⟨?_, ?_, ?_⟩
    · intro n
      have e1 := alloc_fuel_add n (1 + (MAX_UNTYPED_SIZE - k + 1)) a k (by omega) (by omega)
      have e2 := alloc_fuel_add (k - MIN_UNTYPED_SIZE) (1 + (MAX_UNTYPED_SIZE - k + 1)) a k
        (by omega) (by omega)
      have e3 : 1 + (MAX_UNTYPED_SIZE - k + 1) + (k - MIN_UNTYPED_SIZE) = ALLOC_FUEL := by
        unfold ALLOC_FUEL MAX_UNTYPED_SIZE MIN_UNTYPED_SIZE at *
        omega
      rw [e1, ← e2, e3]
      rfl
    · intro hna
      exact alloc_depth_reached _ a k h1 (by omega) hna
    · intro r a' cs h
      obtain ⟨b1, _, b3⟩ := alloc_splits_bound _ a k r a' cs h
      exact ⟨b1, by omega, b3⟩

theorem alloc_untyped_terminates_witness :
    allocator_alloc_untyped ex_three_slots 5 ≠ .error .out_of_fuel ∧
    ((∀ n, alloc_untyped_fuel (1 + (MAX_UNTYPED_SIZE - 5 + 1) + n) ex_three_slots 5 =
        allocator_alloc_untyped ex_three_slots 5) ∧
      ((∀ j, 5 ≤ j → j ≤ MAX_UNTYPED_SIZE → ¬ class_avail ex_three_slots j) →
        alloc_untyped_fuel (MAX_UNTYPED_SIZE - 5 + 1) ex_three_slots 5 =
          .error .out_of_fuel) ∧
      ∀ r a' cs, allocator_alloc_untyped ex_three_slots 5 = .ok (r, a', cs) →
        cs.length ≤ MAX_UNTYPED_SIZE - 5 ∧
        cs.length ≤ MAX_UNTYPED_SIZE - MIN_UNTYPED_SIZE ∧
        ∀ c ∈ cs, ∃ big j rc rd off,
          c = .Untyped_Retype big seL4_UntypedObject j rc rd off 2 ∧ 5 ≤ j ∧
            j < MAX_UNTYPED_SIZE) ∧
    (∀ n, alloc_untyped_fuel (1 + n) ex_three_slots 33 = .ok (0, ex_three_slots, [])) :=
  ⟨(alloc_untyped_terminates ex_three_slots 5).1,
    (alloc_untyped_terminates ex_three_slots 5).2.2 (by decide) (by decide),
    (alloc_untyped_terminates ex_three_slots 33).2.1 (by decide)⟩

theorem split_safe_bump (a : allocator) (m : Nat) (h : split_safe a)
    (hfit : a.num_slots_used + m ≤ a.cslots.count) :
    split_safe { a with num_slots_used := uadd a.num_slots_used m } := by
  obtain ⟨hc, hb, hw, hp, hin⟩ := h
  rw [counter_ok_add a m hc hfit]
  refine ⟨⟨hfit, hc.2⟩, hb, hw, hp, ?_⟩
  intro i hi
  obtain ⟨p1, p2⟩ := hin i hi
  refine ⟨p1, ?_⟩
  show (pool_at a i).first < window_base a + (a.num_slots_used + m)
  omega

theorem split_safe_clear (a : allocator) (i : Nat) (p : cap_range) (h : split_safe a)
    (hp0 : p.count = 0) :
    split_safe { a with untyped_items := a.untyped_items.set i p } := by
  obtain ⟨hc, hb, hw, hp, hin⟩ := h
  refine ⟨hc, hb, hw, pools_ok_set a i p hp (Or.inl hp0), ?_⟩
  intro j hj
  have e := (pool_at_cleared a i j p hp0 hj).1
  rw [e] at hj ⊢
  exact hin j hj

theorem split_safe_roots (a : allocator) (l : List init_untyped_item) (h : split_safe a) :
    split_safe { a with init_untyped_items := l } := h

theorem split_safe_put (a : allocator) (i : Nat) (p : cap_range) (h : split_safe a)
    (hc1 : p.count = 1) (h0 : 0 < p.first) (hW : p.first < WORD)
    (hin1 : window_base a ≤ p.first ∧ p.first < window_base a + a.num_slots_used) :
    split_safe { a with untyped_items := a.untyped_items.set i p } := by
  obtain ⟨hc, hb, hw, hp, hin⟩ := h
  refine ⟨hc, hb, hw, pools_ok_set a i p hp (Or.inr ⟨hc1, h0, hW⟩), ?_⟩
  intro j hj
  rw [pool_at_set] at hj ⊢
  by_cases hcase : j = i ∧ i < a.untyped_items.length
  · rw [if_pos hcase]
    exact hin1
  · rw [if_neg hcase] at hj ⊢
    exact hin j hj

/-- What the split step does in a safe state: no slots, or the two slots at the counter. -/
theorem split_step_safe (a2 : allocator) (big k : Nat) (calls : List kernel_call)
    (h : split_safe a2) :
    (to_int (slots_remaining a2) < 2 ∧
      split_step a2 big k calls =
        .ok (0, { a2 with untyped_items := a2.untyped_items.set (k - MIN_UNTYPED_SIZE) ⟨0, 0⟩ },
          calls)) ∨
    (a2.num_slots_used + 2 ≤ a2.cslots.count ∧
      next_slot a2 = window_base a2 + a2.num_slots_used ∧
      uadd (next_slot a2) 1 = window_base a2 + a2.num_slots_used + 1 ∧
      uadd a2.num_slots_used 2 = a2.num_slots_used + 2 ∧
      split_step a2 big k calls =
        .ok (uadd (next_slot a2) 1,
          { a2 with
            num_slots_used := uadd a2.num_slots_used 2
            untyped_items := a2.untyped_items.set (k - MIN_UNTYPED_SIZE) ⟨next_slot a2, 1⟩ },
          calls ++ [.Untyped_Retype big seL4_UntypedObject k a2.root_cnode a2.root_cnode_depth
            (uadd a2.cslots.first a2.num_slots_used) 2])) := by
  obtain ⟨hc, hb, hw, hp, hin⟩ := h
  by_cases hlt : to_int (slots_remaining a2) < 2
  · exact Or.inl ⟨hlt, split_step_fail a2 big k calls hlt⟩
  · have hge : (2 : Int) ≤ to_int (slots_remaining a2) := by omega
    have hfit := (retype_fits a2 2 hc (by decide) hge).1
    have h22 : to_ulong 2 = 2 := by decide
    rw [h22] at hfit
    have hnext := next_slot_eq a2 hw (by omega)
    have hnext1 : uadd (next_slot a2) 1 = window_base a2 + a2.num_slots_used + 1 := by
      rw [hnext]
      unfold WORD at hw
      unfold uadd WORD
      omega
    refine Or.inr ⟨hfit, hnext, hnext1, counter_ok_add a2 2 hc hfit, ?_⟩
    exact split_step_ok a2 big k calls hge (by rw [hnext]; omega) (by rw [hnext1]; omega)

/-- Safe states stay safe through `alloc_untyped`, and a non-zero result is a real cap. -/
theorem alloc_safe (fuel : Nat) (a : allocator) (k r : Nat) (a' : allocator)
    (cs : List kernel_call) (h : alloc_untyped_fuel fuel a k = .ok (r, a', cs))
    (hs : split_safe a) : split_safe a' ∧ (r ≠ 0 → real_handle a a' k r cs) := by
  revert h hs
  refine alloc_induct
    (P := fun k a r a' cs => split_safe a → split_safe a' ∧ (r ≠ 0 → real_handle a a' k r cs))
    ?_ ?_ ?_ ?_ ?_ fuel a k r a' cs
  · intro a k _ hs
    exact ⟨hs, fun h => absurd rfl h⟩
  · intro a k res pool1 h1 h2 hra hres hs
    have hp := hs.2.2.2.1
    have hp0 := range_alloc_rest _ _ _ (pool_of_ok a k hp) hra
    refine ⟨split_safe_clear a _ pool1 hs hp0, fun _ => Or.inl ?_⟩
    rcases range_alloc_cases _ _ _ (pool_of_ok a k hp) hra with ⟨_, h0, _⟩ | ⟨hc, hr, _, _⟩
    · exact absurd h0 hres
    · have hcnt : (pool_at a (k - MIN_UNTYPED_SIZE)).count ≠ 0 := by
        show (pool_of a k).count ≠ 0
        omega
      obtain ⟨p1, p2⟩ := hs.2.2.2.2 _ hcnt
      have hr' : res = (pool_at a (k - MIN_UNTYPED_SIZE)).first := hr
      exact ⟨hc, hr, by rw [hr']; exact p1, by rw [hr']; exact p2⟩
  · intro a k pool1 c items1 h1 h2 hra hsc hs
    have hp := hs.2.2.2.1
    have hp0 := range_alloc_rest _ _ _ (pool_of_ok a k hp) hra
    refine ⟨split_safe_roots _ items1 (split_safe_clear a _ pool1 hs hp0),
      fun _ => Or.inr (Or.inl ?_)⟩
    obtain ⟨it, hit, e1, e2, e3⟩ := scan_roots_mem _ _ _ _ hsc
    exact ⟨it, hit, e2, e3, e1⟩
  · intro a k pool1 a2 calls h1 h2 hra hsc ih hs
    have hp := hs.2.2.2.1
    have hp0 := range_alloc_rest _ _ _ (pool_of_ok a k hp) hra
    exact ⟨(ih (split_safe_clear a _ pool1 hs hp0)).1, fun h => absurd rfl h⟩
  · intro a k pool1 big a2 calls r a' cs h1 h2 hra hsc ih hbig hsp hs
    have hp := hs.2.2.2.1
    have hp0 := range_alloc_rest _ _ _ (pool_of_ok a k hp) hra
    have hs2 := (ih (split_safe_clear a _ pool1 hs hp0)).1
    obtain ⟨hc2, hb2, hw2, hp2, hin2⟩ := id hs2
    rcases split_step_safe a2 big k calls hs2 with ⟨_, he⟩ | ⟨hfit, hnext, hnext1, hadd, he⟩
    · rw [he] at hsp
      simp only [Except.ok.injEq, Prod.mk.injEq] at hsp
      obtain ⟨e1, e2, e3⟩ := hsp
      subst e1 e2 e3
      exact ⟨split_safe_clear a2 _ ⟨0, 0⟩ hs2 rfl, fun h => absurd rfl h⟩
    · rw [he] at hsp
      simp only [Except.ok.injEq, Prod.mk.injEq] at hsp
      obtain ⟨e1, e2, e3⟩ := hsp
      subst e1 e2 e3
      have hlen := pool_index_lt a2 k hp2 h2
      have hoff : uadd a2.cslots.first a2.num_slots_used =
          a2.cslots.first + a2.num_slots_used := by
        unfold window_base WORD at hw2
        unfold uadd WORD
        omega
      constructor
      · refine split_safe_put { a2 with num_slots_used := uadd a2.num_slots_used 2 }
          (k - MIN_UNTYPED_SIZE) ⟨next_slot a2, 1⟩ (split_safe_bump a2 2 hs2 hfit) rfl
          (by show 0 < next_slot a2; rw [hnext]; omega) (next_slot_lt a2) ?_
        show window_base a2 ≤ next_slot a2 ∧
          next_slot a2 < window_base a2 + uadd a2.num_slots_used 2
        rw [hnext, hadd]
        omega
      · intro _
        refine Or.inr (Or.inr ⟨big, calls, hbig, ?_, ?_, ?_, ?_⟩)
        · show calls ++ [kernel_call.Untyped_Retype big seL4_UntypedObject k a2.root_cnode
              a2.root_cnode_depth (uadd a2.cslots.first a2.num_slots_used) 2] =
            calls ++ [kernel_call.Untyped_Retype big seL4_UntypedObject k a2.root_cnode
              a2.root_cnode_depth (a2.cslots.first + (uadd a2.num_slots_used 2 - 2)) 2]
          rw [hoff, hadd]
          simp
        · show 2 ≤ uadd a2.num_slots_used 2
          rw [hadd]
          omega
        · show uadd (next_slot a2) 1 =
            a2.cslots.first + (uadd a2.num_slots_used 2 - 2) + a2.root_cnode_offset + 1
          rw [hnext1, hadd]
          unfold window_base
          omega
        · unfold pool_of
          simp only
          rw [getD_set_eq _ _ _ _ hlen, hnext1, hnext]
          simp

/-- In a safe state `alloc_untyped` can only stop for lack of allowed calls: neither
assertion of the split path fails. -/
theorem alloc_safe_faults (fuel : Nat) :
    ∀ (a : allocator) (k : Nat) (e : fault), split_safe a →
      alloc_untyped_fuel fuel a k = .error e → e = .out_of_fuel := by
  induction fuel with
  | zero =>
    intro a k e _ h
    simp only [alloc_untyped_fuel, Except.error.injEq] at h
    exact h.symm
  | succ f ih =>
    intro a k e hs h
    by_cases hr : k < MIN_UNTYPED_SIZE ∨ MAX_UNTYPED_SIZE < k
    · rw [alloc_out_of_range f a k hr] at h
      cases h
    · have h1 : MIN_UNTYPED_SIZE ≤ k := by omega
      have h2 : k ≤ MAX_UNTYPED_SIZE := by omega
      rcases pool_of_ok a k hs.2.2.2.1 with hc | ⟨hc, h0, hW⟩
      · cases hsc : scan_roots a.init_untyped_items k with
        | some v =>
          obtain ⟨c, items1⟩ := v
          rw [alloc_root_hit f a k c items1 h1 h2 hc hsc] at h
          cases h
        | none =>
          rw [alloc_recurse f a k h1 h2 hc hsc] at h
          cases hrec : alloc_untyped_fuel f a (k + 1) with
          | error e1 =>
            rw [hrec] at h
            simp only [Except.error.injEq] at h
            rw [← h]
            exact ih a (k + 1) e1 hs hrec
          | ok v =>
            obtain ⟨big, a2, calls⟩ := v
            rw [hrec] at h
            simp only at h
            by_cases hb : big = 0
            · simp [hb] at h
            · simp only [hb, if_false] at h
              have hs2 := (alloc_safe f a (k + 1) big a2 calls hrec hs).1
              rcases split_step_safe a2 big k calls hs2 with ⟨_, he⟩ | ⟨_, _, _, _, he⟩
              · rw [he] at h
                cases h
              · rw [he] at h
                cases h
      · have hpool : pool_of a k = ⟨(pool_of a k).first, 1⟩ := by
          rw [← hc]
        rw [alloc_pool_hit f a k _ h1 h2 hpool h0 hW] at h
        cases h

theorem alloc_safe_returns (a : allocator) (k : Nat) (hs : split_safe a) :
    ∃ r a' cs, allocator_alloc_untyped a k = .ok (r, a', cs) := by
  cases h : allocator_alloc_untyped a k with
  | error e =>
    have := alloc_safe_faults ALLOC_FUEL a k e hs h
    rw [this] at h
    exact absurd h (alloc_untyped_total a k)
  | ok v =>
    obtain ⟨r, a', cs⟩ := v
    exact ⟨r, a', cs, rfl⟩

/-- Safe states stay safe through every call of the client interface. -/
theorem serve_safe (f : Nat → Nat → Nat) (q : request) (a a' : allocator) (hs : List Nat)
    (hv : valid_request q) (hsafe : split_safe a) (h : serve f q a = .ok (hs, a')) :
    split_safe a' := by
  have hco := hsafe.1
  have hcc := hco
  unfold counter_ok at hcc
  cases q with
  | alloc o =>
    cases o with
    | alloc_cslot =>
      rw [serve_alloc_cslot] at h
      simp only [Except.ok.injEq, Prod.mk.injEq] at h
      rcases alloc_cslot_cond a with ⟨_, he⟩ | ⟨hne, he⟩
      · rw [he] at h
        rw [← h.2]
        exact hsafe
      · rw [he] at h
        rw [← h.2]
        have hfit : a.num_slots_used + 1 ≤ a.cslots.count := by
          unfold usub WORD at hne
          unfold WORD at hcc
          omega
        exact split_safe_bump a 1 hsafe hfit
    | alloc_cslots n =>
      rw [serve_alloc_cslots] at h
      simp only [Except.ok.injEq, Prod.mk.injEq] at h
      rcases alloc_cslots_cond a n with ⟨_, he⟩ | ⟨hle, he⟩
      · rw [he] at h
        rw [← h.2]
        exact hsafe
      · rw [he] at h
        rw [← h.2]
        have hfit : a.num_slots_used + to_ulong n ≤ a.cslots.count := by
          unfold usub WORD at hle
          unfold WORD at hcc
          omega
        exact split_safe_bump a (to_ulong n) hsafe hfit
    | alloc_untyped k =>
      rw [serve_alloc_untyped] at h
      cases hu : allocator_alloc_untyped a k with
      | error e => rw [hu] at h; simp at h
      | ok v =>
        obtain ⟨r, a1, cs⟩ := v
        rw [hu] at h
        simp only [Except.ok.injEq, Prod.mk.injEq] at h
        rw [← h.2]
        exact (alloc_safe _ a k r a1 cs hu hsafe).1
    | retype_untyped_memory u t s n =>
      rw [serve_retype] at h
      have hn : 0 ≤ n := hv
      rcases retype_cond a u t s n with ⟨_, he⟩ | ⟨hle, he⟩
      · rw [he] at h
        simp only [Except.ok.injEq, Prod.mk.injEq] at h
        rw [← h.2]
        exact hsafe
      · rw [he] at h
        simp only [Except.ok.injEq, Prod.mk.injEq] at h
        rw [← h.2]
        exact split_safe_bump a (to_ulong n) hsafe (retype_fits a n hco hn hle).1
  | alloc_kobject t s =>
    rw [serve_alloc_kobject] at h
    cases hk : allocator_alloc_kobject f a t s with
    | error e => rw [hk] at h; simp at h
    | ok v =>
      obtain ⟨r, a2, cs⟩ := v
      rw [hk] at h
      simp only [Except.ok.injEq, Prod.mk.injEq] at h
      rw [← h.2]
      obtain ⟨u, a1, cs1, hu, hcase⟩ := alloc_kobject_cases f a t s r a2 cs hk
      have hs1 := (alloc_safe _ a (f t s) u a1 cs1 hu hsafe).1
      rcases hcase with ⟨_, _, e⟩ | ⟨_, _, _, e⟩ | ⟨_, hge, _, e⟩
      · rw [e]; exact hs1
      · rw [e]; exact hs1
      · rw [e]
        have hfit := (retype_fits a1 1 hs1.1 (by decide) hge).1
        have h11 : to_ulong 1 = 1 := by decide
        rw [h11] at hfit
        exact split_safe_bump a1 1 hs1 hfit
  | add_root_untyped_item cap k =>
    rw [serve_add_root] at h
    cases hk : allocator_add_root_untyped_item a cap k with
    | error e => rw [hk] at h; simp at h
    | ok a1 =>
      rw [hk] at h
      simp only [Except.ok.injEq, Prod.mk.injEq] at h
      rw [← h.2, (add_root_shape a a1 cap k hk).1]
      exact split_safe_roots a _ hsafe
  | reset =>
    rw [serve_reset, reset_eq] at h
    simp only [Except.ok.injEq, Prod.mk.injEq] at h
    rw [← h.2]
    obtain ⟨_, hb, hw, _, _⟩ := hsafe
    refine ⟨⟨Nat.zero_le _, hcc.2⟩, hb, hw, empty_pools_ok _ rfl, ?_⟩
    intro i hi
    exact absurd (empty_pool_at i) hi

theorem serve_all_safe (f : Nat → Nat → Nat) (qs : List request) :
    ∀ (a a' : allocator) (hs : List Nat), (∀ q ∈ qs, valid_request q) → split_safe a →
      serve_all f qs a = .ok (hs, a') → split_safe a' := by
  induction qs with
  | nil =>
    intro a a' hs _ hsafe h
    unfold serve_all at h
    simp only [Except.ok.injEq, Prod.mk.injEq] at h
    rw [← h.2]
    exact hsafe
  | cons q rest ih =>
    intro a a' hs hv hsafe h
    rw [serve_all_cons] at h
    cases h1 : serve f q a with
    | error e => rw [h1] at h; simp at h
    | ok v =>
      obtain ⟨hs1, a1⟩ := v
      rw [h1] at h
      simp only at h
      cases h2 : serve_all f rest a1 with
      | error e => rw [h2] at h; simp at h
      | ok w =>
        obtain ⟨hs2, a2⟩ := w
        rw [h2] at h
        simp only [Except.ok.injEq, Prod.mk.injEq] at h
        rw [← h.2]
        exact ih a1 a2 hs2 (fun x hx => hv x (List.mem_cons_of_mem _ hx))
          (serve_safe f q a a1 hs1 (hv q (List.mem_cons_self _ _)) hsafe h1) h2

theorem create_safe (rc rd ro first n : Nat) (items : List untyped_item) (a0 : allocator)
    (hbase : 1 ≤ first + ro) (hwrap : first + ro + n ≤ WORD)
    (hcreate : allocator_create rc rd ro first n items = .ok a0) : split_safe a0 := by
  rw [create_shape rc rd ro first n items a0 hcreate]
  refine ⟨⟨Nat.zero_le _, ?_⟩, hbase, hwrap, empty_pools_ok _ rfl, ?_⟩
  · show n < WORD
    omega
  · intro i hi
    exact absurd (empty_pool_at i) hi

/-- C21 (amended): assertion validity on the split path.  For every allocator created
with `first_slot + root_cnode_offset ≥ 1` over a window that does not wrap around
(`first_slot + root_cnode_offset + num_slots ≤ 2 ^ 32`), in every
state reached by `alloc_cslot`, `alloc_cslots`, `retype_untyped_memory` (non-negative
count), `alloc_untyped`, `alloc_kobject`, `add_root_untyped_item` and `reset` calls:
each pool with a non-zero count has a non-zero first cap, so `range_alloc` on any pool
returns; `alloc_untyped` of any class returns, neither `assert(range->first)` nor
`assert(result)` failing; and a non-zero result is a real cap: the pooled item of the
class, an available root item of the class, or the second of the two slots the last
split filled. -/
theorem split_asserts_hold (f : Nat → Nat → Nat) (rc rd ro first n : Nat)
    (items : List untyped_item) (a0 a : allocator) (qs : List request) (hs : List Nat)
    (hbase : 1 ≤ first + ro) (hwrap : first + ro + n ≤ WORD)
    (hcreate : allocator_create rc rd ro first n items = .ok a0)
    (hv : ∀ q ∈ qs, valid_request q) (hrun : serve_all f qs a0 = .ok (hs, a)) :
    (∀ p ∈ a.untyped_items, p.count ≠ 0 → p.first ≠ 0) ∧
    (∀ p ∈ a.untyped_items, ∃ res pool1, range_alloc p 1 = .ok (res, pool1)) ∧
    ∀ k, ∃ r a' cs, allocator_alloc_untyped a k = .ok (r, a', cs) ∧
      (∀ p ∈ a'.untyped_items, p.count ≠ 0 → p.first ≠ 0) ∧
      (r ≠ 0 → real_handle a a' k r cs) := by
  have hsafe := serve_all_safe f qs a0 a hs hv
    (create_safe rc rd ro first n items a0 hbase hwrap hcreate) hrun
  have key : ∀ b : allocator, split_safe b →
      ∀ p ∈ b.untyped_items, p.count ≠ 0 → p.first ≠ 0 := by
    intro b hb p hp hc
    rcases hb.2.2.2.1.2 p hp with h0 | ⟨_, h1, _⟩
    · exact absurd h0 hc
    · omega
  refine ⟨key a hsafe, ?_, ?_⟩
  · intro p hp
    rcases hsafe.2.2.2.1.2 p hp with h0 | ⟨h1, h2, h3⟩
    · refine ⟨0, p, ?_⟩
      obtain ⟨pf, pc⟩ := p
      simp only at h0
      subst h0
      exact range_alloc_empty pf
    · refine ⟨p.first, ⟨p.first, 0⟩, ?_⟩
      obtain ⟨pf, pc⟩ := p
      simp only at h1 h2 h3
      subst h1
      exact range_alloc_one pf h2 h3
  · intro k
    obtain ⟨r, a', cs, hret⟩ := alloc_safe_returns a k hsafe
    obtain ⟨s1, s2⟩ := alloc_safe _ a k r a' cs hret hsafe
    exact ⟨r, a', cs, hret, key a' s1, s2⟩

theorem split_asserts_hold_witness :
    (∀ p ∈ ex_epoch.untyped_items, p.count ≠ 0 → p.first ≠ 0) ∧
    (∀ p ∈ ex_epoch.untyped_items, ∃ res pool1, range_alloc p 1 = .ok (res, pool1)) ∧
    ∀ k, ∃ r a' cs, allocator_alloc_untyped ex_epoch k = .ok (r, a', cs) ∧
      (∀ p ∈ a'.untyped_items, p.count ≠ 0 → p.first ≠ 0) ∧
      (r ≠ 0 → real_handle ex_epoch a' k r cs) :=
  split_asserts_hold (fun _ _ => 4) 2 32 0 10 8 [⟨100, 6⟩, ⟨101, 4⟩]
    ⟨2, 32, 0, ⟨10, 8⟩, 0, [⟨100, 6, true⟩, ⟨101, 4, true⟩], empty_pools⟩ ex_epoch
    [.alloc .alloc_cslot, .alloc (.alloc_untyped 5), .alloc (.retype_untyped_memory 13 1 0 1),
      .alloc (.alloc_cslots 1), .alloc_kobject 1 0]
    [10, 12, 13, 14, 15] (by decide) (by decide) (by decide) (by decide) (by decide)

/-- Counterexample to C21 as stated.  The allocator of
`allocator_create 2 32 0 4294967294 4 [(100, 5)]` has `first_slot + root_cnode_offset ≥ 1`;
after `alloc_cslots(2)` the next slot wraps around to 0, and `alloc_untyped(4)` stops at
`assert(range->first)` in `range_alloc`.  With the window one slot lower the first slot
of the split is `2 ^ 32 - 1`, the result wraps around to 0, and `alloc_untyped(4)` stops
at `assert(result)`. -/
theorem split_asserts_counterexample :
    1 ≤ 4294967294 + 0 ∧
    allocator_create 2 32 0 4294967294 4 [⟨100, 5⟩] =
      .ok ⟨2, 32, 0, ⟨4294967294, 4⟩, 0, [⟨100, 5, true⟩], empty_pools⟩ ∧
    serve_all (fun _ _ => 4) [.alloc (.alloc_cslots 2)]
        ⟨2, 32, 0, ⟨4294967294, 4⟩, 0, [⟨100, 5, true⟩], empty_pools⟩ =
      .ok ([4294967294, 4294967295], ex_wrap) ∧
    allocator_alloc_untyped ex_wrap 4 = .error .assert_range_first ∧
    allocator_create 2 32 0 4294967293 4 [⟨100, 5⟩] =
      .ok ⟨2, 32, 0, ⟨4294967293, 4⟩, 0, [⟨100, 5, true⟩], empty_pools⟩ ∧
    serve_all (fun _ _ => 4) [.alloc (.alloc_cslots 2)]
        ⟨2, 32, 0, ⟨4294967293, 4⟩, 0, [⟨100, 5, true⟩], empty_pools⟩ =
      .ok ([4294967293, 4294967294], ex_wrap_next) ∧
    allocator_alloc_untyped ex_wrap_next 4 = .error .assert_split_result := by
  decide

set_option maxRecDepth 1000000 in
set_option maxHeartbeats 0 in
/-- Counterexample to C14 as stated.  A table of 256 root items of class 32 (255 given to
`allocator_create`, one added) after one `alloc_untyped(30)` is a parent with well-formed
pools and root table that holds 257 available items: 255 root items and the items of
pools 31 and 30.  `allocator_create_child` on it yields no child: the drain stops at the
assertion of `allocator_add_root_untyped_item` that the child's root table is not full. -/
theorem child_root_table_counterexample :
    allocator_create 2 32 0 10 5 (⟨100, 32⟩ :: List.replicate 254 ⟨1, 32⟩) =
      .ok ⟨2, 32, 0, ⟨10, 5⟩, 0, ⟨100, 32, true⟩ :: List.replicate 254 ⟨1, 32, true⟩,
        empty_pools⟩ ∧
    serve_all (fun _ _ => 4) [.add_root_untyped_item 1 32, .alloc (.alloc_untyped 30)]
        ⟨2, 32, 0, ⟨10, 5⟩, 0, ⟨100, 32, true⟩ :: List.replicate 254 ⟨1, 32, true⟩,
          empty_pools⟩ =
      .ok ([13], ex_crowded) ∧
    pools_ok ex_crowded ∧ roots_ok ex_crowded ∧ avail_items ex_crowded = 257 ∧
    allocator_create_child ex_crowded 3 32 0 20 4 = .error .assert_table_full := by
  decide

end Twinkle
